import Mathlib

/-!
# fast-feedback-indexer: the refinement facade of `indexer/src/refine.h`

A shallow embedding of `fast_feedback::refine::indexer`, `indexer_lsq` and
`indexer_ifme`.

Conventions of the embedding

* `float_type` is embedded as `ℚ`: arithmetic is exact, there is no NaN, no
  infinity and no rounding error, and `x / 0 = 0`.
* `unsigned` is embedded as `Nat`; where the source computes with unsigned
  values the result is reduced modulo `2 ^ 32` (`u32`).
* A `Dynamic x 3` Eigen matrix is a list of rows (`Mx3`), a fixed `3 x 3` matrix
  is the structure `M3` of its three row vectors.
* A member function that can throw returns the facade state after the call
  together with an `Outcome`.
* Routines of the Eigen and C++ standard libraries that are no exact rational
  functions (`sqrt`, `exp`, the QR solve) are parameters of the refiners; the
  general theorems hold for every choice of them, and concrete inputs are
  evaluated with `exact_sqrt` and `normal_solve`.
* The `do ... while (true)` loop of the trimmed refiner is run with fuel; the
  line it writes to `std::cout` is left out.
* The setter `num_sample_points (nsp)` calls `check_config ()` without
  arguments, which the class does not declare; the callee is a parameter
  `check` of the embedded setter.
-/

namespace fast_feedback

/-! ## Configuration structures -/

/-- Modelled from the spec: the persistent configuration
`fast_feedback::config_persistent` is declared in `indexer.h`, which is not part of the
sources; the four `unsigned` fields are those read by `refine.h`. -/
structure config_persistent where
  max_output_cells : Nat
  max_input_cells : Nat
  max_spots : Nat
  num_candidate_vectors : Nat
deriving DecidableEq, Repr

/-- Modelled from the spec: the runtime configuration `fast_feedback::config_runtime`
is declared in `indexer.h`, which is not part of the sources; the fields are those read
and written by `refine.h`. -/
structure config_runtime where
  length_threshold : ℚ
  triml : ℚ
  trimh : ℚ
  num_sample_points : Nat
deriving DecidableEq, Repr

namespace refine

/-- The result of a call that may throw `FF_EXCEPTION(msg)`. -/
inductive Outcome where
  | ok : Outcome
  | threw (msg : String) : Outcome
deriving DecidableEq, Repr

/-- Embedding of `indexer::check_config (cp, cr)` (refine.h, lines 64-83): the first
`if` whose condition holds throws. -/
def check_config (cp : config_persistent) (cr : config_runtime) : Outcome :=
  if cp.max_input_cells ≤ 0 then
    .threw "no input cells"
  else if cp.max_output_cells ≤ 0 then
    .threw "no output cells"
  else if cp.max_spots ≤ 0 then
    .threw "no spots"
  else if cp.num_candidate_vectors < 1 then
    .threw "nonpositive number of candidate vectors"
  else if cr.num_sample_points < cp.num_candidate_vectors then
    .threw "fewer sample points than required candidate vectors"
  else if cr.triml < 0 then
    .threw "lower trim value < 0"
  else if cr.triml > cr.trimh then
    .threw "lower > higher trim value"
  else if cr.trimh > 1 / 2 then
    .threw "higher trim value > 0.5"
  else
    .ok

/-- The eight validation rules in the words of the specification, in its precedence
order: whether the rule is violated, and the message of the rule. -/
def validation_rules (cp : config_persistent) (cr : config_runtime) : List (Bool × String) :=
  [ (decide (cp.max_input_cells = 0), "no input cells"),
    (decide (cp.max_output_cells = 0), "no output cells"),
    (decide (cp.max_spots = 0), "no spots"),
    (decide (cp.num_candidate_vectors < 1), "nonpositive number of candidate vectors"),
    (decide (cr.num_sample_points < cp.num_candidate_vectors),
      "fewer sample points than required candidate vectors"),
    (decide (cr.triml < 0), "lower trim value < 0"),
    (decide (cr.triml > cr.trimh), "lower > higher trim value"),
    (decide (cr.trimh > 1 / 2), "higher trim value > 0.5") ]

/-- The message of the first violated rule of `validation_rules`, if any. -/
def first_violated (cp : config_persistent) (cr : config_runtime) : Option String :=
  ((validation_rules cp cr).find? (fun r => r.1)).map (fun r => r.2)

/-! ## Numeric containers -/

/-- The `unsigned` result of an arithmetic expression: reduction modulo `2 ^ 32`. -/
def u32 (n : Nat) : Nat := n % 2 ^ 32

/-- The `unsigned` difference `a - b`, which wraps around below zero. -/
def usub (a b : Nat) : Nat := (a % 2 ^ 32 + 2 ^ 32 - b % 2 ^ 32) % 2 ^ 32

/-- One row of an `Eigen::Matrix<float_type, Dynamic, 3>`. -/
structure Vec3 where
  x : ℚ
  y : ℚ
  z : ℚ
deriving DecidableEq, Repr

/-- An `Eigen::Matrix<float_type, Dynamic, 3>`: the list of its rows. -/
abbrev Mx3 := List Vec3

/-- An `Eigen::Matrix<float_type, 3, 3>`, given by its three rows. -/
structure M3 where
  r0 : Vec3
  r1 : Vec3
  r2 : Vec3
deriving DecidableEq, Repr

namespace Vec3

/-- The zero row. -/
def zero : Vec3 := ⟨0, 0, 0⟩

/-- Componentwise sum. -/
def add (a b : Vec3) : Vec3 := ⟨a.x + b.x, a.y + b.y, a.z + b.z⟩

/-- Componentwise difference. -/
def sub (a b : Vec3) : Vec3 := ⟨a.x - b.x, a.y - b.y, a.z - b.z⟩

/-- Multiplication of a row by a scalar. -/
def smul (c : ℚ) (a : Vec3) : Vec3 := ⟨c * a.x, c * a.y, c * a.z⟩

/-- The row vector `v` times the matrix `m`. -/
def mulM (v : Vec3) (m : M3) : Vec3 :=
  ⟨v.x * m.r0.x + v.y * m.r1.x + v.z * m.r2.x,
   v.x * m.r0.y + v.y * m.r1.y + v.z * m.r2.y,
   v.x * m.r0.z + v.y * m.r1.z + v.z * m.r2.z⟩

/-- The squared Euclidean norm of a row. -/
def sqnorm (a : Vec3) : ℚ := a.x * a.x + a.y * a.y + a.z * a.z

/-- The largest absolute component of a row: `abs().maxCoeff()`. -/
def maxAbs (a : Vec3) : ℚ := max (max |a.x| |a.y|) |a.z|

end Vec3

/-- The value of `std::round`: the nearest integer, halfway cases away from zero. -/
def cround (q : ℚ) : ℚ := if 0 ≤ q then (⌊q + 1 / 2⌋ : ℤ) else (⌈q - 1 / 2⌉ : ℤ)

/-- Componentwise `round` of a row. -/
def Vec3.round (a : Vec3) : Vec3 := ⟨cround a.x, cround a.y, cround a.z⟩

namespace M3

/-- The identity matrix. -/
def one : M3 := ⟨⟨1, 0, 0⟩, ⟨0, 1, 0⟩, ⟨0, 0, 1⟩⟩

/-- The sum of two matrices. -/
def add (a b : M3) : M3 := ⟨a.r0.add b.r0, a.r1.add b.r1, a.r2.add b.r2⟩

/-- The matrix product `a * b`. -/
def mul (a b : M3) : M3 := ⟨a.r0.mulM b, a.r1.mulM b, a.r2.mulM b⟩

/-- The determinant. -/
def det (m : M3) : ℚ :=
  m.r0.x * (m.r1.y * m.r2.z - m.r1.z * m.r2.y)
    - m.r0.y * (m.r1.x * m.r2.z - m.r1.z * m.r2.x)
    + m.r0.z * (m.r1.x * m.r2.y - m.r1.y * m.r2.x)

/-- The value of `inverse()` on a fixed-size 3 x 3 matrix: the transposed cofactor matrix
times the reciprocal of the determinant. For a singular matrix the reciprocal is `0` here,
where the floating-point code produces infinities or NaN. -/
def inverse (m : M3) : M3 :=
  let d := (det m)⁻¹
  ⟨⟨(m.r1.y * m.r2.z - m.r1.z * m.r2.y) * d,
    (m.r0.z * m.r2.y - m.r0.y * m.r2.z) * d,
    (m.r0.y * m.r1.z - m.r0.z * m.r1.y) * d⟩,
   ⟨(m.r1.z * m.r2.x - m.r1.x * m.r2.z) * d,
    (m.r0.x * m.r2.z - m.r0.z * m.r2.x) * d,
    (m.r0.z * m.r1.x - m.r0.x * m.r1.z) * d⟩,
   ⟨(m.r1.x * m.r2.y - m.r1.y * m.r2.x) * d,
    (m.r0.y * m.r2.x - m.r0.x * m.r2.y) * d,
    (m.r0.x * m.r1.y - m.r0.y * m.r1.x) * d⟩⟩

end M3

namespace Mx3

/-- Row `i` of a matrix (the zero row outside the matrix, where the source reads out of
bounds). -/
def row (m : Mx3) (i : Nat) : Vec3 := m.getD i Vec3.zero

/-- The rows of `block(start, 0, n, 3)`. -/
def block (m : Mx3) (start n : Nat) : Mx3 := (m.drop start).take n

/-- The rows of `bottomRows(n)`. -/
def bottomRows (m : Mx3) (n : Nat) : Mx3 := m.drop (m.length - n)

/-- The rows of `topRows(n)`. -/
def topRows (m : Mx3) (n : Nat) : Mx3 := m.take n

/-- The fixed-size matrix read from `block(start, 0, 3, 3)`. -/
def block3 (m : Mx3) (start : Nat) : M3 := ⟨row m start, row m (start + 1), row m (start + 2)⟩

/-- The matrix after the assignment `block(start, 0, 3, 3) = c`. -/
def setBlock3 (m : Mx3) (start : Nat) (c : M3) : Mx3 :=
  ((m.set start c.r0).set (start + 1) c.r1).set (start + 2) c.r2

/-- The product `m * b` of a `Dynamic x 3` matrix with a 3 x 3 matrix. -/
def mulM (m : Mx3) (b : M3) : Mx3 := m.map (fun v => v.mulM b)

/-- Componentwise `round`. -/
def round (m : Mx3) : Mx3 := m.map Vec3.round

/-- The difference of two matrices of the same number of rows. -/
def sub (a b : Mx3) : Mx3 := List.zipWith Vec3.sub a b

/-- The value of `sel.select(m, 0)` where every row of `sel` is constant: the rows of `m`
whose flag is set, a zero row elsewhere. -/
def select (sel : List Bool) (m : Mx3) : Mx3 :=
  List.zipWith (fun b v => if b then v else Vec3.zero) sel m

end Mx3

/-- The value of `mean()` of a vector of coefficients: the sum divided by the size. -/
def mean (l : List ℚ) : ℚ := l.sum / (l.length : ℚ)

/-! ## The facade `indexer` -/

end refine

/-- Modelled from the spec: the input view `fast_feedback::input` handed to the engine is
declared in `indexer.h`, which is not part of the sources. `refine.h` initialises it with
three coordinate pointers and two counts; a pointer `&coords(r, c)` into column `c` of the
coordinate buffer is embedded as its row `r`. The view holds `3 * n_cells` rows of input
basis vectors followed by `n_spots` rows of spots. -/
structure input where
  x : Nat
  y : Nat
  z : Nat
  n_cells : Nat
  n_spots : Nat
deriving DecidableEq, Repr

namespace refine

/-- The data members of `refine::indexer` (refine.h, lines 53-62). `cpers` is `idx.cpers`,
`input` is `fut.input`, and `ready` is the completion flag `fut.fut.is_ready()` of the
engine's future; the output view `fut.output` always addresses `cells` and `scores` and the
memory pins have no state of their own. -/
structure indexer where
  coords : Mx3
  cells : Mx3
  scores : List ℚ
  crt : config_runtime
  cpers : config_persistent
  input : input
  ready : Bool
deriving DecidableEq, Repr

namespace indexer

/-- The member initialisers of the constructor (refine.h, lines 87-96); fresh buffers are
taken to be zero and no request is outstanding. -/
def init (cp : config_persistent) (cr : config_runtime) : indexer :=
  { coords := List.replicate (u32 (cp.max_spots + u32 (3 * cp.max_input_cells))) Vec3.zero
    cells := List.replicate (u32 (3 * cp.max_output_cells)) Vec3.zero
    scores := List.replicate cp.max_output_cells 0
    crt := cr
    cpers := cp
    input := ⟨0, 0, 0, 0, 0⟩
    ready := false }

/-- The constructor `indexer (cp, cr)` (refine.h, lines 85-99): it throws what
`check_config` throws, and otherwise yields the initialised facade. -/
def construct (cp : config_persistent) (cr : config_runtime) : Outcome × Option indexer :=
  match check_config cp cr with
  | .threw msg => (.threw msg, none)
  | .ok => (.ok, some (init cp cr))

/-- Embedding of `index_async` (refine.h, lines 109-117): the input view is rebound and the
request is handed to the engine, whose future is not ready yet. -/
def index_async (s : indexer) (n_input_cells n_spots : Nat) : indexer :=
  { s with
    input :=
      { n_cells := n_input_cells
        n_spots := n_spots
        x := usub s.cpers.max_input_cells n_input_cells
        y := usub s.cpers.max_input_cells n_input_cells
        z := usub s.cpers.max_input_cells n_input_cells }
    ready := false }

/-- Embedding of the base `is_ready` (refine.h, lines 119-120). -/
def is_ready (s : indexer) : Bool × indexer := (s.ready, s)

/-- Embedding of the base `wait_for` (refine.h, lines 122-126): `fut.fut.wait_for()` returns
once the engine has completed, its output being in the buffers of `s`; then `is_ready`
runs. -/
def wait_for (s : indexer) : indexer := (is_ready { s with ready := true }).2

/-- The coordinate-buffer row addressed by `spotX (i)`, `spotY (i)` and `spotZ (i)`
(refine.h, lines 135-151). -/
def spotRow (s : indexer) (i : Nat) : Nat := u32 (u32 (3 * s.cpers.max_input_cells) + i)

/-- Embedding of `spotX` (refine.h, line 136). -/
def spotX (s : indexer) (i : Nat) : ℚ := (s.coords.row (s.spotRow i)).x

/-- Embedding of `spotY` (refine.h, line 142). -/
def spotY (s : indexer) (i : Nat) : ℚ := (s.coords.row (s.spotRow i)).y

/-- Embedding of `spotZ` (refine.h, line 148). -/
def spotZ (s : indexer) (i : Nat) : ℚ := (s.coords.row (s.spotRow i)).z

/-- Embedding of `spotM` (refine.h, lines 153-154). -/
def spotM (s : indexer) : Mx3 :=
  s.coords.bottomRows (s.coords.length - u32 (3 * s.cpers.max_input_cells))

/-- The coordinate-buffer row addressed by `iCellX (i, j)`, `iCellY (i, j)` and
`iCellZ (i, j)` (refine.h, lines 157-173). -/
def iCellRow (s : indexer) (i j : Nat) : Nat :=
  u32 (u32 (3 * usub (usub s.cpers.max_input_cells i) 1) + j)

/-- Embedding of `iCellX` (refine.h, line 158). -/
def iCellX (s : indexer) (i j : Nat) : ℚ := (s.coords.row (s.iCellRow i j)).x

/-- Embedding of `iCellY` (refine.h, line 164). -/
def iCellY (s : indexer) (i j : Nat) : ℚ := (s.coords.row (s.iCellRow i j)).y

/-- Embedding of `iCellZ` (refine.h, line 170). -/
def iCellZ (s : indexer) (i j : Nat) : ℚ := (s.coords.row (s.iCellRow i j)).z

/-- Embedding of `iCellM` (refine.h, lines 176-177). -/
def iCellM (s : indexer) : Mx3 := s.coords.topRows (u32 (3 * s.cpers.max_input_cells))

/-- The output-buffer row addressed by `oCellX (i, j)`, `oCellY (i, j)` and `oCellZ (i, j)`
(refine.h, lines 180-187). -/
def oCellRow (i j : Nat) : Nat := u32 (u32 (3 * i) + j)

/-- Embedding of `oCellX` (refine.h, line 181). -/
def oCellX (s : indexer) (i j : Nat) : ℚ := (s.cells.row (oCellRow i j)).x

/-- Embedding of `oCellY` (refine.h, line 184). -/
def oCellY (s : indexer) (i j : Nat) : ℚ := (s.cells.row (oCellRow i j)).y

/-- Embedding of `oCellZ` (refine.h, line 187). -/
def oCellZ (s : indexer) (i j : Nat) : ℚ := (s.cells.row (oCellRow i j)).z

/-- Embedding of `oScore` (refine.h, lines 193-194). -/
def oScore (s : indexer) (i : Nat) : ℚ := s.scores.getD i 0

/-- Embedding of the setter `length_threshold (lt)` (refine.h, lines 200-205): the state
after the call and whether it threw. -/
def set_length_threshold (s : indexer) (lt : ℚ) : indexer × Outcome :=
  if lt < 0 then
    (s, .threw "negative length threshold")
  else
    ({ s with crt := { s.crt with length_threshold := lt } }, .ok)

/-- Embedding of the getter `length_threshold ()` (refine.h, lines 207-208). -/
def length_threshold (s : indexer) : ℚ := s.crt.length_threshold

/-- Embedding of the setter `triml (tl)` (refine.h, lines 210-217). -/
def set_triml (s : indexer) (tl : ℚ) : indexer × Outcome :=
  if tl < 0 then
    (s, .threw "lower trim value < 0")
  else if tl > s.crt.trimh then
    (s, .threw "lower > higher trim value")
  else
    ({ s with crt := { s.crt with triml := tl } }, .ok)

/-- Embedding of the getter `triml ()` (refine.h, lines 219-222). -/
def triml (s : indexer) : ℚ := s.crt.triml

/-- Embedding of the setter `trimh (th)` (refine.h, lines 224-231). -/
def set_trimh (s : indexer) (th : ℚ) : indexer × Outcome :=
  if s.crt.triml > th then
    (s, .threw "lower > higher trim value")
  else if th > 1 / 2 then
    (s, .threw "higher trim value > 0.5")
  else
    ({ s with crt := { s.crt with trimh := th } }, .ok)

/-- Embedding of the getter `trimh ()` (refine.h, lines 233-236). -/
def trimh (s : indexer) : ℚ := s.crt.trimh

/-- Embedding of the setter `num_sample_points (nsp)` (refine.h, lines 238-248): the new
value is stored first, the call `check_config ()` of line 243 runs, and the `catch` block
restores the saved value before rethrowing. The class declares no `check_config` without
parameters (its only `check_config` is the static function of the two configurations, lines
64-65), so the callee of line 243 is not in the sources: the parameter `check` stands for it,
applied to the facade as it is at the call. -/
def set_num_sample_points (check : indexer → Outcome) (s : indexer) (nsp : Nat) :
    indexer × Outcome :=
  let tmp := s.crt.num_sample_points
  let s1 : indexer := { s with crt := { s.crt with num_sample_points := nsp } }
  match check s1 with
  | .threw msg => ({ s1 with crt := { s1.crt with num_sample_points := tmp } }, .threw msg)
  | .ok => (s1, .ok)

/-- Embedding of the getter `num_sample_points ()` (refine.h, lines 250-251). -/
def num_sample_points (s : indexer) : Nat := s.crt.num_sample_points

end indexer

/-! ## The trimmed least-squares refiner `indexer_lsq` -/

/-- Embedding of `config_lsq` (refine.h, lines 276-280). -/
structure config_lsq where
  threshold_contraction : ℚ := 4 / 5
  min_spots : Nat := 6
deriving DecidableEq, Repr

/-- The data members of `indexer_lsq` (refine.h, lines 284-285). -/
structure indexer_lsq extends indexer where
  clsq : config_lsq
deriving DecidableEq, Repr

namespace indexer_lsq

/-- The spot block read by `refine` (refine.h, line 323). -/
def spots (coords : Mx3) (cpers : config_persistent) (nspots : Nat) : Mx3 :=
  coords.block (u32 (3 * cpers.max_input_cells)) nspots

/-- The rounded coordinates `miller` of the spots in the system of `cell` (refine.h, lines
328-329). -/
def miller (spots : Mx3) (cell : M3) : Mx3 := (spots.mulM cell.inverse).round

/-- The residuals `resid` of the spots in the system of `cell` (refine.h, lines 328-330). -/
def resid (spots : Mx3) (cell : M3) : Mx3 := (spots.mulM cell.inverse).sub (miller spots cell)

/-- The coefficients of `resid.rowwise().norm()`; `sqrt` is the square root of the C++
library. -/
def norms (sqrt : ℚ → ℚ) (resid : Mx3) : List ℚ := resid.map (fun r => sqrt r.sqnorm)

/-- The flags `below` (refine.h, line 331). -/
def below (sqrt : ℚ → ℚ) (spots : Mx3) (cell : M3) (threshold : ℚ) : List Bool :=
  (norms sqrt (resid spots cell)).map (fun d => decide (d < threshold))

/-- The inlier-count check of the loop (refine.h, lines 333-334): `true` when the loop
continues, `false` when it reaches `break`. -/
def passes (sqrt : ℚ → ℚ) (spots : Mx3) (clsq : config_lsq) (st : M3 × ℚ) : Bool :=
  !decide ((below sqrt spots st.1 st.2).count true < clsq.min_spots)

/-- The loop state (`cell`, `threshold`) after a continuing iteration (refine.h, lines
335-339); `solve a b` is `FullPivHouseholderQR (a).solve (b)` of Eigen. -/
def next (sqrt : ℚ → ℚ) (solve : Mx3 → Mx3 → M3) (spots : Mx3) (clsq : config_lsq)
    (st : M3 × ℚ) : M3 × ℚ :=
  let sel := below sqrt spots st.1 st.2
  (solve (Mx3.select sel (miller spots st.1)) (Mx3.select sel spots),
    st.2 * clsq.threshold_contraction)

/-- The `do ... while (true)` loop (refine.h, lines 327-340), run for at most `fuel` passes
through its body: `cell` and `resid` at the `break`, or `none` when the fuel runs out. -/
def iterate (sqrt : ℚ → ℚ) (solve : Mx3 → Mx3 → M3) (spots : Mx3) (clsq : config_lsq) :
    Nat → M3 × ℚ → Option (M3 × Mx3)
  | 0, _ => none
  | fuel + 1, st =>
    if passes sqrt spots clsq st then
      iterate sqrt solve spots clsq fuel (next sqrt solve spots clsq st)
    else
      some (st.1, resid spots st.1)

/-- The loop state after `k` continuing iterations. -/
def state (sqrt : ℚ → ℚ) (solve : Mx3 → Mx3 → M3) (spots : Mx3) (clsq : config_lsq)
    (st : M3 × ℚ) : Nat → M3 × ℚ
  | 0 => st
  | k + 1 => next sqrt solve spots clsq (state sqrt solve spots clsq st k)

/-- The initial threshold of a candidate (refine.h, line 326). -/
def threshold0 (score : ℚ) (nspots : Nat) : ℚ := 1 + 2 * score / (3 * (nspots : ℚ))

/-- The body of the `for` loop over the candidates (refine.h, lines 325-342), on the pair
(`cells`, `scores`). The line written to `std::cout` is left out. -/
def refine_candidate (sqrt : ℚ → ℚ) (solve : Mx3 → Mx3 → M3) (fuel : Nat) (spots : Mx3)
    (clsq : config_lsq) (nspots : Nat) (st : Mx3 × List ℚ) (j : Nat) : Option (Mx3 × List ℚ) :=
  let cell := st.1.block3 (u32 (3 * j))
  let threshold := threshold0 (st.2.getD j 0) nspots
  match iterate sqrt solve spots clsq fuel (cell, threshold) with
  | none => none
  | some (cell1, resid) =>
    some (st.1.setBlock3 (u32 (3 * j)) cell1, st.2.set j (mean (norms sqrt resid)))

/-- Embedding of the static `indexer_lsq::refine` (refine.h, lines 302-344): the output
buffer and the score vector after the call, or `none` when some candidate's loop needs more
than `fuel` passes. -/
def refine (sqrt : ℚ → ℚ) (solve : Mx3 → Mx3 → M3) (fuel : Nat) (coords cells : Mx3)
    (scores : List ℚ) (cpers : config_persistent) (clsq : config_lsq) (nspots : Nat) :
    Option (Mx3 × List ℚ) :=
  (List.range cpers.max_output_cells).foldlM
    (refine_candidate sqrt solve fuel (spots coords cpers nspots) clsq nspots) (cells, scores)

/-- Embedding of `indexer_lsq::is_ready` (refine.h, lines 347-353): the returned flag and
the facade after the call. -/
def is_ready (sqrt : ℚ → ℚ) (solve : Mx3 → Mx3 → M3) (fuel : Nat) (s : indexer_lsq) :
    Option (Bool × indexer_lsq) :=
  if !s.ready then
    some (false, s)
  else
    match refine sqrt solve fuel s.coords s.cells s.scores s.cpers s.clsq s.input.n_spots with
    | none => none
    | some (cells, scores) => some (true, { s with cells := cells, scores := scores })

/-- Embedding of `wait_for` (refine.h, lines 122-126) on an `indexer_lsq`, where the virtual
call `is_ready ()` is the override. -/
def wait_for (sqrt : ℚ → ℚ) (solve : Mx3 → Mx3 → M3) (fuel : Nat) (s : indexer_lsq) :
    Option indexer_lsq :=
  (is_ready sqrt solve fuel { s with ready := true }).map (fun r => r.2)

end indexer_lsq

/-! ## The reweighted refiner `indexer_ifme` -/

/-- Embedding of `config_ifme` (refine.h, lines 374-379). -/
structure config_ifme where
  n_iter : Nat := 3
  error_sensitivity : ℚ := 4 / 5
  weight_contraction : ℚ := 2
deriving DecidableEq, Repr

/-- The data members of `indexer_ifme` (refine.h, lines 383-384). -/
structure indexer_ifme extends indexer where
  cifme : config_ifme
deriving DecidableEq, Repr

namespace indexer_ifme

/-- The spot matrix read by `refine` (refine.h, line 412). -/
def spots (coords : Mx3) (cpers : config_persistent) : Mx3 :=
  coords.bottomRows (coords.length - u32 (3 * cpers.max_input_cells))

/-- The body of the loop over `i` (refine.h, lines 418-424): the basis after iteration `i`;
`exp` is the exponential function of the C++ library and `solve a b` is
`FullPivHouseholderQR (a).solve (b)` of Eigen. -/
def correct (exp : ℚ → ℚ) (solve : Mx3 → Mx3 → M3) (spots : Mx3) (cifme : config_ifme)
    (uscore_m1 : ℚ) (B : M3) (i : Nat) : M3 :=
  let s := -uscore_m1 / (cifme.weight_contraction + (i : ℚ))
  let Z := (spots.mulM B.inverse).round
  let E := spots.sub (Z.mulM B)
  let w := E.map (fun e => exp (-((e.maxAbs * (cifme.error_sensitivity / s)) ^ 2)))
  let Ew := List.zipWith (fun e c => Vec3.smul c e) E w
  B.add (solve Z Ew)

/-- The score stored for a basis (refine.h, lines 427-429). -/
def score (spots : Mx3) (B : M3) : ℚ :=
  let S := spots.mulM B.inverse
  let Z := S.round
  mean ((S.sub Z).map Vec3.maxAbs)

/-- The body of the `for` loop over the candidates (refine.h, lines 415-429), on the pair
(`cells`, `scores`). -/
def refine_candidate (exp : ℚ → ℚ) (solve : Mx3 → Mx3 → M3) (spots : Mx3)
    (cifme : config_ifme) (nspots : Nat) (st : Mx3 × List ℚ) (j : Nat) : Mx3 × List ℚ :=
  let uscore_m1 := 2 * st.2.getD j 0 * cifme.weight_contraction / (3 * (nspots : ℚ))
  let B0 := st.1.block3 (u32 (3 * j))
  let B := (List.range cifme.n_iter).foldl (correct exp solve spots cifme uscore_m1) B0
  (st.1.setBlock3 (u32 (3 * j)) B, st.2.set j (score spots B))

/-- Embedding of the static `indexer_ifme::refine` (refine.h, lines 401-431): the output
buffer and the score vector after the call. -/
def refine (exp : ℚ → ℚ) (solve : Mx3 → Mx3 → M3) (coords cells : Mx3) (scores : List ℚ)
    (cpers : config_persistent) (cifme : config_ifme) : Mx3 × List ℚ :=
  let nspots := u32 (spots coords cpers).length
  (List.range cpers.max_output_cells).foldl
    (refine_candidate exp solve (spots coords cpers) cifme nspots) (cells, scores)

/-- Embedding of `indexer_ifme::is_ready` (refine.h, lines 434-440): the returned flag and
the facade after the call. -/
def is_ready (exp : ℚ → ℚ) (solve : Mx3 → Mx3 → M3) (s : indexer_ifme) : Bool × indexer_ifme :=
  if !s.ready then
    (false, s)
  else
    let r := refine exp solve s.coords s.cells s.scores s.cpers s.cifme
    (true, { s with cells := r.1, scores := r.2 })

/-- Embedding of `wait_for` (refine.h, lines 122-126) on an `indexer_ifme`, where the virtual
call `is_ready ()` is the override. -/
def wait_for (exp : ℚ → ℚ) (solve : Mx3 → Mx3 → M3) (s : indexer_ifme) : indexer_ifme :=
  (is_ready exp solve { s with ready := true }).2

/-- Embedding of `index` (refine.h, lines 128-132) on an `indexer_ifme`: `index_async`
followed by `wait_for`. The engine's output is not part of the sources: `raw_cells` and
`raw_scores` stand for what it has written into the output buffers at completion. -/
def index (exp : ℚ → ℚ) (solve : Mx3 → Mx3 → M3) (raw_cells : Mx3) (raw_scores : List ℚ)
    (s : indexer_ifme) (n_input_cells n_spots : Nat) : indexer_ifme :=
  let s1 : indexer_ifme := { s with toindexer := s.toindexer.index_async n_input_cells n_spots }
  wait_for exp solve { s1 with cells := raw_cells, scores := raw_scores }

end indexer_ifme

/-! ## Exact instances of the library routines, for evaluation -/

/-- The largest `s` with `s * s ≤ n`, found by upward search from `r` in at most `fuel`
steps. -/
def isqrt_search (n : Nat) : Nat → Nat → Nat
  | 0, r => r
  | fuel + 1, r => if (r + 1) * (r + 1) ≤ n then isqrt_search n fuel (r + 1) else r

/-- The integer square root. -/
def isqrt (n : Nat) : Nat := isqrt_search n n 0

/-- A square root on `ℚ` that is exact on the squares of rationals (the integer square roots
of numerator and denominator), used to evaluate the refiner on inputs whose residual norms are
rational. -/
def exact_sqrt (q : ℚ) : ℚ := (isqrt q.num.toNat : ℚ) / (isqrt q.den : ℚ)

/-- The matrix `aᵀ * b` of two `Dynamic x 3` matrices of the same number of rows. -/
def Mx3.tmul (a b : Mx3) : M3 :=
  (List.zipWith (fun u v => (⟨Vec3.smul u.x v, Vec3.smul u.y v, Vec3.smul u.z v⟩ : M3)) a b).foldl
    M3.add ⟨Vec3.zero, Vec3.zero, Vec3.zero⟩

/-- The least-squares solution of `a * X ≈ b` by the normal equations,
`X = (aᵀ a)⁻¹ (aᵀ b)`: for `a` of full column rank this is the unique least-squares
solution, which is what the QR solve returns in exact arithmetic. -/
def normal_solve (a b : Mx3) : M3 := (Mx3.tmul a a).inverse.mul (Mx3.tmul a b)

/-! ## Concrete inputs -/

/-- A persistent configuration with one input cell, one output cell and ten spots. -/
def ten_cpers : config_persistent :=
  { max_output_cells := 1, max_input_cells := 1, max_spots := 10, num_candidate_vectors := 1 }

/-- A coordinate buffer for `ten_cpers`: the identity as input basis in rows 0 to 2, then ten
spots, four of which lie a quarter off a lattice point of the identity basis. -/
def ten_coords : Mx3 :=
  [⟨1, 0, 0⟩, ⟨0, 1, 0⟩, ⟨0, 0, 1⟩,
   ⟨5 / 4, 0, 0⟩, ⟨0, 1, 0⟩, ⟨0, 0, 1⟩, ⟨1, 1, 0⟩, ⟨0, 9 / 4, 0⟩,
   ⟨2, 0, 1⟩, ⟨1, 1, 3 / 4⟩, ⟨0, 3, 1⟩, ⟨1, 0, 2⟩, ⟨-1 / 4, 2, 2⟩]

/-- An output buffer holding the identity as the one raw candidate basis. -/
def identity_cells : Mx3 := [⟨1, 0, 0⟩, ⟨0, 1, 0⟩, ⟨0, 0, 1⟩]

/-- A persistent configuration with one input cell, one output cell and five spots. -/
def five_cpers : config_persistent :=
  { max_output_cells := 1, max_input_cells := 1, max_spots := 5, num_candidate_vectors := 1 }

/-- A coordinate buffer for `five_cpers`: the identity as input basis in rows 0 to 2, then
five spots. -/
def five_coords : Mx3 :=
  [⟨1, 0, 0⟩, ⟨0, 1, 0⟩, ⟨0, 0, 1⟩,
   ⟨11 / 10, 0, 0⟩, ⟨7 / 5, 0, 0⟩, ⟨27 / 10, 0, 0⟩, ⟨0, 1, 0⟩, ⟨0, 0, 1⟩]

/-- A trimmed facade on `five_coords` whose engine has completed a request for five spots,
with `threshold_contraction = 1 / 2`, `min_spots = 4` and the given output buffers. -/
def five_lsq (cells : Mx3) (scores : List ℚ) : indexer_lsq :=
  { coords := five_coords
    cells := cells
    scores := scores
    crt := { length_threshold := 0, triml := 0, trimh := 1 / 2, num_sample_points := 1 }
    cpers := five_cpers
    input := { x := 0, y := 0, z := 0, n_cells := 1, n_spots := 5 }
    ready := true
    clsq := { threshold_contraction := 1 / 2, min_spots := 4 } }

/-- A valid runtime configuration. -/
def unit_crt : config_runtime :=
  { length_threshold := 0, triml := 0, trimh := 1 / 2, num_sample_points := 1 }

/-- A freshly constructed facade with room for two input cells and three spots. -/
def two_cell_indexer : indexer :=
  indexer.init
    { max_output_cells := 1, max_input_cells := 2, max_spots := 3, num_candidate_vectors := 1 }
    unit_crt

/-- A facade with room for one input cell and three spots, whose six coordinate rows are
pairwise different. -/
def three_spot_indexer : indexer :=
  { indexer.init
      { max_output_cells := 1, max_input_cells := 1, max_spots := 3, num_candidate_vectors := 1 }
      unit_crt with
    coords := [⟨1, 0, 0⟩, ⟨0, 1, 0⟩, ⟨0, 0, 1⟩, ⟨1, 1, 0⟩, ⟨2, 0, 0⟩, ⟨3, 0, 0⟩] }

/-- A reweighted facade with `n_iter = 0`, room for one input cell and two spots, the
identity as input basis, the spot `(5/4, 0, 0)` in spot row 0 and `last` in spot row 1. -/
def two_spot_ifme (last : Vec3) : indexer_ifme :=
  { indexer.init
      { max_output_cells := 1, max_input_cells := 1, max_spots := 2, num_candidate_vectors := 1 }
      unit_crt with
    coords := [⟨1, 0, 0⟩, ⟨0, 1, 0⟩, ⟨0, 0, 1⟩, ⟨5 / 4, 0, 0⟩, last]
    cifme := { n_iter := 0, error_sensitivity := 4 / 5, weight_contraction := 2 } }

/-! ## Sequences of setter calls -/

/-- The rows of `m` whose flag is set: the matrix with the other rows removed. -/
def Mx3.keep (sel : List Bool) (m : Mx3) : Mx3 :=
  ((sel.zip m).filter (fun p => p.1)).map (fun p => p.2)

/-- The least-squares objective of the system `a * X ≈ b`: the sum over the rows of the
squared Euclidean norm of `a_i * X - b_i`. -/
def Mx3.objective (a b : Mx3) (X : M3) : ℚ :=
  (((Mx3.mulM a X).sub b).map Vec3.sqnorm).sum

/-! ## The weights of the reweighted refiner in the words of the specification -/

/-- The weighting scale `σ_i` of the specification: the initial scale `2 * score / (3 * n)`
reduced by the factor `wc / (wc + i)`. -/
def indexer_ifme.sigma (score : ℚ) (n : Nat) (wc : ℚ) (i : Nat) : ℚ :=
  2 * score / (3 * (n : ℚ)) * (wc / (wc + (i : ℚ)))

/-- The weight of the specification for a spot with residual `e`:
`exp (-(max-abs (e) * error_sensitivity)² / σ²)`. -/
def indexer_ifme.weight (exp : ℚ → ℚ) (es sigma : ℚ) (e : Vec3) : ℚ :=
  exp (-((e.maxAbs * es) ^ 2 / sigma ^ 2))

/-! ## Further concrete inputs -/

/-- A rational function with the properties of the exponential that the weights rely on:
positive, at most `1` on arguments `≤ 0`, and `1` at `0`. -/
def exp_stand_in (x : ℚ) : ℚ := 1 / (1 + x ^ 2)

/-- An output buffer holding one singular raw candidate basis: its third vector is the sum of
the first two. -/
def singular_cells : Mx3 := [⟨1, 0, 0⟩, ⟨0, 1, 0⟩, ⟨1, 1, 0⟩]

/-- The three spots of the end-to-end scenario of the specification. -/
def scenario_spots : Mx3 := [⟨1, 0, 0⟩, ⟨0, 1, 0⟩, ⟨1, 1, 0⟩]

/-- The coordinate buffer of the end-to-end scenario: the identity as the one input basis,
then the three spots. -/
def scenario_coords : Mx3 := [⟨1, 0, 0⟩, ⟨0, 1, 0⟩, ⟨0, 0, 1⟩] ++ scenario_spots

/-- The persistent configuration of the end-to-end scenario. -/
def scenario_cpers : config_persistent :=
  { max_output_cells := 1, max_input_cells := 1, max_spots := 3, num_candidate_vectors := 1 }


/-! ## A square root that rounds down -/

/-- A square root on `ℚ` that is not negative and never exceeds the real square root: the
quotient of the integer square roots of numerator and denominator where the square of that
quotient does not exceed `q` (so on the squares of rationals, where it is exact), and
`⌊√(num * den)⌋ / den` elsewhere. -/
def floor_sqrt (q : ℚ) : ℚ :=
  if exact_sqrt q * exact_sqrt q ≤ q then exact_sqrt q
  else (isqrt (q.num.toNat * q.den) : ℚ) / (q.den : ℚ)

/-! ## Six spots -/

/-- A persistent configuration with one input cell, one output cell and six spots. -/
def lattice_cpers : config_persistent :=
  { max_output_cells := 1, max_input_cells := 1, max_spots := 6, num_candidate_vectors := 1 }

/-! ## Exact lattice data for a skew basis -/

/-- An output buffer holding one raw candidate basis with determinant `6`. -/
def skew_cells : Mx3 := [⟨2, 0, 0⟩, ⟨1, 3, 0⟩, ⟨0, 1, 1⟩]

/-- Six integer triples of full column rank. -/
def skew_triples : Mx3 :=
  [⟨1, 0, 0⟩, ⟨0, 1, 0⟩, ⟨0, 0, 1⟩, ⟨1, 1, 0⟩, ⟨0, 1, 1⟩, ⟨1, 0, 1⟩]

/-- A coordinate buffer for `lattice_cpers`: the identity as input basis in rows 0 to 2, then
the six lattice points of the basis of `skew_cells` with the coordinates `skew_triples`. -/
def skew_coords : Mx3 :=
  [⟨1, 0, 0⟩, ⟨0, 1, 0⟩, ⟨0, 0, 1⟩,
   ⟨2, 0, 0⟩, ⟨1, 3, 0⟩, ⟨0, 1, 1⟩, ⟨3, 3, 0⟩, ⟨1, 4, 1⟩, ⟨2, 1, 1⟩]

/-! ## Two candidates -/

/-- A persistent configuration with one input cell, two output cells and five spots. -/
def pair_cpers : config_persistent :=
  { max_output_cells := 2, max_input_cells := 1, max_spots := 5, num_candidate_vectors := 1 }

/-- An output buffer with two raw candidate bases: the identity in rows 0 to 2 and the
identity with first vector `(x, 0, 0)` in rows 3 to 5. -/
def pair_cells (x : ℚ) : Mx3 :=
  [⟨1, 0, 0⟩, ⟨0, 1, 0⟩, ⟨0, 0, 1⟩, ⟨x, 0, 0⟩, ⟨0, 1, 0⟩, ⟨0, 0, 1⟩]
/-! ## An exponential that underflows -/

/-- A stand-in on `ℚ` for the exponential of IEEE doubles on arguments `≤ 0`: `0` below
`-746`, where the `exp` of doubles has underflowed to `0`, and from there up to `0` the
lower bound `3 ^ ⌊x⌋` of `e ^ x`, which is `1` at `0` (and `1` on the positive arguments, which
the reweighted refiner never passes). -/
def underflow_exp (x : ℚ) : ℚ := if x < -746 then 0 else 1 / 3 ^ (-⌊x⌋).toNat

/-! ## Three spots on the axes -/

/-- A persistent configuration with one input cell, one output cell and three spots. -/
def unit_cpers : config_persistent :=
  { max_output_cells := 1, max_input_cells := 1, max_spots := 3, num_candidate_vectors := 1 }

/-- A coordinate buffer for `unit_cpers`: the identity as input basis in rows 0 to 2, then
the three unit vectors as spots. Every operation of the trimmed refiner on these spots with
the identity as raw basis has operands and results that are `0` or `1`. -/
def unit_coords : Mx3 :=
  [⟨1, 0, 0⟩, ⟨0, 1, 0⟩, ⟨0, 0, 1⟩, ⟨1, 0, 0⟩, ⟨0, 1, 0⟩, ⟨0, 0, 1⟩]

end refine

end fast_feedback

/-! # Theorems -/

namespace fast_feedback

namespace refine

/-! ## Validation (`check_config`) -/

theorem check_config_eq_first_violated (cp : config_persistent) (cr : config_runtime) :
    check_config cp cr =
      match first_violated cp cr with
      | none => Outcome.ok
      | some m => Outcome.threw m := by
  obtain ⟨a, b, c, d⟩ := cp
  obtain ⟨lt, tl, th, n⟩ := cr
  simp only [check_config, validation_rules, first_violated, List.find?_cons, List.find?_nil,
    Nat.le_zero_eq]
  by_cases h1 : b = 0
  · simp [h1]
  by_cases h2 : a = 0
  · simp [h1, h2]
  by_cases h3 : c = 0
  · simp [h1, h2, h3]
  by_cases h4 : d < 1
  · simp [h1, h2, h3, h4]
  by_cases h5 : n < d
  · simp [h1, h2, h3, h4, h5]
  by_cases h6 : tl < 0
  · simp [h1, h2, h3, h4, h5, h6]
  by_cases h7 : tl > th
  · simp [h1, h2, h3, h4, h5, h6, h7]
  by_cases h8 : (2 : ℚ)⁻¹ < th
  · simp [h1, h2, h3, h4, h5, h6, h7, h8]
  · simp [h1, h2, h3, h4, h5, h6, h7, h8]

theorem first_violated_eq_none (cp : config_persistent) (cr : config_runtime) :
    first_violated cp cr = none ↔ ∀ r ∈ validation_rules cp cr, r.1 = false := by
  simp [first_violated, validation_rules]

theorem first_violated_of_single (cp : config_persistent) (cr : config_runtime)
    (r : Bool × String) (hr : r ∈ validation_rules cp cr) (hv : r.1 = true)
    (huniq : ∀ q ∈ validation_rules cp cr, q.1 = true → q = r) :
    first_violated cp cr = some r.2 := by
  unfold first_violated
  cases hf : (validation_rules cp cr).find? (fun r => r.1) with
  | none =>
    have := List.find?_eq_none.1 hf r hr
    simp [hv] at this
  | some q =>
    have hq1 := List.find?_some hf
    have hq2 := List.mem_of_find?_eq_some hf
    simp [huniq q hq2 hq1]

/-- C1. `check_config (cp, cr)` succeeds iff none of the eight rules is violated, it throws
a message iff that message is the one of the first violated rule in the order of the
specification, and a configuration that violates exactly one rule reports that rule. -/
theorem check_config_first_violated_rule (cp : config_persistent) (cr : config_runtime) :
    (check_config cp cr = Outcome.ok ↔ ∀ r ∈ validation_rules cp cr, r.1 = false) ∧
    (∀ m, check_config cp cr = Outcome.threw m ↔ first_violated cp cr = some m) ∧
    (∀ r ∈ validation_rules cp cr, r.1 = true →
      (∀ q ∈ validation_rules cp cr, q.1 = true → q = r) →
      check_config cp cr = Outcome.threw r.2) ∧
    (indexer.construct cp cr).1 = check_config cp cr := by
  have h := check_config_eq_first_violated cp cr
  refine ⟨?_, ?_, ?_, ?_⟩
  · rw [← first_violated_eq_none, h]
    cases first_violated cp cr <;> simp
  · intro m
    rw [h]
    cases first_violated cp cr <;> simp
  · intro r hr hv hu
    rw [h, first_violated_of_single cp cr r hr hv hu]
  · unfold indexer.construct
    cases check_config cp cr <;> rfl

/-- C1, at the configuration of the specification's example: `max_spots = 0` with all else
valid is reported as "no spots". -/
theorem check_config_no_spots_example :
    check_config ⟨1, 1, 0, 1⟩ ⟨0, 0, 1 / 2, 1⟩ = Outcome.threw "no spots" :=
  (check_config_first_violated_rule ⟨1, 1, 0, 1⟩ ⟨0, 0, 1 / 2, 1⟩).2.2.1 (true, "no spots")
    (by simp [validation_rules]) rfl (by simp [validation_rules])

/-! ## Runtime-configuration setters -/

/-- C2. `triml (x)` with `x > trimh ()` throws and leaves `triml ()` and `trimh ()` as they
were, and every throwing call of one of the four runtime-configuration setters leaves the
whole facade, so in particular the whole runtime configuration, as it was before the
call; for `num_sample_points (n)` this holds whatever the callee `check` of its
`check_config ()` call is. -/
theorem failing_setter_leaves_configuration (s : indexer) :
    (∀ x : ℚ, x > s.trimh →
      (∃ msg, (s.set_triml x).2 = Outcome.threw msg) ∧
      (s.set_triml x).1.triml = s.triml ∧ (s.set_triml x).1.trimh = s.trimh) ∧
    (∀ (x : ℚ) (msg : String), (s.set_length_threshold x).2 = Outcome.threw msg →
      (s.set_length_threshold x).1 = s) ∧
    (∀ (x : ℚ) (msg : String), (s.set_triml x).2 = Outcome.threw msg →
      (s.set_triml x).1 = s) ∧
    (∀ (x : ℚ) (msg : String), (s.set_trimh x).2 = Outcome.threw msg →
      (s.set_trimh x).1 = s) ∧
    (∀ (check : indexer → Outcome) (n : Nat) (msg : String),
      (s.set_num_sample_points check n).2 = Outcome.threw msg →
      (s.set_num_sample_points check n).1 = s) := by
  refine ⟨?_, ?_, ?_, ?_, ?_⟩
  · intro x hx
    have hx' : x > s.crt.trimh := hx
    unfold indexer.set_triml
    by_cases h0 : x < 0
    · simp [h0]
    · simp [h0, hx']
  · intro x msg
    unfold indexer.set_length_threshold
    by_cases h0 : x < 0 <;> simp [h0]
  · intro x msg
    unfold indexer.set_triml
    by_cases h0 : x < 0
    · simp [h0]
    · by_cases h1 : x > s.crt.trimh <;> simp [h0, h1]
  · intro x msg
    unfold indexer.set_trimh
    by_cases h0 : s.crt.triml > x
    · simp [h0]
    · by_cases h1 : (2 : ℚ)⁻¹ < x <;> simp [h0, h1]
  · intro check n msg
    unfold indexer.set_num_sample_points
    simp only
    cases hc : check { s with crt := { s.crt with num_sample_points := n } } with
    | ok => simp
    | threw m => simp

/-- C2 at a concrete facade with `trimh () = 1/2`: `triml (3/5)` throws and the facade is
as before the call. -/
theorem failing_setter_leaves_configuration_example :
    (three_spot_indexer.set_triml (3 / 5)).2 = Outcome.threw "lower > higher trim value" ∧
    (three_spot_indexer.set_triml (3 / 5)).1 = three_spot_indexer :=
  ⟨by decide!, (failing_setter_leaves_configuration three_spot_indexer).2.2.1 (3 / 5)
    "lower > higher trim value" (by decide!)⟩

/-! ## The exact square root -/

theorem isqrt_search_spec (n : Nat) (fuel r : Nat) (h1 : r * r ≤ n) (h2 : n ≤ fuel + r) :
    isqrt_search n fuel r * isqrt_search n fuel r ≤ n ∧
      n < (isqrt_search n fuel r + 1) * (isqrt_search n fuel r + 1) := by
  induction fuel generalizing r with
  | zero =>
    simp only [isqrt_search]
    refine ⟨h1, ?_⟩
    nlinarith
  | succ fuel ih =>
    simp only [isqrt_search]
    by_cases h : (r + 1) * (r + 1) ≤ n
    · rw [if_pos h]
      exact ih (r + 1) h (by omega)
    · rw [if_neg h]
      exact ⟨h1, by omega⟩

theorem isqrt_mul_self (m : Nat) : isqrt (m * m) = m := by
  obtain ⟨h1, h2⟩ := isqrt_search_spec (m * m) (m * m) 0 (by simp) (by simp)
  unfold isqrt
  have a : isqrt_search (m * m) (m * m) 0 ≤ m := by
    by_contra hc
    push_neg at hc
    have := Nat.mul_self_lt_mul_self hc
    omega
  have b : m ≤ isqrt_search (m * m) (m * m) 0 := by
    by_contra hc
    push_neg at hc
    have : isqrt_search (m * m) (m * m) 0 + 1 ≤ m := hc
    have := Nat.mul_self_le_mul_self this
    omega
  omega

theorem exact_sqrt_mul_self (q : ℚ) : exact_sqrt (q * q) = |q| := by
  unfold exact_sqrt
  rw [Rat.mul_self_num, Rat.mul_self_den, isqrt_mul_self]
  have hn : (q.num * q.num).toNat = q.num.natAbs * q.num.natAbs := by
    have h : q.num * q.num = ((q.num.natAbs * q.num.natAbs : Nat) : ℤ) := by
      push_cast
      exact (abs_mul_abs_self _).symm
    rw [h, Int.toNat_natCast]
  rw [hn, isqrt_mul_self]
  have hq : |q| = (|q.num| : ℚ) / (q.den : ℚ) := by
    conv_lhs => rw [← Rat.num_div_den q]
    rw [abs_div]
    simp
  rw [hq]
  congr 1
  have habs : (|q.num| : ℤ) = (q.num.natAbs : ℤ) := Int.abs_eq_natAbs _
  rw [← Int.cast_abs, habs]
  exact (Int.cast_natCast _).symm

/-! ## Buffers: rows, blocks and the loop over the candidates -/

theorem u32_of_lt {n : Nat} (h : n < 2 ^ 32) : u32 n = n := Nat.mod_eq_of_lt h

theorem row_set_ne (m : Mx3) (k i : Nat) (v : Vec3) (h : k ≠ i) :
    Mx3.row (m.set k v) i = Mx3.row m i := by
  simp [Mx3.row, List.getD_eq_getElem?_getD, List.getElem?_set_ne h]

theorem row_set_self (m : Mx3) (k : Nat) (v : Vec3) (h : k < m.length) :
    Mx3.row (m.set k v) k = v := by
  simp [Mx3.row, List.getD_eq_getElem?_getD, List.getElem?_set_self h]

theorem set_row_self (m : Mx3) (k : Nat) : m.set k (Mx3.row m k) = m := by
  apply List.ext_getElem?
  intro n
  by_cases h : k = n
  · subst h
    by_cases hk : k < m.length
    · rw [List.getElem?_set_self hk]
      simp [Mx3.row, List.getD_eq_getElem?_getD, List.getElem?_eq_getElem hk]
    · rw [List.set_eq_of_length_le (by omega)]
  · rw [List.getElem?_set_ne h]

theorem length_setBlock3 (m : Mx3) (a : Nat) (c : M3) :
    (m.setBlock3 a c).length = m.length := by
  simp [Mx3.setBlock3]

theorem row_setBlock3_of_not_mem (m : Mx3) (a i : Nat) (c : M3) (h : ¬ (a ≤ i ∧ i < a + 3)) :
    Mx3.row (m.setBlock3 a c) i = Mx3.row m i := by
  unfold Mx3.setBlock3
  rw [row_set_ne _ _ _ _ (by omega), row_set_ne _ _ _ _ (by omega), row_set_ne _ _ _ _ (by omega)]

theorem block3_setBlock3_self (m : Mx3) (a : Nat) (c : M3) (h : a + 3 ≤ m.length) :
    (m.setBlock3 a c).block3 a = c := by
  obtain ⟨c0, c1, c2⟩ := c
  unfold Mx3.setBlock3 Mx3.block3
  simp only
  rw [row_set_ne _ _ _ _ (by omega), row_set_ne _ _ _ _ (by omega),
    row_set_self _ _ _ (by omega), row_set_ne _ _ _ _ (by omega),
    row_set_self _ _ _ (by simp; omega), row_set_self _ _ _ (by simp; omega)]

theorem block3_setBlock3_of_disjoint (m : Mx3) (a b : Nat) (c : M3)
    (h : a + 3 ≤ b ∨ b + 3 ≤ a) : (m.setBlock3 a c).block3 b = m.block3 b := by
  unfold Mx3.block3
  rw [row_setBlock3_of_not_mem _ _ _ _ (by omega), row_setBlock3_of_not_mem _ _ _ _ (by omega),
    row_setBlock3_of_not_mem _ _ _ _ (by omega)]

theorem setBlock3_block3_self (m : Mx3) (a : Nat) : m.setBlock3 a (m.block3 a) = m := by
  unfold Mx3.setBlock3 Mx3.block3
  simp only
  rw [set_row_self]
  have h1 : (m.set (a + 1) (Mx3.row m (a + 1))) = m := set_row_self m (a + 1)
  rw [h1]
  exact set_row_self m (a + 2)

theorem getD_set_ne (l : List ℚ) (k i : Nat) (v : ℚ) (h : k ≠ i) :
    (l.set k v).getD i 0 = l.getD i 0 := by
  simp [List.getD_eq_getElem?_getD, List.getElem?_set_ne h]

theorem getD_set_self (l : List ℚ) (k : Nat) (v : ℚ) (h : k < l.length) :
    (l.set k v).getD k 0 = v := by
  simp [List.getD_eq_getElem?_getD, List.getElem?_set_self h]

/-- The loop over the candidates: when the body of candidate `j` is a function `g` of the
candidate's own block and score and writes only them, then the loop over distinct candidates
`js` keeps the sizes of the buffers, leaves every row and score of no candidate of `js` as it
was, and stores for each `j` of `js` the value of `g` at the entries that were there before
the loop. -/
theorem candidates_loop (body : Mx3 × List ℚ → Nat → Option (Mx3 × List ℚ))
    (g : M3 → ℚ → Option (M3 × ℚ))
    (hbody : ∀ st j, body st j =
      (g (st.1.block3 (u32 (3 * j))) (st.2.getD j 0)).map
        (fun r => (st.1.setBlock3 (u32 (3 * j)) r.1, st.2.set j r.2)))
    (n : Nat) (hn : 3 * n ≤ 2 ^ 32) :
    ∀ (js : List Nat), (∀ j ∈ js, j < n) → js.Nodup → ∀ (st st1 : Mx3 × List ℚ),
      js.foldlM body st = some st1 →
      st1.1.length = st.1.length ∧ st1.2.length = st.2.length ∧
      (∀ i, (∀ j ∈ js, ¬ (3 * j ≤ i ∧ i < 3 * j + 3)) → Mx3.row st1.1 i = Mx3.row st.1 i) ∧
      (∀ i, i ∉ js → st1.2.getD i 0 = st.2.getD i 0) ∧
      (∀ j ∈ js, ∃ r, g (st.1.block3 (3 * j)) (st.2.getD j 0) = some r ∧
        (3 * j + 3 ≤ st.1.length → st1.1.block3 (3 * j) = r.1) ∧
        (j < st.2.length → st1.2.getD j 0 = r.2)) := by
  intro js
  induction js with
  | nil =>
    intro _ _ st st1 h
    simp only [List.foldlM_nil, pure, Option.some.injEq] at h
    subst h
    simp
  | cons j0 js ih =>
    intro hlt hnd st st1 h
    rw [List.foldlM_cons] at h
    have hj0 : j0 < n := hlt j0 (List.mem_cons_self _ _)
    have hu : u32 (3 * j0) = 3 * j0 := u32_of_lt (by omega)
    have hb := hbody st j0
    rw [hu] at hb
    cases hg : g (st.1.block3 (3 * j0)) (st.2.getD j0 0) with
    | none =>
      rw [hb, hg] at h
      simp at h
    | some r =>
      rw [hb, hg] at h
      simp only [Option.map_some', Option.bind_eq_bind, Option.some_bind] at h
      have hnd' := List.nodup_cons.1 hnd
      obtain ⟨hl1, hl2, hrow, hsc, hin⟩ :=
        ih (fun j hj => hlt j (List.mem_cons_of_mem _ hj)) hnd'.2 _ st1 h
      simp only [length_setBlock3, List.length_set] at hl1 hl2
      refine ⟨hl1, hl2, ?_, ?_, ?_⟩
      · intro i hi
        rw [hrow i (fun j hj => hi j (List.mem_cons_of_mem _ hj))]
        exact row_setBlock3_of_not_mem _ _ _ _ (hi j0 (List.mem_cons_self _ _))
      · intro i hi
        rw [hsc i (fun hmem => hi (List.mem_cons_of_mem _ hmem))]
        exact getD_set_ne _ _ _ _ (fun e => hi (e ▸ List.mem_cons_self _ _))
      · intro j hj
        rcases List.mem_cons.1 hj with rfl | hj'
        · refine ⟨r, hg, ?_, ?_⟩
          · intro hlen
            have e0 : st1.1.block3 (3 * j) = (st.1.setBlock3 (3 * j) r.1).block3 (3 * j) := by
              unfold Mx3.block3
              rw [hrow _ (fun k hk => ?_), hrow _ (fun k hk => ?_), hrow _ (fun k hk => ?_)]
              all_goals
                have : k ≠ j := fun e => hnd'.1 (e ▸ hk)
                omega
            rw [e0, block3_setBlock3_self _ _ _ hlen]
          · intro hlen
            rw [hsc j hnd'.1, getD_set_self _ _ _ hlen]
        · have hne : j0 ≠ j := fun e => hnd'.1 (e ▸ hj')
          obtain ⟨r1, hr1, hc1, hs1⟩ := hin j hj'
          rw [block3_setBlock3_of_disjoint _ _ _ _ (by omega), getD_set_ne _ _ _ _ hne] at hr1
          refine ⟨r1, hr1, ?_, ?_⟩
          · intro hlen
            exact hc1 (by simpa [length_setBlock3] using hlen)
          · intro hlen
            exact hs1 (by simpa using hlen)


/-! ## The trimmed refiner: the loop of one candidate -/

theorem lsq_length_resid (spots : Mx3) (cell : M3) :
    (indexer_lsq.resid spots cell).length = spots.length := by
  simp [indexer_lsq.resid, indexer_lsq.miller, Mx3.sub, Mx3.round, Mx3.mulM]

theorem lsq_length_below (sqrt : ℚ → ℚ) (spots : Mx3) (cell : M3) (t : ℚ) :
    (indexer_lsq.below sqrt spots cell t).length = spots.length := by
  simp [indexer_lsq.below, indexer_lsq.norms, lsq_length_resid]

theorem lsq_length_spots_le (coords : Mx3) (cpers : config_persistent) (nspots : Nat) :
    (indexer_lsq.spots coords cpers nspots).length ≤ nspots := by
  simp [indexer_lsq.spots, Mx3.block]

theorem lsq_length_spots (coords : Mx3) (cpers : config_persistent) (nspots : Nat)
    (h : u32 (3 * cpers.max_input_cells) + nspots ≤ coords.length) :
    (indexer_lsq.spots coords cpers nspots).length = nspots := by
  simp only [indexer_lsq.spots, Mx3.block, List.length_take, List.length_drop]
  omega

theorem lsq_passes_eq_false (sqrt : ℚ → ℚ) (coords : Mx3) (cpers : config_persistent)
    (clsq : config_lsq) (nspots : Nat) (h : clsq.min_spots > nspots) (st : M3 × ℚ) :
    indexer_lsq.passes sqrt (indexer_lsq.spots coords cpers nspots) clsq st = false := by
  have h1 := List.count_le_length true
    (indexer_lsq.below sqrt (indexer_lsq.spots coords cpers nspots) st.1 st.2)
  rw [lsq_length_below] at h1
  have h2 := lsq_length_spots_le coords cpers nspots
  simp only [indexer_lsq.passes, Bool.not_eq_false', decide_eq_true_eq]
  omega

theorem lsq_state_next (sqrt : ℚ → ℚ) (solve : Mx3 → Mx3 → M3) (spots : Mx3)
    (clsq : config_lsq) (st : M3 × ℚ) (k : Nat) :
    indexer_lsq.state sqrt solve spots clsq (indexer_lsq.next sqrt solve spots clsq st) k =
      indexer_lsq.next sqrt solve spots clsq (indexer_lsq.state sqrt solve spots clsq st k) := by
  induction k with
  | zero => rfl
  | succ k ih => simp only [indexer_lsq.state, ih]

/-- The loop returns exactly when some iteration `k` within the fuel fails the inlier-count
check after `k` continuing iterations; it then returns the basis of the state reached and
the residuals of all spots against that basis. -/
theorem lsq_iterate_eq_some (sqrt : ℚ → ℚ) (solve : Mx3 → Mx3 → M3) (spots : Mx3)
    (clsq : config_lsq) (fuel : Nat) (st : M3 × ℚ) (r : M3 × Mx3) :
    indexer_lsq.iterate sqrt solve spots clsq fuel st = some r ↔
      ∃ k, k < fuel ∧
        (∀ i, i < k → indexer_lsq.passes sqrt spots clsq
          (indexer_lsq.state sqrt solve spots clsq st i) = true) ∧
        indexer_lsq.passes sqrt spots clsq (indexer_lsq.state sqrt solve spots clsq st k) = false ∧
        r = ((indexer_lsq.state sqrt solve spots clsq st k).1,
          indexer_lsq.resid spots (indexer_lsq.state sqrt solve spots clsq st k).1) := by
  induction fuel generalizing st with
  | zero => simp [indexer_lsq.iterate]
  | succ fuel ih =>
    unfold indexer_lsq.iterate
    by_cases hp : indexer_lsq.passes sqrt spots clsq st = true
    · rw [if_pos hp, ih]
      constructor
      · rintro ⟨k, hk, hall, hfail, hr⟩
        refine ⟨k + 1, by omega, ?_, ?_, ?_⟩
        · intro i hi
          cases i with
          | zero => exact hp
          | succ i =>
            have := hall i (by omega)
            rw [lsq_state_next] at this
            exact this
        · rw [lsq_state_next] at hfail
          exact hfail
        · rw [lsq_state_next] at hr
          exact hr
      · rintro ⟨k, hk, hall, hfail, hr⟩
        cases k with
        | zero =>
          simp only [indexer_lsq.state] at hfail
          rw [hfail] at hp
          exact absurd hp (by simp)
        | succ k =>
          refine ⟨k, by omega, ?_, ?_, ?_⟩
          · intro i hi
            have := hall (i + 1) (by omega)
            rw [lsq_state_next]
            exact this
          · rw [lsq_state_next]
            exact hfail
          · rw [lsq_state_next]
            exact hr
    · rw [if_neg hp]
      have hp' : indexer_lsq.passes sqrt spots clsq st = false := by simpa using hp
      constructor
      · intro h
        refine ⟨0, by omega, by intro i hi; omega, hp', ?_⟩
        simp only [Option.some.injEq] at h
        exact h.symm
      · rintro ⟨k, hk, hall, hfail, hr⟩
        cases k with
        | zero => rw [hr]; rfl
        | succ k =>
          have := hall 0 (by omega)
          simp only [indexer_lsq.state] at this
          exact absurd this hp

/-- The function of a candidate's own block and score that the body of the trimmed
refiner's loop over the candidates computes. -/
theorem lsq_refine_candidate_eq (sqrt : ℚ → ℚ) (solve : Mx3 → Mx3 → M3) (fuel : Nat)
    (spots : Mx3) (clsq : config_lsq) (nspots : Nat) (st : Mx3 × List ℚ) (j : Nat) :
    indexer_lsq.refine_candidate sqrt solve fuel spots clsq nspots st j =
      ((fun (cell : M3) (sc : ℚ) =>
          (indexer_lsq.iterate sqrt solve spots clsq fuel
            (cell, indexer_lsq.threshold0 sc nspots)).map
            (fun r => (r.1, mean (indexer_lsq.norms sqrt r.2))))
        (st.1.block3 (u32 (3 * j))) (st.2.getD j 0)).map
        (fun r => (st.1.setBlock3 (u32 (3 * j)) r.1, st.2.set j r.2)) := by
  unfold indexer_lsq.refine_candidate
  simp only
  cases indexer_lsq.iterate sqrt solve spots clsq fuel
    (st.1.block3 (u32 (3 * j)), indexer_lsq.threshold0 (st.2.getD j 0) nspots) with
  | none => rfl
  | some r => rfl

/-- With `min_spots > n_spots` every candidate leaves the loop at its first check, so the
loop over the candidates keeps the output buffer and stores one recomputed score per
candidate. -/
theorem lsq_refine_of_min_spots_gt (sqrt : ℚ → ℚ) (solve : Mx3 → Mx3 → M3) (fuel : Nat)
    (coords cells : Mx3) (cpers : config_persistent) (clsq : config_lsq) (nspots : Nat)
    (h : clsq.min_spots > nspots) (js : List Nat) (scores : List ℚ) :
    js.foldlM (indexer_lsq.refine_candidate sqrt solve (fuel + 1)
        (indexer_lsq.spots coords cpers nspots) clsq nspots) (cells, scores) =
      some (cells, js.foldl (fun sc j => sc.set j
        (mean (indexer_lsq.norms sqrt (indexer_lsq.resid (indexer_lsq.spots coords cpers nspots)
          (cells.block3 (u32 (3 * j))))))) scores) := by
  induction js generalizing scores with
  | nil => rfl
  | cons j js ih =>
    rw [List.foldlM_cons, List.foldl_cons]
    have hstep : indexer_lsq.refine_candidate sqrt solve (fuel + 1)
        (indexer_lsq.spots coords cpers nspots) clsq nspots (cells, scores) j =
        some (cells, scores.set j (mean (indexer_lsq.norms sqrt (indexer_lsq.resid
          (indexer_lsq.spots coords cpers nspots) (cells.block3 (u32 (3 * j))))))) := by
      unfold indexer_lsq.refine_candidate
      simp only [indexer_lsq.iterate, lsq_passes_eq_false sqrt coords cpers clsq nspots h,
        Bool.false_eq_true, if_false, setBlock3_block3_self]
    rw [hstep]
    exact ih _


theorem foldl_set_getElem? (v : Nat → ℚ) (js : List Nat) (l : List ℚ) (i : Nat) :
    (js.foldl (fun sc j => sc.set j (v j)) l)[i]? =
      if i ∈ js then l[i]?.map (fun _ => v i) else l[i]? := by
  induction js generalizing l with
  | nil => simp
  | cons j js ih =>
    rw [List.foldl_cons, ih]
    by_cases hij : j = i
    · subst hij
      have hset : (l.set j (v j))[j]? = l[j]?.map (fun _ => v j) := by
        by_cases hl : j < l.length
        · rw [List.getElem?_set_self hl, List.getElem?_eq_getElem hl]
          rfl
        · rw [List.set_eq_of_length_le (by omega), List.getElem?_eq_none (by omega)]
          rfl
      rw [hset]
      by_cases hm : j ∈ js
      · simp only [hm, if_true, List.mem_cons, true_or, Option.map_map]
        rfl
      · simp [hm]
    · rw [List.getElem?_set_ne hij]
      have : (i ∈ j :: js) ↔ i ∈ js := by
        simp only [List.mem_cons]
        constructor
        · rintro (h | h)
          · exact absurd h.symm hij
          · exact h
        · exact Or.inr
      simp only [this]

theorem foldl_set_idem (v : Nat → ℚ) (js : List Nat) (l : List ℚ) :
    js.foldl (fun sc j => sc.set j (v j)) (js.foldl (fun sc j => sc.set j (v j)) l) =
      js.foldl (fun sc j => sc.set j (v j)) l := by
  apply List.ext_getElem?
  intro i
  rw [foldl_set_getElem? v js _ i, foldl_set_getElem? v js l i]
  by_cases hm : i ∈ js
  · simp only [hm, if_true, Option.map_map]
    rfl
  · simp only [hm, if_false]

theorem foldl_set_getD (v : Nat → ℚ) (js : List Nat) (l : List ℚ) (i : Nat)
    (hm : i ∈ js) (hl : i < l.length) :
    (js.foldl (fun sc j => sc.set j (v j)) l).getD i 0 = v i := by
  rw [List.getD_eq_getElem?_getD, foldl_set_getElem? v js l i, if_pos hm,
    List.getElem?_eq_getElem hl]
  rfl

/-! ## The trimmed refiner with `min_spots > n_spots` -/

/-- C4. With `min_spots > n_spots` the inlier-count check fails in every loop state, so the
loop of each candidate returns in its first pass with the basis it started from; `refine`
returns with the output buffer as it was before the call (so rows `3j .. 3j+2` hold the raw
basis of candidate `j`), and one pass per candidate and any solver give the same result,
that is, no least-squares solve contributes to it. -/
theorem lsq_refine_keeps_raw_basis (sqrt : ℚ → ℚ) (solve : Mx3 → Mx3 → M3) (fuel : Nat)
    (coords cells : Mx3) (scores : List ℚ) (cpers : config_persistent) (clsq : config_lsq)
    (nspots : Nat) (h : clsq.min_spots > nspots) :
    (∀ st : M3 × ℚ,
      indexer_lsq.passes sqrt (indexer_lsq.spots coords cpers nspots) clsq st = false ∧
      indexer_lsq.iterate sqrt solve (indexer_lsq.spots coords cpers nspots) clsq (fuel + 1) st =
        some (st.1, indexer_lsq.resid (indexer_lsq.spots coords cpers nspots) st.1)) ∧
    ∃ cells1 scores1,
      indexer_lsq.refine sqrt solve (fuel + 1) coords cells scores cpers clsq nspots =
        some (cells1, scores1) ∧
      cells1 = cells ∧
      (∀ j, j < cpers.max_output_cells → cells1.block3 (3 * j) = cells.block3 (3 * j)) ∧
      ∀ solve2 : Mx3 → Mx3 → M3,
        indexer_lsq.refine sqrt solve2 1 coords cells scores cpers clsq nspots =
          some (cells1, scores1) := by
  refine ⟨?_, ?_⟩
  · intro st
    have hp := lsq_passes_eq_false sqrt coords cpers clsq nspots h st
    refine ⟨hp, ?_⟩
    simp [indexer_lsq.iterate, hp]
  · refine ⟨cells, _, lsq_refine_of_min_spots_gt sqrt solve fuel coords cells cpers clsq nspots h
      (List.range cpers.max_output_cells) scores, rfl, fun _ _ => rfl, ?_⟩
    intro solve2
    exact lsq_refine_of_min_spots_gt sqrt solve2 0 coords cells cpers clsq nspots h
      (List.range cpers.max_output_cells) scores

/-- C4 at `min_spots = 100`, `n_spots = 10`: the refiner returns the identity basis it was
given. -/
theorem lsq_refine_keeps_raw_basis_example :
    ∃ scores1, indexer_lsq.refine exact_sqrt normal_solve 1 ten_coords identity_cells [3]
      ten_cpers { threshold_contraction := 4 / 5, min_spots := 100 } 10 =
        some (identity_cells, scores1) := by
  obtain ⟨_, cells1, scores1, hrun, hcells, _, _⟩ :=
    lsq_refine_keeps_raw_basis exact_sqrt normal_solve 0 ten_coords identity_cells [3] ten_cpers
      { threshold_contraction := 4 / 5, min_spots := 100 } 10 (by decide)
  exact ⟨scores1, hcells ▸ hrun⟩

/-- C5 fails as stated: with `min_spots = 100`, `n_spots = 10` and raw score `3` the score
stored by `refine` is `1 / 10`, the mean residual norm of the ten spots. -/
theorem lsq_refine_overwrites_raw_score :
    (100 > 10) ∧
    indexer_lsq.refine exact_sqrt normal_solve 1 ten_coords identity_cells [3] ten_cpers
      { threshold_contraction := 4 / 5, min_spots := 100 } 10 = some (identity_cells, [1 / 10]) ∧
    ([1 / 10] : List ℚ).getD 0 0 ≠ ([3] : List ℚ).getD 0 0 := by
  decide!

/-- C5, amended. With `min_spots > n_spots`, `refine` returns and the score it stores for
candidate `j` is the mean, over the `n_spots` spots, of the Euclidean norm of
`spot * B⁻¹ - round (spot * B⁻¹)` for the raw basis `B` of the candidate; the raw score does
not enter. -/
theorem lsq_refine_score_is_mean_residual (sqrt : ℚ → ℚ) (solve : Mx3 → Mx3 → M3) (fuel : Nat)
    (coords cells : Mx3) (scores : List ℚ) (cpers : config_persistent) (clsq : config_lsq)
    (nspots j : Nat) (h : clsq.min_spots > nspots)
    (hcap : 3 * cpers.max_output_cells ≤ 2 ^ 32) (hj : j < cpers.max_output_cells)
    (hscores : j < scores.length)
    (hrows : u32 (3 * cpers.max_input_cells) + nspots ≤ coords.length) :
    ∃ scores1,
      indexer_lsq.refine sqrt solve (fuel + 1) coords cells scores cpers clsq nspots =
        some (cells, scores1) ∧
      (indexer_lsq.spots coords cpers nspots).length = nspots ∧
      scores1.getD j 0 =
        ((((indexer_lsq.spots coords cpers nspots).mulM (cells.block3 (3 * j)).inverse).sub
            (((indexer_lsq.spots coords cpers nspots).mulM
              (cells.block3 (3 * j)).inverse).round)).map
          (fun r => sqrt r.sqnorm)).sum / (nspots : ℚ) := by
  refine ⟨_, lsq_refine_of_min_spots_gt sqrt solve fuel coords cells cpers clsq nspots h
    (List.range cpers.max_output_cells) scores, lsq_length_spots coords cpers nspots hrows, ?_⟩
  rw [foldl_set_getD (fun j => mean (indexer_lsq.norms sqrt (indexer_lsq.resid
    (indexer_lsq.spots coords cpers nspots) (cells.block3 (u32 (3 * j)))))) _ scores j
    (List.mem_range.2 hj) hscores]
  simp only [u32_of_lt (show 3 * j < 2 ^ 32 by omega), mean, indexer_lsq.norms,
    indexer_lsq.resid, indexer_lsq.miller, List.length_map, Mx3.sub, Mx3.round, Mx3.mulM,
    List.length_zipWith, min_self]
  have hl := lsq_length_spots coords cpers nspots hrows
  simp only [Mx3.mulM] at hl ⊢
  rw [hl]

/-- C5, amended, at `min_spots = 100`, `n_spots = 10`. -/
theorem lsq_refine_score_is_mean_residual_example :
    ∃ scores1,
      indexer_lsq.refine exact_sqrt normal_solve 1 ten_coords identity_cells [3] ten_cpers
        { threshold_contraction := 4 / 5, min_spots := 100 } 10 = some (identity_cells, scores1) ∧
      (indexer_lsq.spots ten_coords ten_cpers 10).length = 10 ∧
      scores1.getD 0 0 =
        ((((indexer_lsq.spots ten_coords ten_cpers 10).mulM
              (identity_cells.block3 (3 * 0)).inverse).sub
            (((indexer_lsq.spots ten_coords ten_cpers 10).mulM
              (identity_cells.block3 (3 * 0)).inverse).round)).map
          (fun r => exact_sqrt r.sqnorm)).sum / ((10 : Nat) : ℚ) :=
  lsq_refine_score_is_mean_residual exact_sqrt normal_solve 0 ten_coords identity_cells [3]
    ten_cpers { threshold_contraction := 4 / 5, min_spots := 100 } 10 0 (by decide) (by decide)
    (by decide) (by decide) (by decide)


/-! ## The inverse of a 3 x 3 matrix -/

theorem M3_mul_inverse (m : M3) (h : m.det ≠ 0) : m.mul m.inverse = M3.one := by
  obtain ⟨⟨a, b, c⟩, ⟨d, e, f⟩, ⟨g, k, l⟩⟩ := m
  simp only [M3.det] at h
  simp only [M3.mul, M3.inverse, M3.det, Vec3.mulM, M3.one, M3.mk.injEq, Vec3.mk.injEq]
  refine ⟨⟨?_, ?_, ?_⟩, ⟨?_, ?_, ?_⟩, ⟨?_, ?_, ?_⟩⟩ <;> field_simp <;> ring

theorem M3_inverse_mul (m : M3) (h : m.det ≠ 0) : m.inverse.mul m = M3.one := by
  obtain ⟨⟨a, b, c⟩, ⟨d, e, f⟩, ⟨g, k, l⟩⟩ := m
  simp only [M3.det] at h
  simp only [M3.mul, M3.inverse, M3.det, Vec3.mulM, M3.one, M3.mk.injEq, Vec3.mk.injEq]
  refine ⟨⟨?_, ?_, ?_⟩, ⟨?_, ?_, ?_⟩, ⟨?_, ?_, ?_⟩⟩ <;> field_simp <;> ring

/-! ## The reweighted refiner with `n_iter = 0` -/

theorem ifme_refine_of_n_iter_zero (exp : ℚ → ℚ) (solve : Mx3 → Mx3 → M3) (spots : Mx3)
    (cifme : config_ifme) (nspots : Nat) (hn : cifme.n_iter = 0) (cells : Mx3) (js : List Nat)
    (scores : List ℚ) :
    js.foldl (indexer_ifme.refine_candidate exp solve spots cifme nspots) (cells, scores) =
      (cells, js.foldl (fun sc j => sc.set j
        (indexer_ifme.score spots (cells.block3 (u32 (3 * j))))) scores) := by
  induction js generalizing scores with
  | nil => rfl
  | cons j js ih =>
    rw [List.foldl_cons, List.foldl_cons]
    have hstep : indexer_ifme.refine_candidate exp solve spots cifme nspots (cells, scores) j =
        (cells, scores.set j (indexer_ifme.score spots (cells.block3 (u32 (3 * j))))) := by
      unfold indexer_ifme.refine_candidate
      simp only [hn, List.range_zero, List.foldl_nil, setBlock3_block3_self]
    rw [hstep]
    exact ih _

/-- C6. With `n_iter = 0` the reweighted refiner leaves the output buffer as it was, so the
basis stored for candidate `j` is the raw basis `B`; for invertible `B` (where `B.inverse` is
the inverse of `B`) the score stored for `j` is the mean, over the rows of the refiner's spot
matrix, of the largest absolute component of `spot * B⁻¹ - round (spot * B⁻¹)`, whatever the
raw scores were. -/
theorem ifme_refine_zero_iterations (exp : ℚ → ℚ) (solve : Mx3 → Mx3 → M3)
    (coords cells : Mx3) (scores : List ℚ) (cpers : config_persistent) (cifme : config_ifme)
    (j : Nat) (hn : cifme.n_iter = 0) (hcap : 3 * cpers.max_output_cells ≤ 2 ^ 32)
    (hj : j < cpers.max_output_cells) (hscores : j < scores.length)
    (hdet : (cells.block3 (3 * j)).det ≠ 0) :
    (indexer_ifme.refine exp solve coords cells scores cpers cifme).1 = cells ∧
    (indexer_ifme.refine exp solve coords cells scores cpers cifme).1.block3 (3 * j) =
      cells.block3 (3 * j) ∧
    (cells.block3 (3 * j)).mul (cells.block3 (3 * j)).inverse = M3.one ∧
    (cells.block3 (3 * j)).inverse.mul (cells.block3 (3 * j)) = M3.one ∧
    (indexer_ifme.refine exp solve coords cells scores cpers cifme).2.getD j 0 =
      ((((indexer_ifme.spots coords cpers).mulM (cells.block3 (3 * j)).inverse).sub
          (((indexer_ifme.spots coords cpers).mulM (cells.block3 (3 * j)).inverse).round)).map
        Vec3.maxAbs).sum / ((indexer_ifme.spots coords cpers).length : ℚ) ∧
    ∀ scores2 : List ℚ, j < scores2.length →
      (indexer_ifme.refine exp solve coords cells scores2 cpers cifme).2.getD j 0 =
        (indexer_ifme.refine exp solve coords cells scores cpers cifme).2.getD j 0 := by
  have hrun : ∀ sc : List ℚ, indexer_ifme.refine exp solve coords cells sc cpers cifme =
      (cells, (List.range cpers.max_output_cells).foldl (fun sc j => sc.set j
        (indexer_ifme.score (indexer_ifme.spots coords cpers) (cells.block3 (u32 (3 * j))))) sc) :=
    fun sc => ifme_refine_of_n_iter_zero exp solve _ cifme _ hn cells _ sc
  have hsc : ∀ sc : List ℚ, j < sc.length →
      (indexer_ifme.refine exp solve coords cells sc cpers cifme).2.getD j 0 =
        indexer_ifme.score (indexer_ifme.spots coords cpers) (cells.block3 (3 * j)) := by
    intro sc hlen
    rw [hrun sc]
    simp only
    rw [foldl_set_getD (fun j => indexer_ifme.score (indexer_ifme.spots coords cpers)
      (cells.block3 (u32 (3 * j)))) _ sc j (List.mem_range.2 hj) hlen]
    simp only [u32_of_lt (show 3 * j < 2 ^ 32 by omega)]
  refine ⟨by rw [hrun scores], by rw [hrun scores], M3_mul_inverse _ hdet, M3_inverse_mul _ hdet,
    ?_, ?_⟩
  · rw [hsc scores hscores]
    simp only [indexer_ifme.score, mean, List.length_map, Mx3.sub, Mx3.round, Mx3.mulM,
      List.length_zipWith, min_self]
  · intro scores2 h2
    rw [hsc scores2 h2, hsc scores hscores]

/-- C6 at a concrete input: ten spots, one candidate with the identity as raw basis and raw
score `3`. With `n_iter = 0` neither the exponential nor the solver is called, so any two
functions serve as such. -/
theorem ifme_refine_zero_iterations_example :
    (indexer_ifme.refine (fun _ => 1) normal_solve ten_coords identity_cells [3] ten_cpers
      { n_iter := 0, error_sensitivity := 4 / 5, weight_contraction := 2 }).1.block3 (3 * 0) =
      identity_cells.block3 (3 * 0) :=
  (ifme_refine_zero_iterations (fun _ => 1) normal_solve ten_coords identity_cells [3] ten_cpers
    { n_iter := 0, error_sensitivity := 4 / 5, weight_contraction := 2 } 0 rfl (by decide)
    (by decide) (by decide) (by decide!)).2.1


/-! ## Polling after completion -/

/-- C3 fails as stated: on a trimmed facade whose engine has completed with the identity as
raw basis and raw score `0`, the first `is_ready ()` returns `true` and stores the basis with
first row `(23/25, 0, 0)` and score `17/115`; a second `is_ready ()` returns `true` and
stores the basis with first row `(6/7, 0, 0)` and score `4/25`. -/
theorem lsq_is_ready_twice_changes_output :
    (five_lsq identity_cells [0]).ready = true ∧
    indexer_lsq.is_ready exact_sqrt normal_solve 8 (five_lsq identity_cells [0]) =
      some (true, five_lsq [⟨23 / 25, 0, 0⟩, ⟨0, 1, 0⟩, ⟨0, 0, 1⟩] [17 / 115]) ∧
    indexer_lsq.wait_for exact_sqrt normal_solve 8 (five_lsq identity_cells [0]) =
      some (five_lsq [⟨23 / 25, 0, 0⟩, ⟨0, 1, 0⟩, ⟨0, 0, 1⟩] [17 / 115]) ∧
    indexer_lsq.is_ready exact_sqrt normal_solve 8
        (five_lsq [⟨23 / 25, 0, 0⟩, ⟨0, 1, 0⟩, ⟨0, 0, 1⟩] [17 / 115]) =
      some (true, five_lsq [⟨6 / 7, 0, 0⟩, ⟨0, 1, 0⟩, ⟨0, 0, 1⟩] [4 / 25]) ∧
    (five_lsq [⟨6 / 7, 0, 0⟩, ⟨0, 1, 0⟩, ⟨0, 0, 1⟩] [4 / 25]).cells ≠
      (five_lsq [⟨23 / 25, 0, 0⟩, ⟨0, 1, 0⟩, ⟨0, 0, 1⟩] [17 / 115]).cells ∧
    (five_lsq [⟨6 / 7, 0, 0⟩, ⟨0, 1, 0⟩, ⟨0, 0, 1⟩] [4 / 25]).scores ≠
      (five_lsq [⟨23 / 25, 0, 0⟩, ⟨0, 1, 0⟩, ⟨0, 0, 1⟩] [17 / 115]).scores := by
  decide!

/-- C3, amended. Once the engine has completed, an `is_ready ()` of the trimmed facade that
returns, returns `true`, and the `is_ready ()` of the reweighted facade returns `true`; either
one replaces the output bases and scores by the result of `refine` on their current values
and changes nothing else. When `min_spots > n_spots` (trimmed) or `n_iter = 0` (reweighted)
the call returns and a further `is_ready ()` returns `true` and leaves every basis and every
score as the first call left them. -/
theorem is_ready_refines_current_output :
    (∀ (sqrt : ℚ → ℚ) (solve : Mx3 → Mx3 → M3) (fuel : Nat) (s s1 : indexer_lsq) (b : Bool),
      s.ready = true → indexer_lsq.is_ready sqrt solve fuel s = some (b, s1) →
      b = true ∧
      indexer_lsq.refine sqrt solve fuel s.coords s.cells s.scores s.cpers s.clsq
        s.input.n_spots = some (s1.cells, s1.scores) ∧
      s1 = { s with cells := s1.cells, scores := s1.scores }) ∧
    (∀ (exp : ℚ → ℚ) (solve : Mx3 → Mx3 → M3) (s : indexer_ifme), s.ready = true →
      indexer_ifme.is_ready exp solve s =
        (true, { s with
          cells := (indexer_ifme.refine exp solve s.coords s.cells s.scores s.cpers s.cifme).1
          scores := (indexer_ifme.refine exp solve s.coords s.cells s.scores s.cpers s.cifme).2 })) ∧
    (∀ (sqrt : ℚ → ℚ) (solve : Mx3 → Mx3 → M3) (fuel : Nat) (s : indexer_lsq),
      s.ready = true → s.clsq.min_spots > s.input.n_spots →
      ∃ s1, indexer_lsq.is_ready sqrt solve (fuel + 1) s = some (true, s1) ∧
        indexer_lsq.is_ready sqrt solve (fuel + 1) s1 = some (true, s1)) ∧
    (∀ (exp : ℚ → ℚ) (solve : Mx3 → Mx3 → M3) (s : indexer_ifme),
      s.ready = true → s.cifme.n_iter = 0 →
      indexer_ifme.is_ready exp solve (indexer_ifme.is_ready exp solve s).2 =
        (true, (indexer_ifme.is_ready exp solve s).2)) := by
  refine ⟨?_, ?_, ?_, ?_⟩
  · intro sqrt solve fuel s s1 b hready hrun
    unfold indexer_lsq.is_ready at hrun
    simp only [hready, Bool.not_true, Bool.false_eq_true, if_false] at hrun
    cases hr : indexer_lsq.refine sqrt solve fuel s.coords s.cells s.scores s.cpers s.clsq
        s.input.n_spots with
    | none => rw [hr] at hrun; simp at hrun
    | some r =>
      obtain ⟨c, sc⟩ := r
      rw [hr] at hrun
      simp only [Option.some.injEq, Prod.mk.injEq] at hrun
      obtain ⟨hb, hs⟩ := hrun
      subst hs
      exact ⟨hb.symm, rfl, by simp [hready]⟩
  · intro exp solve s hready
    unfold indexer_ifme.is_ready
    simp [hready]
  · intro sqrt solve fuel s hready hmin
    have hrun := fun sc => lsq_refine_of_min_spots_gt sqrt solve fuel s.coords s.cells s.cpers
      s.clsq s.input.n_spots hmin (List.range s.cpers.max_output_cells) sc
    refine ⟨{ s with scores := (List.range s.cpers.max_output_cells).foldl (fun sc j => sc.set j
        (mean (indexer_lsq.norms sqrt (indexer_lsq.resid
          (indexer_lsq.spots s.coords s.cpers s.input.n_spots)
          (s.cells.block3 (u32 (3 * j))))))) s.scores }, ?_, ?_⟩
    · unfold indexer_lsq.is_ready
      simp only [hready, Bool.not_true, Bool.false_eq_true, if_false]
      unfold indexer_lsq.refine
      rw [hrun s.scores]
    · unfold indexer_lsq.is_ready
      simp only [hready, Bool.not_true, Bool.false_eq_true, if_false]
      unfold indexer_lsq.refine
      rw [hrun _]
      simp only
      rw [foldl_set_idem (fun j => mean (indexer_lsq.norms sqrt (indexer_lsq.resid
          (indexer_lsq.spots s.coords s.cpers s.input.n_spots)
          (s.cells.block3 (u32 (3 * j))))))]
  · intro exp solve s hready hn
    have hrun := fun sc => ifme_refine_of_n_iter_zero exp solve (indexer_ifme.spots s.coords s.cpers)
      s.cifme (u32 (indexer_ifme.spots s.coords s.cpers).length) hn s.cells
      (List.range s.cpers.max_output_cells) sc
    unfold indexer_ifme.is_ready
    simp only [hready, Bool.not_true, Bool.false_eq_true, if_false]
    unfold indexer_ifme.refine
    simp only
    rw [hrun s.scores]
    simp only
    rw [hrun _]
    simp only
    rw [foldl_set_idem (fun j => indexer_ifme.score (indexer_ifme.spots s.coords s.cpers)
      (s.cells.block3 (u32 (3 * j))))]

/-- C3, amended, at a concrete facade: with `min_spots = 100 > 5 = n_spots` the first
`is_ready ()` after completion returns and a second one changes nothing. -/
theorem is_ready_refines_current_output_example :
    ∃ s1, indexer_lsq.is_ready exact_sqrt normal_solve 1
        { five_lsq identity_cells [0] with clsq := { threshold_contraction := 4 / 5, min_spots := 100 } } =
          some (true, s1) ∧
      indexer_lsq.is_ready exact_sqrt normal_solve 1 s1 = some (true, s1) :=
  is_ready_refines_current_output.2.2.1 exact_sqrt normal_solve 0
    { five_lsq identity_cells [0] with clsq := { threshold_contraction := 4 / 5, min_spots := 100 } }
    rfl (by decide)


/-! ## The layout of the coordinate buffer -/

/-- The input view bound by `index_async`, for counts within the configured maxima: its
counts are the arguments and its three pointers address row
`max_input_cells - n_input_cells`. -/
theorem index_async_view (s : indexer) (n_input_cells n_spots : Nat)
    (hmax : s.cpers.max_input_cells < 2 ^ 32) (hn : n_input_cells ≤ s.cpers.max_input_cells) :
    (s.index_async n_input_cells n_spots).input.n_cells = n_input_cells ∧
    (s.index_async n_input_cells n_spots).input.n_spots = n_spots ∧
    (s.index_async n_input_cells n_spots).input.x = s.cpers.max_input_cells - n_input_cells ∧
    (s.index_async n_input_cells n_spots).input.y = s.cpers.max_input_cells - n_input_cells ∧
    (s.index_async n_input_cells n_spots).input.z = s.cpers.max_input_cells - n_input_cells := by
  simp only [indexer.index_async, usub, true_and]
  omega

/-- C7, the code at `max_input_cells = 2`, `n_input_cells = 1`, `n_spots = 3`: the view
bound by `index_async` starts at row `1`, whereas input basis `0` starts at row `3` and
spot `0` is row `6`; the view's three basis rows are rows 1 to 3 and its three spot rows are
rows 4 to 6. -/
theorem index_async_view_starts_at_row_one :
    (two_cell_indexer.index_async 1 3).input.x = 1 ∧
    (two_cell_indexer.index_async 1 3).input.y = 1 ∧
    (two_cell_indexer.index_async 1 3).input.z = 1 ∧
    (two_cell_indexer.index_async 1 3).input.n_cells = 1 ∧
    (two_cell_indexer.index_async 1 3).input.n_spots = 3 ∧
    two_cell_indexer.iCellRow (1 - 1) 0 = 3 ∧
    3 * (two_cell_indexer.cpers.max_input_cells - 1) = 3 ∧
    two_cell_indexer.spotRow 0 = 6 := by
  decide

/-- C8 fails as stated: with `max_input_cells = 1`, `max_spots = 3` (capacity 6) and
`n_spots = 1`, spot `0` is addressed at row `3` and the trimmed refiner reads row `3`, not
the last row `5 = capacity - n_spots`. -/
theorem spot_rows_are_not_last_rows :
    (1 ≤ three_spot_indexer.cpers.max_spots) ∧
    three_spot_indexer.coords.length =
      three_spot_indexer.cpers.max_spots + 3 * three_spot_indexer.cpers.max_input_cells ∧
    three_spot_indexer.spotRow 0 = 3 ∧
    three_spot_indexer.spotRow 0 ≠ three_spot_indexer.coords.length - 1 + 0 ∧
    indexer_lsq.spots three_spot_indexer.coords three_spot_indexer.cpers 1 =
      [Mx3.row three_spot_indexer.coords 3] ∧
    indexer_lsq.spots three_spot_indexer.coords three_spot_indexer.cpers 1 ≠
      [Mx3.row three_spot_indexer.coords (three_spot_indexer.coords.length - 1 + 0)] := by
  decide!

/-- C8, amended. In a coordinate buffer of `max_spots + 3 * max_input_cells` rows and for
`n_spots ≤ max_spots`, spot `i < n_spots` is addressed at row `3 * max_input_cells + i`,
inside the buffer, and is row `i` of the spot block read by the trimmed refiner, which has
`n_spots` rows; these are the last `n_spots` rows of the buffer exactly when
`n_spots = max_spots`. Vector `j` of input basis `c` is addressed at row
`3 * (max_input_cells - c - 1) + j`, so basis `0` occupies the three rows before the first
spot row and basis `c + 1` the three rows before basis `c`. -/
theorem spots_follow_input_cells (s : indexer) (n_spots : Nat)
    (hcap : s.cpers.max_spots + 3 * s.cpers.max_input_cells < 2 ^ 32)
    (hlen : s.coords.length = s.cpers.max_spots + 3 * s.cpers.max_input_cells)
    (hn : n_spots ≤ s.cpers.max_spots) :
    (∀ i, i < n_spots →
      s.spotRow i = 3 * s.cpers.max_input_cells + i ∧
      s.spotRow i < s.coords.length ∧
      Mx3.row (indexer_lsq.spots s.coords s.cpers n_spots) i = Mx3.row s.coords (s.spotRow i) ∧
      (s.spotRow i = s.coords.length - n_spots + i ↔ n_spots = s.cpers.max_spots)) ∧
    (indexer_lsq.spots s.coords s.cpers n_spots).length = n_spots ∧
    (∀ c j, c < s.cpers.max_input_cells → j < 3 →
      s.iCellRow c j = 3 * (s.cpers.max_input_cells - c - 1) + j ∧
      s.iCellRow c j + 3 * c + 3 = s.spotRow 0 + j) := by
  have h3 : u32 (3 * s.cpers.max_input_cells) = 3 * s.cpers.max_input_cells :=
    u32_of_lt (by omega)
  refine ⟨?_, ?_, ?_⟩
  · intro i hi
    have hrow : s.spotRow i = 3 * s.cpers.max_input_cells + i := by
      unfold indexer.spotRow
      rw [h3]
      exact u32_of_lt (by omega)
    refine ⟨hrow, by omega, ?_, by omega⟩
    rw [hrow]
    simp only [indexer_lsq.spots, Mx3.block, Mx3.row, h3, List.getD_eq_getElem?_getD,
      List.getElem?_take, List.getElem?_drop, if_pos hi]
  · apply lsq_length_spots
    rw [h3]
    omega
  · intro c j hc hj
    have hrow : s.iCellRow c j = 3 * (s.cpers.max_input_cells - c - 1) + j := by
      simp only [indexer.iCellRow, usub, u32]
      omega
    refine ⟨hrow, ?_⟩
    rw [hrow]
    simp only [indexer.spotRow, u32]
    omega

/-- C8, amended, at `max_input_cells = 1`, `max_spots = 3`, `n_spots = 1`. -/
theorem spots_follow_input_cells_example :
    (∀ i, i < 1 →
      three_spot_indexer.spotRow i = 3 * three_spot_indexer.cpers.max_input_cells + i ∧
      three_spot_indexer.spotRow i < three_spot_indexer.coords.length ∧
      Mx3.row (indexer_lsq.spots three_spot_indexer.coords three_spot_indexer.cpers 1) i =
        Mx3.row three_spot_indexer.coords (three_spot_indexer.spotRow i) ∧
      (three_spot_indexer.spotRow i = three_spot_indexer.coords.length - 1 + i ↔
        1 = three_spot_indexer.cpers.max_spots)) ∧
    (indexer_lsq.spots three_spot_indexer.coords three_spot_indexer.cpers 1).length = 1 ∧
    (∀ c j, c < three_spot_indexer.cpers.max_input_cells → j < 3 →
      three_spot_indexer.iCellRow c j =
        3 * (three_spot_indexer.cpers.max_input_cells - c - 1) + j ∧
      three_spot_indexer.iCellRow c j + 3 * c + 3 = three_spot_indexer.spotRow 0 + j) :=
  spots_follow_input_cells three_spot_indexer 1 (by decide) (by decide) (by decide)

/-! ## The spots read by the reweighted refiner -/

theorem ifme_index_of_n_iter_zero (exp exp2 : ℚ → ℚ) (solve solve2 : Mx3 → Mx3 → M3)
    (raw_cells : Mx3) (raw_scores : List ℚ) (s : indexer_ifme) (n_input_cells n_spots : Nat)
    (hn : s.cifme.n_iter = 0) :
    indexer_ifme.index exp solve raw_cells raw_scores s n_input_cells n_spots =
      indexer_ifme.index exp2 solve2 raw_cells raw_scores s n_input_cells n_spots := by
  simp only [indexer_ifme.index, indexer_ifme.wait_for, indexer_ifme.is_ready,
    indexer_ifme.refine, Bool.not_true, Bool.false_eq_true, if_false]
  rw [ifme_refine_of_n_iter_zero exp solve _ _ _ hn, ifme_refine_of_n_iter_zero exp2 solve2 _ _ _ hn]

/-- C9, the code at `max_spots = 2`, `n_spots = 1` with the one spot `(5/4, 0, 0)` of the
invocation, the identity as raw basis, raw score `3` and `n_iter = 0`: `index (1, 1)` stores
the score `1/8` when spot row 1 holds `(0, 0, 0)` and `3/8` when it holds `(1/2, 0, 0)`,
neither being the mean `1/4` over the one spot of the invocation. -/
theorem ifme_index_reads_all_spot_rows (exp : ℚ → ℚ) (solve : Mx3 → Mx3 → M3) :
    (indexer_ifme.index exp solve identity_cells [3] (two_spot_ifme ⟨0, 0, 0⟩) 1 1).input.n_spots
      = 1 ∧
    (indexer_ifme.index exp solve identity_cells [3] (two_spot_ifme ⟨0, 0, 0⟩) 1 1).scores
      = [1 / 8] ∧
    (indexer_ifme.index exp solve identity_cells [3] (two_spot_ifme ⟨1 / 2, 0, 0⟩) 1 1).scores
      = [3 / 8] ∧
    (indexer_ifme.index exp solve identity_cells [3] (two_spot_ifme ⟨0, 0, 0⟩) 1 1).cells
      = identity_cells ∧
    indexer_ifme.score [⟨5 / 4, 0, 0⟩] (identity_cells.block3 0) = 1 / 4 := by
  rw [ifme_index_of_n_iter_zero exp (fun _ => 1) solve normal_solve identity_cells [3]
      (two_spot_ifme ⟨0, 0, 0⟩) 1 1 rfl,
    ifme_index_of_n_iter_zero exp (fun _ => 1) solve normal_solve identity_cells [3]
      (two_spot_ifme ⟨1 / 2, 0, 0⟩) 1 1 rfl]
  decide!


/-! ## What the trimmed refiner stores -/

/-- C10. If `refine` returns, then for every candidate `j` there is a number `k` of
continuing iterations: the inlier-count check passes in the loop states `0 .. k-1` and fails
in state `k`; the basis `B` stored in rows `3j .. 3j+2` is the basis of state `k` (the raw
basis for `k = 0`, otherwise the solution computed by the last passing iteration), and
`scores[j]` is the sum over all `n_spots` spots of the Euclidean norm of
`spot * B⁻¹ - round (spot * B⁻¹)`, divided by `n_spots`. -/
theorem lsq_refine_stores_last_passing_basis (sqrt : ℚ → ℚ) (solve : Mx3 → Mx3 → M3)
    (fuel : Nat) (coords cells : Mx3) (scores : List ℚ) (cpers : config_persistent)
    (clsq : config_lsq) (nspots j : Nat) (cells1 : Mx3) (scores1 : List ℚ)
    (hn : 1 ≤ nspots)
    (hrows : u32 (3 * cpers.max_input_cells) + nspots ≤ coords.length)
    (hcap : 3 * cpers.max_output_cells ≤ 2 ^ 32)
    (hcells : 3 * cpers.max_output_cells ≤ cells.length)
    (hscores : cpers.max_output_cells ≤ scores.length)
    (hj : j < cpers.max_output_cells)
    (hrun : indexer_lsq.refine sqrt solve fuel coords cells scores cpers clsq nspots =
      some (cells1, scores1)) :
    ∃ k, k < fuel ∧
      (∀ i, i < k → indexer_lsq.passes sqrt (indexer_lsq.spots coords cpers nspots) clsq
        (indexer_lsq.state sqrt solve (indexer_lsq.spots coords cpers nspots) clsq
          (cells.block3 (3 * j), indexer_lsq.threshold0 (scores.getD j 0) nspots) i) = true) ∧
      indexer_lsq.passes sqrt (indexer_lsq.spots coords cpers nspots) clsq
        (indexer_lsq.state sqrt solve (indexer_lsq.spots coords cpers nspots) clsq
          (cells.block3 (3 * j), indexer_lsq.threshold0 (scores.getD j 0) nspots) k) = false ∧
      cells1.block3 (3 * j) =
        (indexer_lsq.state sqrt solve (indexer_lsq.spots coords cpers nspots) clsq
          (cells.block3 (3 * j), indexer_lsq.threshold0 (scores.getD j 0) nspots) k).1 ∧
      (k = 0 → cells1.block3 (3 * j) = cells.block3 (3 * j)) ∧
      (indexer_lsq.spots coords cpers nspots).length = nspots ∧
      0 < (nspots : ℚ) ∧
      scores1.getD j 0 =
        ((((indexer_lsq.spots coords cpers nspots).mulM (cells1.block3 (3 * j)).inverse).sub
            (((indexer_lsq.spots coords cpers nspots).mulM
              (cells1.block3 (3 * j)).inverse).round)).map
          (fun r => sqrt r.sqnorm)).sum / (nspots : ℚ) := by
  have hloop := candidates_loop _
    (fun (cell : M3) (sc : ℚ) =>
      (indexer_lsq.iterate sqrt solve (indexer_lsq.spots coords cpers nspots) clsq fuel
        (cell, indexer_lsq.threshold0 sc nspots)).map
        (fun r => (r.1, mean (indexer_lsq.norms sqrt r.2))))
    (lsq_refine_candidate_eq sqrt solve fuel (indexer_lsq.spots coords cpers nspots) clsq nspots)
    cpers.max_output_cells hcap (List.range cpers.max_output_cells)
    (fun j hj => List.mem_range.1 hj) (List.nodup_range _) (cells, scores) (cells1, scores1) hrun
  obtain ⟨_, _, _, _, hin⟩ := hloop
  obtain ⟨r, hr, hcell, hscore⟩ := hin j (List.mem_range.2 hj)
  simp only at hr hcell hscore
  cases hit : indexer_lsq.iterate sqrt solve (indexer_lsq.spots coords cpers nspots) clsq fuel
      (cells.block3 (3 * j), indexer_lsq.threshold0 (scores.getD j 0) nspots) with
  | none => rw [hit] at hr; simp at hr
  | some q =>
    rw [hit] at hr
    simp only [Option.map_some', Option.some.injEq] at hr
    obtain ⟨k, hk, hall, hfail, hq⟩ := (lsq_iterate_eq_some _ _ _ _ _ _ _).1 hit
    have hB := hcell (by omega)
    have hS := hscore (by omega)
    rw [← hr] at hB hS
    simp only at hB hS
    rw [hq] at hB hS
    simp only at hB hS
    have hlen := lsq_length_spots coords cpers nspots hrows
    refine ⟨k, hk, hall, hfail, hB, ?_, hlen, by exact_mod_cast hn, ?_⟩
    · intro hk0
      rw [hB, hk0]
      rfl
    · rw [hS, hB]
      simp only [mean, indexer_lsq.norms, indexer_lsq.resid, indexer_lsq.miller,
        List.length_map, Mx3.sub, Mx3.round, Mx3.mulM, List.length_zipWith, min_self]
      simp only [Mx3.mulM] at hlen
      rw [hlen]

/-- C10 at a concrete run: five spots, the identity as raw basis, raw score `0`,
`threshold_contraction = 1/2`, `min_spots = 4`; the run returns the basis with first row
`(23/25, 0, 0)` and the score `17/115`. -/
theorem lsq_refine_stores_last_passing_basis_example :
    ∃ k, k < 8 ∧
      (∀ i, i < k → indexer_lsq.passes exact_sqrt (indexer_lsq.spots five_coords five_cpers 5)
        { threshold_contraction := 1 / 2, min_spots := 4 }
        (indexer_lsq.state exact_sqrt normal_solve (indexer_lsq.spots five_coords five_cpers 5)
          { threshold_contraction := 1 / 2, min_spots := 4 }
          (identity_cells.block3 (3 * 0),
            indexer_lsq.threshold0 (([0] : List ℚ).getD 0 0) 5) i) = true) ∧
      indexer_lsq.passes exact_sqrt (indexer_lsq.spots five_coords five_cpers 5)
        { threshold_contraction := 1 / 2, min_spots := 4 }
        (indexer_lsq.state exact_sqrt normal_solve (indexer_lsq.spots five_coords five_cpers 5)
          { threshold_contraction := 1 / 2, min_spots := 4 }
          (identity_cells.block3 (3 * 0),
            indexer_lsq.threshold0 (([0] : List ℚ).getD 0 0) 5) k) = false ∧
      Mx3.block3 [⟨23 / 25, 0, 0⟩, ⟨0, 1, 0⟩, ⟨0, 0, 1⟩] (3 * 0) =
        (indexer_lsq.state exact_sqrt normal_solve (indexer_lsq.spots five_coords five_cpers 5)
          { threshold_contraction := 1 / 2, min_spots := 4 }
          (identity_cells.block3 (3 * 0),
            indexer_lsq.threshold0 (([0] : List ℚ).getD 0 0) 5) k).1 ∧
      (k = 0 → Mx3.block3 [⟨23 / 25, 0, 0⟩, ⟨0, 1, 0⟩, ⟨0, 0, 1⟩] (3 * 0) =
        identity_cells.block3 (3 * 0)) ∧
      (indexer_lsq.spots five_coords five_cpers 5).length = 5 ∧
      0 < ((5 : Nat) : ℚ) ∧
      ([17 / 115] : List ℚ).getD 0 0 =
        ((((indexer_lsq.spots five_coords five_cpers 5).mulM
              (Mx3.block3 [⟨23 / 25, 0, 0⟩, ⟨0, 1, 0⟩, ⟨0, 0, 1⟩] (3 * 0)).inverse).sub
            (((indexer_lsq.spots five_coords five_cpers 5).mulM
              (Mx3.block3 [⟨23 / 25, 0, 0⟩, ⟨0, 1, 0⟩, ⟨0, 0, 1⟩] (3 * 0)).inverse).round)).map
          (fun r => exact_sqrt r.sqnorm)).sum / ((5 : Nat) : ℚ) :=
  lsq_refine_stores_last_passing_basis exact_sqrt normal_solve 8 five_coords identity_cells [0]
    five_cpers { threshold_contraction := 1 / 2, min_spots := 4 } 5 0
    [⟨23 / 25, 0, 0⟩, ⟨0, 1, 0⟩, ⟨0, 0, 1⟩] [17 / 115]
    (by decide) (by decide) (by decide) (by decide) (by decide) (by decide) (by decide!)



/-! ## The setters and the invariants of the runtime configuration -/

/-- C14. Each of the setters `length_threshold`, `triml` and `trimh` checks only the invariant
it touches: `length_threshold (x)` throws iff `x < 0`; `triml (x)` throws iff `x < 0` or
`x > trimh ()`, with "lower trim value < 0" whenever `x < 0`; `trimh (x)` throws iff
`triml () > x` or `x > 0.5`, with "lower > higher trim value" whenever `triml () > x`. A
call that does not throw stores `x` in its field, so the getter returns `x`, and leaves every
other field of the facade as it was. -/
theorem setters_validate_touched_invariant (s : indexer) (x : ℚ) :
    (((∃ msg, (s.set_length_threshold x).2 = Outcome.threw msg) ↔ x < 0) ∧
      (x < 0 → (s.set_length_threshold x).2 = Outcome.threw "negative length threshold") ∧
      ((s.set_length_threshold x).2 = Outcome.ok →
        (s.set_length_threshold x).1.length_threshold = x ∧
        (s.set_length_threshold x).1 = { s with crt := { s.crt with length_threshold := x } })) ∧
    (((∃ msg, (s.set_triml x).2 = Outcome.threw msg) ↔ (x < 0 ∨ x > s.trimh)) ∧
      (x < 0 → (s.set_triml x).2 = Outcome.threw "lower trim value < 0") ∧
      (¬ x < 0 → x > s.trimh → (s.set_triml x).2 = Outcome.threw "lower > higher trim value") ∧
      ((s.set_triml x).2 = Outcome.ok →
        (s.set_triml x).1.triml = x ∧
        (s.set_triml x).1 = { s with crt := { s.crt with triml := x } })) ∧
    (((∃ msg, (s.set_trimh x).2 = Outcome.threw msg) ↔ (s.triml > x ∨ x > 1 / 2)) ∧
      (s.triml > x → (s.set_trimh x).2 = Outcome.threw "lower > higher trim value") ∧
      (¬ s.triml > x → x > 1 / 2 →
        (s.set_trimh x).2 = Outcome.threw "higher trim value > 0.5") ∧
      ((s.set_trimh x).2 = Outcome.ok →
        (s.set_trimh x).1.trimh = x ∧
        (s.set_trimh x).1 = { s with crt := { s.crt with trimh := x } })) := by
  refine ⟨?_, ?_, ?_⟩
  · unfold indexer.set_length_threshold indexer.length_threshold
    by_cases h0 : x < 0 <;> simp [h0]
  · unfold indexer.set_triml indexer.triml indexer.trimh
    by_cases h0 : x < 0
    · simp [h0]
    · by_cases h1 : s.crt.trimh < x <;> simp [h0, h1]
  · unfold indexer.set_trimh indexer.triml indexer.trimh
    by_cases h0 : x < s.crt.triml
    · simp [h0]
    · by_cases h1 : (2 : ℚ)⁻¹ < x <;> simp [h0, h1]

/-- C15, the code at a constructed facade (`num_candidate_vectors = 1`, `num_sample_points =
1`) and `n = 0`, where `check_config` on the two configurations with `num_sample_points`
replaced by `0` throws "fewer sample points than required candidate vectors". The setter
calls `check_config ()` without arguments, which the class does not declare, so the sources do
not make it run the rules: what the call does is what the callee does. With a callee that
accepts, `0` is committed; the call throws the message of the first violated rule and
restores the prior value only when the callee is `check_config` on the facade's two
configurations. -/
theorem set_num_sample_points_callee_not_declared :
    check_config three_spot_indexer.cpers
        { three_spot_indexer.crt with num_sample_points := 0 } =
      Outcome.threw "fewer sample points than required candidate vectors" ∧
    three_spot_indexer.set_num_sample_points (fun _ => Outcome.ok) 0 =
      ({ three_spot_indexer with crt := { three_spot_indexer.crt with num_sample_points := 0 } },
        Outcome.ok) ∧
    (three_spot_indexer.set_num_sample_points (fun _ => Outcome.ok) 0).1.num_sample_points = 0 ∧
    three_spot_indexer.set_num_sample_points (fun s => check_config s.cpers s.crt) 0 =
      (three_spot_indexer,
        Outcome.threw "fewer sample points than required candidate vectors") := by
  decide!

/-- C16, the code at a configuration that is valid except for `length_threshold = -1`:
`check_config` succeeds and the constructor yields a facade whose `length_threshold ()` is
`-1`, although the setter `length_threshold (-1)` throws "negative length threshold". -/
theorem check_config_accepts_negative_length_threshold :
    check_config ⟨1, 1, 1, 1⟩ ⟨-1, 0, 1 / 2, 1⟩ = Outcome.ok ∧
    indexer.construct ⟨1, 1, 1, 1⟩ ⟨-1, 0, 1 / 2, 1⟩ =
      (Outcome.ok, some (indexer.init ⟨1, 1, 1, 1⟩ ⟨-1, 0, 1 / 2, 1⟩)) ∧
    (indexer.init ⟨1, 1, 1, 1⟩ ⟨-1, 0, 1 / 2, 1⟩).length_threshold = -1 ∧
    ¬ (0 ≤ (indexer.init ⟨1, 1, 1, 1⟩ ⟨-1, 0, 1 / 2, 1⟩).length_threshold) ∧
    ((indexer.init ⟨1, 1, 1, 1⟩ ⟨0, 0, 1 / 2, 1⟩).set_length_threshold (-1)).2 =
      Outcome.threw "negative length threshold" := by
  decide!

/-- C18. In a facade whose coordinate buffer has `max_spots + 3 * max_input_cells` rows and
whose output buffer has `3 * max_output_cells` rows (row counts being `unsigned` values):
`iCellX/Y/Z (i, j)` with `i < max_input_cells`, `j < 3` address row
`3 * (max_input_cells - i - 1) + j`, below `3 * max_input_cells`; distinct pairs address
distinct rows; basis `0` occupies the three rows before the first spot row and basis `i + 1`
the three rows before basis `i`; `spotX/Y/Z (i)` with `i < max_spots` address row
`3 * max_input_cells + i`, inside the buffer and different from every input-cell row; and
`oCellX/Y/Z (i, j)` with `i < max_output_cells`, `j < 3` address row `3 * i + j`, inside the
output buffer. -/
theorem accessor_rows_in_bounds (s : indexer)
    (hlen : s.coords.length = s.cpers.max_spots + 3 * s.cpers.max_input_cells)
    (hrep : s.coords.length < 2 ^ 32)
    (hcells : s.cells.length = 3 * s.cpers.max_output_cells)
    (hrepc : s.cells.length < 2 ^ 32) :
    (∀ i j, i < s.cpers.max_input_cells → j < 3 →
      s.iCellRow i j = 3 * (s.cpers.max_input_cells - i - 1) + j ∧
      s.iCellRow i j < 3 * s.cpers.max_input_cells) ∧
    (∀ i j i' j', i < s.cpers.max_input_cells → j < 3 → i' < s.cpers.max_input_cells → j' < 3 →
      s.iCellRow i j = s.iCellRow i' j' → i = i' ∧ j = j') ∧
    (∀ j, 0 < s.cpers.max_input_cells → j < 3 → s.iCellRow 0 j + 3 = s.spotRow 0 + j) ∧
    (∀ i j, i + 1 < s.cpers.max_input_cells → j < 3 →
      s.iCellRow (i + 1) j + 3 = s.iCellRow i j) ∧
    (∀ i, i < s.cpers.max_spots →
      s.spotRow i = 3 * s.cpers.max_input_cells + i ∧
      s.spotRow i < s.coords.length ∧
      ∀ c j, c < s.cpers.max_input_cells → j < 3 → s.iCellRow c j ≠ s.spotRow i) ∧
    (∀ i j, i < s.cpers.max_output_cells → j < 3 →
      indexer.oCellRow i j = 3 * i + j ∧ indexer.oCellRow i j < s.cells.length) := by
  have hi : ∀ i j, i < s.cpers.max_input_cells → j < 3 →
      s.iCellRow i j = 3 * (s.cpers.max_input_cells - i - 1) + j := by
    intro i j hi hj
    simp only [indexer.iCellRow, usub, u32]
    omega
  have hs : ∀ i, i < s.cpers.max_spots → s.spotRow i = 3 * s.cpers.max_input_cells + i := by
    intro i hi
    simp only [indexer.spotRow, u32]
    omega
  refine ⟨?_, ?_, ?_, ?_, ?_, ?_⟩
  · intro i j h1 h2
    refine ⟨hi i j h1 h2, ?_⟩
    rw [hi i j h1 h2]
    omega
  · intro i j i' j' h1 h2 h3 h4 he
    rw [hi i j h1 h2, hi i' j' h3 h4] at he
    omega
  · intro j h0 hj
    rw [hi 0 j h0 hj]
    simp only [indexer.spotRow, u32]
    omega
  · intro i j h1 hj
    rw [hi (i + 1) j h1 hj, hi i j (by omega) hj]
    omega
  · intro i h1
    refine ⟨hs i h1, ?_, ?_⟩
    · rw [hs i h1]
      omega
    · intro c j hc hj
      rw [hs i h1, hi c j hc hj]
      omega
  · intro i j h1 hj
    have : indexer.oCellRow i j = 3 * i + j := by
      simp only [indexer.oCellRow, u32]
      omega
    rw [this]
    omega

/-- C18 at a facade with `max_input_cells = 1`, `max_spots = 3`, `max_output_cells = 1`: the
last spot is addressed at row `5` of the six rows. -/
theorem accessor_rows_in_bounds_example :
    three_spot_indexer.spotRow 2 = 3 * three_spot_indexer.cpers.max_input_cells + 2 ∧
    three_spot_indexer.spotRow 2 < three_spot_indexer.coords.length ∧
    ∀ c j, c < three_spot_indexer.cpers.max_input_cells → j < 3 →
      three_spot_indexer.iCellRow c j ≠ three_spot_indexer.spotRow 2 :=
  (accessor_rows_in_bounds three_spot_indexer (by decide) (by decide) (by decide)
    (by decide)).2.2.2.2.1 2 (by decide)

/-! ## The threshold of the trimmed refiner -/

theorem exact_sqrt_nonneg (q : ℚ) : 0 ≤ exact_sqrt q := by
  unfold exact_sqrt
  positivity

/-- In a loop state that passes the inlier-count check with `min_spots ≥ 1` some residual norm
is below the threshold, so the threshold is positive when norms are not negative. -/
theorem lsq_threshold_pos_of_passes (sqrt : ℚ → ℚ) (spots : Mx3) (clsq : config_lsq)
    (st : M3 × ℚ) (hsqrt : ∀ x, 0 ≤ sqrt x) (hmin : 1 ≤ clsq.min_spots)
    (hpass : indexer_lsq.passes sqrt spots clsq st = true) : 0 < st.2 := by
  simp only [indexer_lsq.passes, Bool.not_eq_true', decide_eq_false_iff_not, not_lt] at hpass
  have hpos : 0 < (indexer_lsq.below sqrt spots st.1 st.2).count true := by omega
  have hmem := List.count_pos_iff.1 hpos
  simp only [indexer_lsq.below, indexer_lsq.norms, List.mem_map, decide_eq_true_eq] at hmem
  obtain ⟨d, ⟨r, _, hr⟩, hd⟩ := hmem
  have := hsqrt r.sqnorm
  rw [hr] at this
  linarith

/-- C11 fails as stated: with `threshold_contraction = 1/2`, `min_spots = 0`, one spot and
raw score `-3` the initial threshold is `-1`, the inlier-count check passes (no count is below
`0`), and the next threshold `-1/2` is not smaller. -/
theorem lsq_threshold_grows_with_no_min_spots :
    (0 : ℚ) < 1 / 2 ∧ (1 / 2 : ℚ) < 1 ∧
    indexer_lsq.threshold0 (-3) 1 = -1 ∧
    indexer_lsq.passes exact_sqrt [⟨1, 0, 0⟩] { threshold_contraction := 1 / 2, min_spots := 0 }
      (M3.one, indexer_lsq.threshold0 (-3) 1) = true ∧
    (indexer_lsq.state exact_sqrt normal_solve [⟨1, 0, 0⟩]
      { threshold_contraction := 1 / 2, min_spots := 0 }
      (M3.one, indexer_lsq.threshold0 (-3) 1) 1).2 = -1 / 2 ∧
    ¬ ((indexer_lsq.state exact_sqrt normal_solve [⟨1, 0, 0⟩]
      { threshold_contraction := 1 / 2, min_spots := 0 }
      (M3.one, indexer_lsq.threshold0 (-3) 1) 1).2 <
      (indexer_lsq.state exact_sqrt normal_solve [⟨1, 0, 0⟩]
      { threshold_contraction := 1 / 2, min_spots := 0 }
      (M3.one, indexer_lsq.threshold0 (-3) 1) 0).2) := by
  decide!

/-- C11, amended. The threshold of a candidate starts at `1 + 2 * score / (3 * n_spots)`; an
iteration that passes the inlier-count check continues the loop in the next state, whose
threshold is the current one times `threshold_contraction`; and for `0 <
threshold_contraction < 1`, `min_spots ≥ 1` and norms that are not negative, the threshold of
a passing iteration is positive, so the next threshold is positive and strictly smaller. -/
theorem lsq_threshold_contracts (sqrt : ℚ → ℚ) (solve : Mx3 → Mx3 → M3) (spots : Mx3)
    (clsq : config_lsq) (cell : M3) (score : ℚ) (nspots k fuel : Nat)
    (hc0 : 0 < clsq.threshold_contraction) (hc1 : clsq.threshold_contraction < 1)
    (hmin : 1 ≤ clsq.min_spots) (hsqrt : ∀ x, 0 ≤ sqrt x)
    (hpass : indexer_lsq.passes sqrt spots clsq
      (indexer_lsq.state sqrt solve spots clsq
        (cell, indexer_lsq.threshold0 score nspots) k) = true) :
    (indexer_lsq.state sqrt solve spots clsq (cell, indexer_lsq.threshold0 score nspots) 0).2 =
      1 + 2 * score / (3 * (nspots : ℚ)) ∧
    indexer_lsq.iterate sqrt solve spots clsq (fuel + 1)
        (indexer_lsq.state sqrt solve spots clsq (cell, indexer_lsq.threshold0 score nspots) k) =
      indexer_lsq.iterate sqrt solve spots clsq fuel
        (indexer_lsq.state sqrt solve spots clsq
          (cell, indexer_lsq.threshold0 score nspots) (k + 1)) ∧
    (indexer_lsq.state sqrt solve spots clsq
        (cell, indexer_lsq.threshold0 score nspots) (k + 1)).2 =
      (indexer_lsq.state sqrt solve spots clsq
        (cell, indexer_lsq.threshold0 score nspots) k).2 * clsq.threshold_contraction ∧
    0 < (indexer_lsq.state sqrt solve spots clsq
        (cell, indexer_lsq.threshold0 score nspots) (k + 1)).2 ∧
    (indexer_lsq.state sqrt solve spots clsq
        (cell, indexer_lsq.threshold0 score nspots) (k + 1)).2 <
      (indexer_lsq.state sqrt solve spots clsq
        (cell, indexer_lsq.threshold0 score nspots) k).2 := by
  have hpos := lsq_threshold_pos_of_passes sqrt spots clsq _ hsqrt hmin hpass
  refine ⟨rfl, ?_, rfl, ?_, ?_⟩
  · conv_lhs => unfold indexer_lsq.iterate
    rw [if_pos hpass]
    rfl
  · show 0 < (indexer_lsq.state sqrt solve spots clsq
        (cell, indexer_lsq.threshold0 score nspots) k).2 * clsq.threshold_contraction
    exact mul_pos hpos hc0
  · show (indexer_lsq.state sqrt solve spots clsq
        (cell, indexer_lsq.threshold0 score nspots) k).2 * clsq.threshold_contraction < _
    nlinarith

/-- C11, amended, at the first iteration of the five-spot run (`threshold_contraction = 1/2`,
`min_spots = 4`, raw score `0`). -/
theorem lsq_threshold_contracts_example :
    (indexer_lsq.state exact_sqrt normal_solve (indexer_lsq.spots five_coords five_cpers 5)
        { threshold_contraction := 1 / 2, min_spots := 4 }
        (identity_cells.block3 0, indexer_lsq.threshold0 0 5) (0 + 1)).2 <
      (indexer_lsq.state exact_sqrt normal_solve (indexer_lsq.spots five_coords five_cpers 5)
        { threshold_contraction := 1 / 2, min_spots := 4 }
        (identity_cells.block3 0, indexer_lsq.threshold0 0 5) 0).2 :=
  (lsq_threshold_contracts exact_sqrt normal_solve (indexer_lsq.spots five_coords five_cpers 5)
    { threshold_contraction := 1 / 2, min_spots := 4 } (identity_cells.block3 0) 0 5 0 0
    (by decide!) (by decide!) (by decide) exact_sqrt_nonneg (by decide!)).2.2.2.2

/-! ## The end-to-end scenario of the specification -/

/-- The first iteration of the trimmed refiner in the end-to-end scenario of the
specification (three spots with third coordinate `0`, identity as raw basis, `min_spots = 2`,
`threshold_contraction = 4/5`), for a raw score with positive initial threshold and a square
root with `sqrt 0 = 0`: all three spots are inliers with residual zero, the check passes, and
the next basis is the solver's answer to the system `Z * X ≈ S` with `Z = S =` the spots. That
system is solved exactly by every `X` whose first two rows are `(1,0,0)` and `(0,1,0)`,
whatever its third row: the data do not determine the third basis vector. -/
theorem scenario_first_iteration (sqrt : ℚ → ℚ) (solve : Mx3 → Mx3 → M3) (score : ℚ)
    (h0 : sqrt 0 = 0) (ht : 0 < indexer_lsq.threshold0 score 3) :
    indexer_lsq.spots scenario_coords scenario_cpers 3 = scenario_spots ∧
    indexer_lsq.passes sqrt scenario_spots { threshold_contraction := 4 / 5, min_spots := 2 }
      (identity_cells.block3 0, indexer_lsq.threshold0 score 3) = true ∧
    indexer_lsq.next sqrt solve scenario_spots { threshold_contraction := 4 / 5, min_spots := 2 }
      (identity_cells.block3 0, indexer_lsq.threshold0 score 3) =
      (solve scenario_spots scenario_spots, indexer_lsq.threshold0 score 3 * (4 / 5)) ∧
    (∀ X : M3, scenario_spots.mulM X = scenario_spots ↔
      X.r0 = ⟨1, 0, 0⟩ ∧ X.r1 = ⟨0, 1, 0⟩) := by
  have hres : indexer_lsq.resid scenario_spots (identity_cells.block3 0) =
      [⟨0, 0, 0⟩, ⟨0, 0, 0⟩, ⟨0, 0, 0⟩] := by decide!
  have hmil : indexer_lsq.miller scenario_spots (identity_cells.block3 0) = scenario_spots := by
    decide!
  have hsq : Vec3.sqnorm ⟨0, 0, 0⟩ = 0 := by decide!
  have hbelow : indexer_lsq.below sqrt scenario_spots (identity_cells.block3 0)
      (indexer_lsq.threshold0 score 3) = [true, true, true] := by
    simp only [indexer_lsq.below, indexer_lsq.norms, hres, List.map_cons, List.map_nil, hsq, h0,
      ht, decide_True]
  refine ⟨by decide!, ?_, ?_, ?_⟩
  · simp only [indexer_lsq.passes, hbelow]
    decide
  · simp only [indexer_lsq.next, hbelow, hmil]
    rfl
  · intro X
    obtain ⟨⟨a, b, c⟩, ⟨d, e, f⟩, ⟨g, k, l⟩⟩ := X
    simp only [scenario_spots, Mx3.mulM, List.map_cons, List.map_nil, Vec3.mulM, List.cons.injEq,
      Vec3.mk.injEq, and_true]
    constructor
    · rintro ⟨⟨h1, h2, h3⟩, ⟨h4, h5, h6⟩, _⟩
      refine ⟨⟨by linarith, by linarith, by linarith⟩, ⟨by linarith, by linarith, by linarith⟩⟩
    · rintro ⟨⟨h1, h2, h3⟩, ⟨h4, h5, h6⟩⟩
      subst h1 h2 h3 h4 h5 h6
      norm_num

/-! ## The least-squares system of the trimmed refiner -/

theorem objective_select_eq_keep (X : M3) (sel : List Bool) (a b : Mx3)
    (h : a.length = b.length) :
    Mx3.objective (Mx3.select sel a) (Mx3.select sel b) X =
      Mx3.objective (Mx3.keep sel a) (Mx3.keep sel b) X := by
  induction sel generalizing a b with
  | nil => simp [Mx3.select, Mx3.keep]
  | cons f sel ih =>
    cases a with
    | nil =>
      cases b with
      | nil => simp [Mx3.select, Mx3.keep]
      | cons v b => simp at h
    | cons u a =>
      cases b with
      | nil => simp at h
      | cons v b =>
        have hl : a.length = b.length := by simpa using h
        have ih' := ih a b hl
        simp only [Mx3.objective, Mx3.select, Mx3.keep, Mx3.mulM, Mx3.sub] at ih' ⊢
        cases f with
        | true =>
          simp only [List.zipWith_cons_cons, List.zip_cons_cons, List.filter_cons, if_true,
            List.map_cons, List.sum_cons, ih']
        | false =>
          simp only [List.zipWith_cons_cons, List.zip_cons_cons, List.filter_cons,
            Bool.false_eq_true, if_false, List.map_cons, List.sum_cons, ih']
          simp [Vec3.zero, Vec3.mulM, Vec3.sub, Vec3.sqnorm]

theorem lsq_length_miller (spots : Mx3) (cell : M3) :
    (indexer_lsq.miller spots cell).length = spots.length := by
  simp [indexer_lsq.miller, Mx3.round, Mx3.mulM]

/-- C19. In a continuing iteration the new basis is the result of the least-squares solve on
the system `M * X ≈ S`, where `M` holds the rounded Miller triples and `S` the spots, both
with every non-inlier row replaced by a zero row and so with as many rows as there are spots.
For every `X` the objective `‖M * X - S‖²` of this system equals the objective of the system
with the non-inlier rows removed, the sum over the inlier spots of `‖z_i * X - spot_i‖²`;
hence the two systems have the same minimisers, and a solve that minimises the first
objective yields a basis that minimises the second. -/
theorem lsq_zeroed_rows_least_squares (sqrt : ℚ → ℚ) (solve : Mx3 → Mx3 → M3) (spots : Mx3)
    (clsq : config_lsq) (st : M3 × ℚ) :
    (indexer_lsq.next sqrt solve spots clsq st).1 =
      solve (Mx3.select (indexer_lsq.below sqrt spots st.1 st.2) (indexer_lsq.miller spots st.1))
        (Mx3.select (indexer_lsq.below sqrt spots st.1 st.2) spots) ∧
    (Mx3.select (indexer_lsq.below sqrt spots st.1 st.2)
      (indexer_lsq.miller spots st.1)).length = spots.length ∧
    (Mx3.select (indexer_lsq.below sqrt spots st.1 st.2) spots).length = spots.length ∧
    (∀ X : M3,
      Mx3.objective
          (Mx3.select (indexer_lsq.below sqrt spots st.1 st.2) (indexer_lsq.miller spots st.1))
          (Mx3.select (indexer_lsq.below sqrt spots st.1 st.2) spots) X =
        Mx3.objective
          (Mx3.keep (indexer_lsq.below sqrt spots st.1 st.2) (indexer_lsq.miller spots st.1))
          (Mx3.keep (indexer_lsq.below sqrt spots st.1 st.2) spots) X) ∧
    (∀ X0 : M3,
      (∀ X, Mx3.objective
          (Mx3.select (indexer_lsq.below sqrt spots st.1 st.2) (indexer_lsq.miller spots st.1))
          (Mx3.select (indexer_lsq.below sqrt spots st.1 st.2) spots) X0 ≤
        Mx3.objective
          (Mx3.select (indexer_lsq.below sqrt spots st.1 st.2) (indexer_lsq.miller spots st.1))
          (Mx3.select (indexer_lsq.below sqrt spots st.1 st.2) spots) X) ↔
      (∀ X, Mx3.objective
          (Mx3.keep (indexer_lsq.below sqrt spots st.1 st.2) (indexer_lsq.miller spots st.1))
          (Mx3.keep (indexer_lsq.below sqrt spots st.1 st.2) spots) X0 ≤
        Mx3.objective
          (Mx3.keep (indexer_lsq.below sqrt spots st.1 st.2) (indexer_lsq.miller spots st.1))
          (Mx3.keep (indexer_lsq.below sqrt spots st.1 st.2) spots) X)) ∧
    ((∀ X, Mx3.objective
          (Mx3.select (indexer_lsq.below sqrt spots st.1 st.2) (indexer_lsq.miller spots st.1))
          (Mx3.select (indexer_lsq.below sqrt spots st.1 st.2) spots)
          (solve
            (Mx3.select (indexer_lsq.below sqrt spots st.1 st.2) (indexer_lsq.miller spots st.1))
            (Mx3.select (indexer_lsq.below sqrt spots st.1 st.2) spots)) ≤
        Mx3.objective
          (Mx3.select (indexer_lsq.below sqrt spots st.1 st.2) (indexer_lsq.miller spots st.1))
          (Mx3.select (indexer_lsq.below sqrt spots st.1 st.2) spots) X) →
      ∀ X, Mx3.objective
          (Mx3.keep (indexer_lsq.below sqrt spots st.1 st.2) (indexer_lsq.miller spots st.1))
          (Mx3.keep (indexer_lsq.below sqrt spots st.1 st.2) spots)
          (indexer_lsq.next sqrt solve spots clsq st).1 ≤
        Mx3.objective
          (Mx3.keep (indexer_lsq.below sqrt spots st.1 st.2) (indexer_lsq.miller spots st.1))
          (Mx3.keep (indexer_lsq.below sqrt spots st.1 st.2) spots) X) := by
  have hobj := fun X => objective_select_eq_keep X (indexer_lsq.below sqrt spots st.1 st.2)
    (indexer_lsq.miller spots st.1) spots (lsq_length_miller spots st.1)
  refine ⟨rfl, ?_, ?_, hobj, ?_, ?_⟩
  · simp [Mx3.select, lsq_length_below, lsq_length_miller]
  · simp [Mx3.select, lsq_length_below]
  · intro X0
    simp only [hobj]
  · intro hmin X
    have h := hmin X
    rw [hobj, hobj] at h
    exact h

/-- C19 at the third iteration of the five-spot run, where the spot `(7/5, 0, 0)` is no
inlier: its row is zero in the system handed to the solver, and the objective at the identity
is the sum over the four inliers. -/
theorem lsq_zeroed_rows_least_squares_example :
    indexer_lsq.below exact_sqrt (indexer_lsq.spots five_coords five_cpers 5)
      ⟨⟨53 / 55, 0, 0⟩, ⟨0, 1, 0⟩, ⟨0, 0, 1⟩⟩ (1 / 4) = [true, false, true, true, true] ∧
    Mx3.objective
        (Mx3.select (indexer_lsq.below exact_sqrt (indexer_lsq.spots five_coords five_cpers 5)
            ⟨⟨53 / 55, 0, 0⟩, ⟨0, 1, 0⟩, ⟨0, 0, 1⟩⟩ (1 / 4))
          (indexer_lsq.miller (indexer_lsq.spots five_coords five_cpers 5)
            ⟨⟨53 / 55, 0, 0⟩, ⟨0, 1, 0⟩, ⟨0, 0, 1⟩⟩))
        (Mx3.select (indexer_lsq.below exact_sqrt (indexer_lsq.spots five_coords five_cpers 5)
            ⟨⟨53 / 55, 0, 0⟩, ⟨0, 1, 0⟩, ⟨0, 0, 1⟩⟩ (1 / 4))
          (indexer_lsq.spots five_coords five_cpers 5)) M3.one =
      Mx3.objective
        (Mx3.keep (indexer_lsq.below exact_sqrt (indexer_lsq.spots five_coords five_cpers 5)
            ⟨⟨53 / 55, 0, 0⟩, ⟨0, 1, 0⟩, ⟨0, 0, 1⟩⟩ (1 / 4))
          (indexer_lsq.miller (indexer_lsq.spots five_coords five_cpers 5)
            ⟨⟨53 / 55, 0, 0⟩, ⟨0, 1, 0⟩, ⟨0, 0, 1⟩⟩))
        (Mx3.keep (indexer_lsq.below exact_sqrt (indexer_lsq.spots five_coords five_cpers 5)
            ⟨⟨53 / 55, 0, 0⟩, ⟨0, 1, 0⟩, ⟨0, 0, 1⟩⟩ (1 / 4))
          (indexer_lsq.spots five_coords five_cpers 5)) M3.one :=
  ⟨by decide!, (lsq_zeroed_rows_least_squares exact_sqrt normal_solve
    (indexer_lsq.spots five_coords five_cpers 5) { threshold_contraction := 1 / 2, min_spots := 4 }
    (⟨⟨53 / 55, 0, 0⟩, ⟨0, 1, 0⟩, ⟨0, 0, 1⟩⟩, 1 / 4)).2.2.2.1 M3.one⟩

/-! ## The weights of the reweighted refiner -/

theorem underflow_exp_range (x : ℚ) : 0 ≤ underflow_exp x ∧ underflow_exp x ≤ 1 := by
  unfold underflow_exp
  split
  · exact ⟨le_refl 0, zero_le_one⟩
  · have h1 : (1 : ℚ) ≤ 3 ^ (-⌊x⌋).toNat := one_le_pow₀ (by norm_num)
    refine ⟨by positivity, ?_⟩
    rw [div_le_one (by positivity)]
    exact h1

/-- The scale `s` of iteration `i` is `-σ_i`, and the exponent of the code is the exponent of
the specification. -/
theorem ifme_scale_eq_sigma (score : ℚ) (n : Nat) (wc : ℚ) (i : Nat)
    (hwc : 0 < wc) (hn : 0 < n) :
    -(2 * score * wc / (3 * (n : ℚ))) / (wc + (i : ℚ)) = -indexer_ifme.sigma score n wc i := by
  have hn' : (0 : ℚ) < (n : ℚ) := by exact_mod_cast hn
  have hi : (0 : ℚ) ≤ (i : ℚ) := by positivity
  have hden : (0 : ℚ) < wc + (i : ℚ) := by linarith
  unfold indexer_ifme.sigma
  field_simp

theorem ifme_weight_neg (exp : ℚ → ℚ) (es sigma : ℚ) (e : Vec3) :
    indexer_ifme.weight exp es (-sigma) e = indexer_ifme.weight exp es sigma e := by
  unfold indexer_ifme.weight
  rw [neg_sq]

/-- One correction of the reweighted refiner, with the weights in the words of the
specification. -/
theorem ifme_correct_eq_weights (exp : ℚ → ℚ) (solve : Mx3 → Mx3 → M3) (spots : Mx3)
    (cifme : config_ifme) (score : ℚ) (n i : Nat) (B : M3)
    (hwc : 0 < cifme.weight_contraction) (hn : 0 < n) :
    indexer_ifme.correct exp solve spots cifme
        (2 * score * cifme.weight_contraction / (3 * (n : ℚ))) B i =
      B.add (solve ((spots.mulM B.inverse).round)
        (List.zipWith (fun e c => Vec3.smul c e)
          (spots.sub (((spots.mulM B.inverse).round).mulM B))
          ((spots.sub (((spots.mulM B.inverse).round).mulM B)).map
            (indexer_ifme.weight exp cifme.error_sensitivity
              (indexer_ifme.sigma score n cifme.weight_contraction i))))) := by
  have hw : ∀ (s : ℚ) (e : Vec3),
      exp (-((e.maxAbs * (cifme.error_sensitivity / s)) ^ 2)) =
        indexer_ifme.weight exp cifme.error_sensitivity s e := by
    intro s e
    unfold indexer_ifme.weight
    rw [← mul_div_assoc, div_pow]
  unfold indexer_ifme.correct
  simp only [ifme_scale_eq_sigma score n cifme.weight_contraction i hwc hn, hw, ifme_weight_neg]

/-- C20 fails as stated: with the default configuration (`error_sensitivity = 4/5`,
`weight_contraction = 2`), one spot `(11/10, 0, 0)`, the identity as basis, raw score
`3/10000` and iteration `0`, the residual is `(1/10, 0, 0)`, the scale is `-1/5000` and
the exponent is `-(1/10 * 4000)² = -160000`. For every exponential that is `0` on arguments
`≤ -12000`, as the `exp` of every IEEE binary format is, the weight of the spot is `0`, which
is not in `(0, 1]`, and the residual row handed to the solver is the zero row. -/
theorem ifme_weight_underflows_to_zero :
    ((3 / 10000 : ℚ) ≠ 0 ∧ (0 : ℚ) < ({} : config_ifme).weight_contraction) ∧
    Mx3.sub [⟨11 / 10, 0, 0⟩]
      (Mx3.mulM (Mx3.round (Mx3.mulM [⟨11 / 10, 0, 0⟩] M3.one.inverse)) M3.one) =
        [⟨1 / 10, 0, 0⟩] ∧
    -(2 * (3 / 10000) * ({} : config_ifme).weight_contraction / (3 * ((1 : Nat) : ℚ))) /
      (({} : config_ifme).weight_contraction + ((0 : Nat) : ℚ)) = -1 / 5000 ∧
    -(((⟨1 / 10, 0, 0⟩ : Vec3).maxAbs *
      (({} : config_ifme).error_sensitivity / (-1 / 5000))) ^ 2) = -160000 ∧
    (∀ (exp : ℚ → ℚ) (solve : Mx3 → Mx3 → M3), (∀ x : ℚ, x ≤ -12000 → exp x = 0) →
      indexer_ifme.weight exp ({} : config_ifme).error_sensitivity
        (indexer_ifme.sigma (3 / 10000) 1 ({} : config_ifme).weight_contraction 0)
        ⟨1 / 10, 0, 0⟩ = 0 ∧
      ¬ (0 < indexer_ifme.weight exp ({} : config_ifme).error_sensitivity
        (indexer_ifme.sigma (3 / 10000) 1 ({} : config_ifme).weight_contraction 0)
        ⟨1 / 10, 0, 0⟩) ∧
      indexer_ifme.correct exp solve [⟨11 / 10, 0, 0⟩] {}
          (2 * (3 / 10000) * ({} : config_ifme).weight_contraction / (3 * ((1 : Nat) : ℚ)))
          M3.one 0 =
        M3.one.add (solve [⟨1, 0, 0⟩] [⟨0, 0, 0⟩])) ∧
    indexer_ifme.weight underflow_exp ({} : config_ifme).error_sensitivity
      (indexer_ifme.sigma (3 / 10000) 1 ({} : config_ifme).weight_contraction 0)
      ⟨1 / 10, 0, 0⟩ = 0 := by
  have harg : -(((⟨1 / 10, 0, 0⟩ : Vec3).maxAbs * ({} : config_ifme).error_sensitivity) ^ 2 /
      indexer_ifme.sigma (3 / 10000) 1 ({} : config_ifme).weight_contraction 0 ^ 2) =
      -160000 := by decide!
  have hE : Mx3.sub [⟨11 / 10, 0, 0⟩]
      (Mx3.mulM (Mx3.round (Mx3.mulM [⟨11 / 10, 0, 0⟩] M3.one.inverse)) M3.one) =
        [⟨1 / 10, 0, 0⟩] := by decide!
  have hZ : Mx3.round (Mx3.mulM [⟨11 / 10, 0, 0⟩] M3.one.inverse) = [⟨1, 0, 0⟩] := by decide!
  refine ⟨by decide!, hE, by decide!, by decide!, ?_, by decide!⟩
  intro exp solve hexp
  have hw : indexer_ifme.weight exp ({} : config_ifme).error_sensitivity
      (indexer_ifme.sigma (3 / 10000) 1 ({} : config_ifme).weight_contraction 0)
      ⟨1 / 10, 0, 0⟩ = 0 := by
    unfold indexer_ifme.weight
    rw [harg]
    exact hexp _ (by norm_num)
  refine ⟨hw, by rw [hw]; exact lt_irrefl 0, ?_⟩
  rw [ifme_correct_eq_weights exp solve [⟨11 / 10, 0, 0⟩] {} (3 / 10000) 1 0 M3.one
    (by decide!) (by decide), hE, hZ]
  simp only [List.map_cons, List.map_nil, List.zipWith_cons_cons, List.zipWith_nil_right, hw,
    Vec3.smul, zero_mul]

/-- C20, amended. For `score ≠ 0`, `weight_contraction > 0` and `n ≥ 1` spots, iteration `i`
of the reweighted refiner scales the residual `e = spot - z * B` of each spot by the weight
`exp (-(max-abs (e) * error_sensitivity)² / σ_i²)` with
`σ_i = (2 * score / (3 * n)) * weight_contraction / (weight_contraction + i)`: the scale `s_i`
of the code is `-σ_i`, which is not zero, and the weight is the same for `-σ_i` and `σ_i`.
The exponent is never positive, so for an exponential with values in `[0, 1]` on arguments
`≤ 0` the weight lies in `[0, 1]`; and `|σ_i|` is strictly decreasing in `i`. -/
theorem ifme_weights (exp : ℚ → ℚ) (solve : Mx3 → Mx3 → M3) (spots : Mx3)
    (cifme : config_ifme) (score : ℚ) (n i : Nat) (B : M3)
    (hscore : score ≠ 0) (hwc : 0 < cifme.weight_contraction) (hn : 0 < n) :
    indexer_ifme.correct exp solve spots cifme
        (2 * score * cifme.weight_contraction / (3 * (n : ℚ))) B i =
      B.add (solve ((spots.mulM B.inverse).round)
        (List.zipWith (fun e c => Vec3.smul c e)
          (spots.sub (((spots.mulM B.inverse).round).mulM B))
          ((spots.sub (((spots.mulM B.inverse).round).mulM B)).map
            (indexer_ifme.weight exp cifme.error_sensitivity
              (indexer_ifme.sigma score n cifme.weight_contraction i))))) ∧
    -(2 * score * cifme.weight_contraction / (3 * (n : ℚ))) /
        (cifme.weight_contraction + (i : ℚ)) =
      -indexer_ifme.sigma score n cifme.weight_contraction i ∧
    indexer_ifme.sigma score n cifme.weight_contraction i ≠ 0 ∧
    (∀ e : Vec3,
      indexer_ifme.weight exp cifme.error_sensitivity
          (-indexer_ifme.sigma score n cifme.weight_contraction i) e =
        indexer_ifme.weight exp cifme.error_sensitivity
          (indexer_ifme.sigma score n cifme.weight_contraction i) e) ∧
    (∀ e : Vec3,
      indexer_ifme.weight exp cifme.error_sensitivity
          (indexer_ifme.sigma score n cifme.weight_contraction i) e =
        exp (-((e.maxAbs * cifme.error_sensitivity) ^ 2 /
          indexer_ifme.sigma score n cifme.weight_contraction i ^ 2)) ∧
      -((e.maxAbs * cifme.error_sensitivity) ^ 2 /
          indexer_ifme.sigma score n cifme.weight_contraction i ^ 2) ≤ 0) ∧
    ((∀ x : ℚ, x ≤ 0 → 0 ≤ exp x ∧ exp x ≤ 1) →
      ∀ e : Vec3,
        0 ≤ indexer_ifme.weight exp cifme.error_sensitivity
          (indexer_ifme.sigma score n cifme.weight_contraction i) e ∧
        indexer_ifme.weight exp cifme.error_sensitivity
          (indexer_ifme.sigma score n cifme.weight_contraction i) e ≤ 1) ∧
    |indexer_ifme.sigma score n cifme.weight_contraction (i + 1)| <
      |indexer_ifme.sigma score n cifme.weight_contraction i| := by
  have hn' : (0 : ℚ) < (n : ℚ) := by exact_mod_cast hn
  have hi : (0 : ℚ) ≤ (i : ℚ) := by positivity
  have hden : (0 : ℚ) < cifme.weight_contraction + (i : ℚ) := by linarith
  have hbase : (0 : ℚ) < |2 * score / (3 * (n : ℚ))| := by
    apply abs_pos.2
    have : (3 * (n : ℚ)) ≠ 0 := by positivity
    exact div_ne_zero (mul_ne_zero two_ne_zero hscore) this
  have habs : ∀ k : Nat, |indexer_ifme.sigma score n cifme.weight_contraction k| =
      |2 * score / (3 * (n : ℚ))| *
        (cifme.weight_contraction / (cifme.weight_contraction + (k : ℚ))) := by
    intro k
    unfold indexer_ifme.sigma
    have hk : (0 : ℚ) ≤ (k : ℚ) := by positivity
    rw [abs_mul, abs_of_pos (div_pos hwc (by linarith))]
  have harg : ∀ e : Vec3, -((e.maxAbs * cifme.error_sensitivity) ^ 2 /
      indexer_ifme.sigma score n cifme.weight_contraction i ^ 2) ≤ 0 := by
    intro e
    have : 0 ≤ (e.maxAbs * cifme.error_sensitivity) ^ 2 /
        indexer_ifme.sigma score n cifme.weight_contraction i ^ 2 := by positivity
    linarith
  refine ⟨ifme_correct_eq_weights exp solve spots cifme score n i B hwc hn,
    ifme_scale_eq_sigma score n cifme.weight_contraction i hwc hn, ?_,
    fun e => ifme_weight_neg exp _ _ e, fun e => ⟨rfl, harg e⟩, ?_, ?_⟩
  · intro h0
    have := habs i
    rw [h0, abs_zero] at this
    have hp : 0 < |2 * score / (3 * (n : ℚ))| *
        (cifme.weight_contraction / (cifme.weight_contraction + (i : ℚ))) :=
      mul_pos hbase (div_pos hwc hden)
    linarith
  · intro hexp e
    unfold indexer_ifme.weight
    exact hexp _ (harg e)
  · rw [habs (i + 1), habs i]
    apply mul_lt_mul_of_pos_left _ hbase
    apply div_lt_div_of_pos_left hwc hden
    push_cast
    linarith

/-- C20, amended, at the default configuration (`error_sensitivity = 4/5`,
`weight_contraction = 2`), raw score `3`, two spots and iteration `0`, with an exponential
that underflows: the weight of the residual `(1/4, 0, 0)` lies in `[0, 1]` and `|σ_1| <
|σ_0|`. -/
theorem ifme_weights_example :
    (0 ≤ indexer_ifme.weight underflow_exp (4 / 5) (indexer_ifme.sigma 3 2 2 0) ⟨1 / 4, 0, 0⟩ ∧
      indexer_ifme.weight underflow_exp (4 / 5) (indexer_ifme.sigma 3 2 2 0) ⟨1 / 4, 0, 0⟩ ≤
        1) ∧
    |indexer_ifme.sigma 3 2 2 (0 + 1)| < |indexer_ifme.sigma 3 2 2 0| :=
  have h := ifme_weights underflow_exp normal_solve [⟨5 / 4, 0, 0⟩, ⟨1, 1, 0⟩]
    { n_iter := 3, error_sensitivity := 4 / 5, weight_contraction := 2 } 3 2 0 M3.one
    (by decide) (by decide!) (by decide)
  ⟨h.2.2.2.2.2.1 (fun x _ => underflow_exp_range x) ⟨1 / 4, 0, 0⟩, h.2.2.2.2.2.2⟩

/-! ## Singular bases -/

/-- C17 fails as stated: for the singular raw basis `(1,0,0), (0,1,0), (1,1,0)` the trimmed
refiner (`min_spots = 100`, ten spots) and the reweighted refiner (`n_iter = 0`) both return
and store that basis as the refined one; nothing is signalled. -/
theorem refine_stores_singular_basis :
    (singular_cells.block3 (3 * 0)).det = 0 ∧
    (indexer_lsq.refine exact_sqrt normal_solve 1 ten_coords singular_cells [3] ten_cpers
      { threshold_contraction := 4 / 5, min_spots := 100 } 10).map (fun r => r.1) =
      some singular_cells ∧
    (indexer_ifme.refine exp_stand_in normal_solve ten_coords singular_cells [3] ten_cpers
      { n_iter := 0, error_sensitivity := 4 / 5, weight_contraction := 2 }).1 =
      singular_cells := by
  decide!

/-- C17, amended. A singular basis is not detected and no error is signalled: when the raw
basis of candidate `j` is singular, the trimmed refiner with `min_spots > n_spots` returns with
that singular basis stored for `j`, and so does the reweighted refiner with `n_iter = 0`. -/
theorem singular_basis_is_not_detected (sqrt exp : ℚ → ℚ) (solve : Mx3 → Mx3 → M3)
    (fuel : Nat) (coords cells : Mx3) (scores : List ℚ) (cpers : config_persistent)
    (clsq : config_lsq) (cifme : config_ifme) (nspots j : Nat)
    (hdet : (cells.block3 (3 * j)).det = 0)
    (hmin : clsq.min_spots > nspots) (hiter : cifme.n_iter = 0) :
    (∃ cells1 scores1,
      indexer_lsq.refine sqrt solve (fuel + 1) coords cells scores cpers clsq nspots =
        some (cells1, scores1) ∧
      cells1.block3 (3 * j) = cells.block3 (3 * j) ∧ (cells1.block3 (3 * j)).det = 0) ∧
    (indexer_ifme.refine exp solve coords cells scores cpers cifme).1.block3 (3 * j) =
      cells.block3 (3 * j) ∧
    ((indexer_ifme.refine exp solve coords cells scores cpers cifme).1.block3 (3 * j)).det = 0 := by
  have h1 := lsq_refine_of_min_spots_gt sqrt solve fuel coords cells cpers clsq nspots hmin
    (List.range cpers.max_output_cells) scores
  have h2 : indexer_ifme.refine exp solve coords cells scores cpers cifme =
      (cells, (List.range cpers.max_output_cells).foldl (fun sc j => sc.set j
        (indexer_ifme.score (indexer_ifme.spots coords cpers) (cells.block3 (u32 (3 * j)))))
        scores) :=
    ifme_refine_of_n_iter_zero exp solve _ cifme _ hiter cells _ scores
  refine ⟨⟨cells, _, h1, rfl, hdet⟩, ?_, ?_⟩
  · rw [h2]
  · rw [h2]
    exact hdet

/-- C17, amended, at the singular raw basis `(1,0,0), (0,1,0), (1,1,0)`. -/
theorem singular_basis_is_not_detected_example :
    (indexer_ifme.refine exp_stand_in normal_solve ten_coords singular_cells [3] ten_cpers
      { n_iter := 0, error_sensitivity := 4 / 5, weight_contraction := 2 }).1.block3 (3 * 0) =
      singular_cells.block3 (3 * 0) :=
  (singular_basis_is_not_detected exact_sqrt exp_stand_in normal_solve 0 ten_coords
    singular_cells [3] ten_cpers { threshold_contraction := 4 / 5, min_spots := 100 }
    { n_iter := 0, error_sensitivity := 4 / 5, weight_contraction := 2 } 10 0
    (by decide!) (by decide) rfl).2.1


/-! ## Rounding residuals and means -/

theorem isqrt_mul_self_le (n : Nat) : isqrt n * isqrt n ≤ n :=
  (isqrt_search_spec n n 0 (by simp) (by simp)).1

theorem floor_sqrt_spec (x : ℚ) (hx : 0 ≤ x) :
    0 ≤ floor_sqrt x ∧ floor_sqrt x * floor_sqrt x ≤ x := by
  unfold floor_sqrt
  split
  · next h => exact ⟨exact_sqrt_nonneg x, h⟩
  have hd : (0 : ℚ) < (x.den : ℚ) := by exact_mod_cast x.den_pos
  refine ⟨by positivity, ?_⟩
  have hnum : (0 : ℤ) ≤ x.num := Rat.num_nonneg.2 hx
  have h1 : ((isqrt (x.num.toNat * x.den) * isqrt (x.num.toNat * x.den) : Nat) : ℚ) ≤
      ((x.num.toNat * x.den : Nat) : ℚ) := by
    exact_mod_cast isqrt_mul_self_le _
  have hxq : x = (x.num.toNat : ℚ) / (x.den : ℚ) := by
    conv_lhs => rw [← Rat.num_div_den x]
    congr 1
    have : ((x.num.toNat : ℤ) : ℚ) = (x.num : ℚ) := by
      rw [Int.toNat_of_nonneg hnum]
    rw [← this]
    norm_cast
  rw [div_mul_div_comm, div_le_iff₀ (by positivity)]
  push_cast at h1
  have hmul : x * (x.den : ℚ) = (x.num.toNat : ℚ) := by
    have h2 : (x.num.toNat : ℚ) / (x.den : ℚ) * (x.den : ℚ) = (x.num.toNat : ℚ) :=
      div_mul_cancel₀ _ (ne_of_gt hd)
    rw [← hxq] at h2
    exact h2
  calc (isqrt (x.num.toNat * x.den) : ℚ) * (isqrt (x.num.toNat * x.den) : ℚ)
      ≤ (x.num.toNat : ℚ) * (x.den : ℚ) := h1
    _ = x * ((x.den : ℚ) * (x.den : ℚ)) := by
        rw [← hmul]
        ring

theorem cround_sub_le (x : ℚ) : |x - cround x| ≤ 1 / 2 := by
  unfold cround
  by_cases h : 0 ≤ x
  · rw [if_pos h]
    have h1 := Int.floor_le (x + 1 / 2)
    have h2 := Int.lt_floor_add_one (x + 1 / 2)
    rw [abs_le]
    constructor <;> linarith
  · rw [if_neg h]
    have h1 := Int.le_ceil (x - 1 / 2)
    have h2 := Int.ceil_lt_add_one (x - 1 / 2)
    rw [abs_le]
    constructor <;> linarith

theorem cround_intCast (n : ℤ) : cround (n : ℚ) = n := by
  unfold cround
  by_cases h : (0 : ℚ) ≤ (n : ℚ)
  · rw [if_pos h]
    have : ⌊(n : ℚ) + 1 / 2⌋ = n := by
      rw [Int.floor_eq_iff]
      constructor <;> norm_num
    rw [this]
  · rw [if_neg h]
    have : ⌈(n : ℚ) - 1 / 2⌉ = n := by
      rw [Int.ceil_eq_iff]
      constructor <;> norm_num
    rw [this]

/-- Every row of the residual matrix is a row minus its rounding. -/
theorem mem_sub_round (m : Mx3) (r : Vec3) (h : r ∈ Mx3.sub m (Mx3.round m)) :
    ∃ v : Vec3, r = v.sub v.round := by
  induction m with
  | nil => simp [Mx3.sub, Mx3.round] at h
  | cons a m ih =>
    simp only [Mx3.sub, Mx3.round, List.map_cons, List.zipWith_cons_cons, List.mem_cons] at h
    rcases h with h | h
    · exact ⟨a, h⟩
    · exact ih h

theorem sub_round_bounds (v : Vec3) :
    0 ≤ (v.sub v.round).sqnorm ∧ (v.sub v.round).sqnorm ≤ 3 / 4 ∧
    0 ≤ (v.sub v.round).maxAbs ∧ (v.sub v.round).maxAbs ≤ 1 / 2 := by
  have hx := cround_sub_le v.x
  have hy := cround_sub_le v.y
  have hz := cround_sub_le v.z
  simp only [Vec3.sub, Vec3.round, Vec3.sqnorm, Vec3.maxAbs]
  rw [abs_le] at hx hy hz
  refine ⟨by nlinarith [mul_self_nonneg (v.x - cround v.x), mul_self_nonneg (v.y - cround v.y),
    mul_self_nonneg (v.z - cround v.z)], by nlinarith, ?_, ?_⟩
  · exact le_max_of_le_right (abs_nonneg _)
  · refine max_le (max_le ?_ ?_) ?_ <;> rw [abs_le] <;> constructor <;> linarith

theorem mean_nonneg (l : List ℚ) (h : ∀ d ∈ l, 0 ≤ d) : 0 ≤ mean l := by
  unfold mean
  exact div_nonneg (List.sum_nonneg h) (by positivity)

theorem sum_le_length_mul (l : List ℚ) (c : ℚ) (h : ∀ d ∈ l, d ≤ c) :
    l.sum ≤ (l.length : ℚ) * c := by
  induction l with
  | nil => simp
  | cons a l ih =>
    have ha := h a (List.mem_cons_self _ _)
    have := ih (fun d hd => h d (List.mem_cons_of_mem _ hd))
    simp only [List.sum_cons, List.length_cons]
    push_cast
    linarith

theorem mean_le (l : List ℚ) (c : ℚ) (hc : 0 ≤ c) (h : ∀ d ∈ l, d ≤ c) : mean l ≤ c := by
  unfold mean
  by_cases hl : l.length = 0
  · simp [hl, hc]
  · have hpos : (0 : ℚ) < (l.length : ℚ) := by
      exact_mod_cast Nat.pos_of_ne_zero hl
    rw [div_le_iff₀ hpos]
    have := sum_le_length_mul l c h
    linarith

/-- The mean of non-negative numbers whose squares are at most `c` has a square of at most
`c`. -/
theorem mean_sq_le (l : List ℚ) (c : ℚ) (hc : 0 ≤ c) (h : ∀ d ∈ l, 0 ≤ d ∧ d * d ≤ c) :
    mean l * mean l ≤ c := by
  have hsum0 : 0 ≤ l.sum := List.sum_nonneg (fun d hd => (h d hd).1)
  have hprod : ∀ e : ℚ, 0 ≤ e → e * e ≤ c → e * l.sum ≤ (l.length : ℚ) * c := by
    intro e he hee
    have : ∀ d ∈ l.map (fun d => e * d), d ≤ c := by
      intro d hd
      obtain ⟨d0, hd0, rfl⟩ := List.mem_map.1 hd
      have := h d0 hd0
      nlinarith [sq_nonneg (e - d0)]
    have h1 := sum_le_length_mul _ c this
    rw [List.sum_map_mul_left] at h1
    simpa using h1
  have hsq : l.sum * l.sum ≤ (l.length : ℚ) * (l.length : ℚ) * c := by
    have : ∀ d ∈ l.map (fun d => d * l.sum), d ≤ (l.length : ℚ) * c := by
      intro d hd
      obtain ⟨d0, hd0, rfl⟩ := List.mem_map.1 hd
      exact hprod d0 (h d0 hd0).1 (h d0 hd0).2
    have h1 := sum_le_length_mul _ _ this
    rw [List.sum_map_mul_right] at h1
    simp only [List.length_map, List.map_id_fun', id] at h1
    linarith
  unfold mean
  by_cases hl : l.length = 0
  · simp [hl, hc]
  · have hpos : (0 : ℚ) < (l.length : ℚ) := by
      exact_mod_cast Nat.pos_of_ne_zero hl
    rw [div_mul_div_comm, div_le_iff₀ (by positivity)]
    linarith

/-! ## The contraction of the threshold -/

/-- The threshold after `k` continuing iterations is the first threshold times the `k`-th
power of `threshold_contraction`. -/
theorem lsq_state_threshold (sqrt : ℚ → ℚ) (solve : Mx3 → Mx3 → M3) (spots : Mx3)
    (clsq : config_lsq) (st : M3 × ℚ) (k : Nat) :
    (indexer_lsq.state sqrt solve spots clsq st k).2 = st.2 * clsq.threshold_contraction ^ k := by
  induction k with
  | zero => simp [indexer_lsq.state]
  | succ k ih =>
    simp only [indexer_lsq.state, indexer_lsq.next, ih]
    ring

/-- For `0 < threshold_contraction < 1` the threshold falls below every positive bound. -/
theorem lsq_threshold_below (sqrt : ℚ → ℚ) (solve : Mx3 → Mx3 → M3) (spots : Mx3)
    (clsq : config_lsq) (st : M3 × ℚ) (ε : ℚ)
    (hc1 : clsq.threshold_contraction < 1) (hε : 0 < ε) : ∃ n, (indexer_lsq.state sqrt solve spots clsq st n).2 < ε := by
  by_cases ht : st.2 ≤ 0
  · exact ⟨0, lt_of_le_of_lt ht hε⟩
  · have hpos : 0 < st.2 := lt_of_not_le ht
    obtain ⟨n, hn⟩ := exists_pow_lt_of_lt_one (div_pos hε hpos) hc1
    refine ⟨n, ?_⟩
    rw [lsq_state_threshold]
    have := (lt_div_iff₀ hpos).1 hn
    linarith

/-- A smaller threshold has no more inliers. -/
theorem lsq_count_below_mono (sqrt : ℚ → ℚ) (spots : Mx3) (cell : M3) (t ε : ℚ) (h : t ≤ ε) :
    (indexer_lsq.below sqrt spots cell t).count true ≤
      (indexer_lsq.below sqrt spots cell ε).count true := by
  unfold indexer_lsq.below
  induction indexer_lsq.norms sqrt (indexer_lsq.resid spots cell) with
  | nil => simp
  | cons d l ih =>
    simp only [List.map_cons, List.count_cons]
    by_cases hd : d < t
    · have hd2 : d < ε := lt_of_lt_of_le hd h
      simp [hd, hd2]; omega
    · by_cases hd2 : d < ε
      · simp [hd, hd2]; omega
      · simp [hd, hd2]; omega

/-! ## The loops over the candidates -/

theorem foldlM_some {α β : Type} (f : β → α → β) (l : List α) (b : β) :
    l.foldlM (fun s a => some (f s a)) b = some (l.foldl f b) := by
  induction l generalizing b with
  | nil => rfl
  | cons a l ih =>
    rw [List.foldlM_cons, List.foldl_cons]
    exact ih _

/-- What a returning run of the trimmed refiner leaves in the output buffers: both keep their
sizes, rows and scores outside the candidates' slots keep their values, and the slot of
candidate `j` holds what the loop returns from `j`'s own raw basis and raw score. -/
theorem lsq_refine_spec (sqrt : ℚ → ℚ) (solve : Mx3 → Mx3 → M3) (fuel : Nat)
    (coords cells : Mx3) (scores : List ℚ) (cpers : config_persistent) (clsq : config_lsq)
    (nspots : Nat) (out : Mx3 × List ℚ)
    (hcap : 3 * cpers.max_output_cells ≤ 2 ^ 32)
    (hrun : indexer_lsq.refine sqrt solve fuel coords cells scores cpers clsq nspots = some out) :
    out.1.length = cells.length ∧ out.2.length = scores.length ∧
    (∀ i, (∀ j, j < cpers.max_output_cells → ¬ (3 * j ≤ i ∧ i < 3 * j + 3)) →
      Mx3.row out.1 i = Mx3.row cells i) ∧
    (∀ i, ¬ i < cpers.max_output_cells → out.2.getD i 0 = scores.getD i 0) ∧
    (∀ j, j < cpers.max_output_cells →
      ∃ r, indexer_lsq.iterate sqrt solve (indexer_lsq.spots coords cpers nspots) clsq fuel
          (cells.block3 (3 * j), indexer_lsq.threshold0 (scores.getD j 0) nspots) = some r ∧
        (3 * j + 3 ≤ cells.length → out.1.block3 (3 * j) = r.1) ∧
        (j < scores.length → out.2.getD j 0 = mean (indexer_lsq.norms sqrt r.2))) := by
  have hloop := candidates_loop _
    (fun (cell : M3) (sc : ℚ) =>
      (indexer_lsq.iterate sqrt solve (indexer_lsq.spots coords cpers nspots) clsq fuel
        (cell, indexer_lsq.threshold0 sc nspots)).map
        (fun r => (r.1, mean (indexer_lsq.norms sqrt r.2))))
    (lsq_refine_candidate_eq sqrt solve fuel (indexer_lsq.spots coords cpers nspots) clsq nspots)
    cpers.max_output_cells hcap (List.range cpers.max_output_cells)
    (fun j hj => List.mem_range.1 hj) (List.nodup_range _) (cells, scores) out hrun
  obtain ⟨h1, h2, h3, h4, h5⟩ := hloop
  refine ⟨h1, h2, ?_, ?_, ?_⟩
  · intro i hi
    exact h3 i (fun j hj => hi j (List.mem_range.1 hj))
  · intro i hi
    exact h4 i (fun hmem => hi (List.mem_range.1 hmem))
  · intro j hj
    obtain ⟨r, hr, hcell, hscore⟩ := h5 j (List.mem_range.2 hj)
    simp only at hr hcell hscore
    cases hit : indexer_lsq.iterate sqrt solve (indexer_lsq.spots coords cpers nspots) clsq fuel
        (cells.block3 (3 * j), indexer_lsq.threshold0 (scores.getD j 0) nspots) with
    | none => rw [hit] at hr; simp at hr
    | some q =>
      rw [hit] at hr
      simp only [Option.map_some', Option.some.injEq] at hr
      refine ⟨q, rfl, ?_, ?_⟩
      · intro h
        rw [hcell h, ← hr]
      · intro h
        rw [hscore h, ← hr]

/-- What the reweighted refiner leaves in the output buffers: both keep their sizes, rows and
scores outside the candidates' slots keep their values, and the slot of candidate `j` holds
the basis that the `n_iter` corrections make of `j`'s own raw basis, with its score. -/
theorem ifme_refine_spec (exp : ℚ → ℚ) (solve : Mx3 → Mx3 → M3) (coords cells : Mx3)
    (scores : List ℚ) (cpers : config_persistent) (cifme : config_ifme)
    (hcap : 3 * cpers.max_output_cells ≤ 2 ^ 32) :
    (indexer_ifme.refine exp solve coords cells scores cpers cifme).1.length = cells.length ∧
    (indexer_ifme.refine exp solve coords cells scores cpers cifme).2.length = scores.length ∧
    (∀ i, (∀ j, j < cpers.max_output_cells → ¬ (3 * j ≤ i ∧ i < 3 * j + 3)) →
      Mx3.row (indexer_ifme.refine exp solve coords cells scores cpers cifme).1 i =
        Mx3.row cells i) ∧
    (∀ i, ¬ i < cpers.max_output_cells →
      (indexer_ifme.refine exp solve coords cells scores cpers cifme).2.getD i 0 =
        scores.getD i 0) ∧
    (∀ j, j < cpers.max_output_cells →
      (3 * j + 3 ≤ cells.length →
        (indexer_ifme.refine exp solve coords cells scores cpers cifme).1.block3 (3 * j) =
          (List.range cifme.n_iter).foldl
            (indexer_ifme.correct exp solve (indexer_ifme.spots coords cpers) cifme
              (2 * scores.getD j 0 * cifme.weight_contraction /
                (3 * ((u32 (indexer_ifme.spots coords cpers).length : Nat) : ℚ))))
            (cells.block3 (3 * j))) ∧
      (j < scores.length →
        (indexer_ifme.refine exp solve coords cells scores cpers cifme).2.getD j 0 =
          indexer_ifme.score (indexer_ifme.spots coords cpers)
            ((List.range cifme.n_iter).foldl
              (indexer_ifme.correct exp solve (indexer_ifme.spots coords cpers) cifme
                (2 * scores.getD j 0 * cifme.weight_contraction /
                  (3 * ((u32 (indexer_ifme.spots coords cpers).length : Nat) : ℚ))))
              (cells.block3 (3 * j))))) := by
  have hfold : (List.range cpers.max_output_cells).foldlM
      (fun st j => some (indexer_ifme.refine_candidate exp solve (indexer_ifme.spots coords cpers)
        cifme (u32 (indexer_ifme.spots coords cpers).length) st j)) (cells, scores) =
      some (indexer_ifme.refine exp solve coords cells scores cpers cifme) :=
    foldlM_some _ _ _
  have hloop := candidates_loop _
    (fun (B0 : M3) (sc : ℚ) =>
      some ((List.range cifme.n_iter).foldl
          (indexer_ifme.correct exp solve (indexer_ifme.spots coords cpers) cifme
            (2 * sc * cifme.weight_contraction /
              (3 * ((u32 (indexer_ifme.spots coords cpers).length : Nat) : ℚ)))) B0,
        indexer_ifme.score (indexer_ifme.spots coords cpers)
          ((List.range cifme.n_iter).foldl
            (indexer_ifme.correct exp solve (indexer_ifme.spots coords cpers) cifme
              (2 * sc * cifme.weight_contraction /
                (3 * ((u32 (indexer_ifme.spots coords cpers).length : Nat) : ℚ)))) B0)))
    (fun st j => rfl)
    cpers.max_output_cells hcap (List.range cpers.max_output_cells)
    (fun j hj => List.mem_range.1 hj) (List.nodup_range _) (cells, scores) _ hfold
  obtain ⟨h1, h2, h3, h4, h5⟩ := hloop
  refine ⟨h1, h2, ?_, ?_, ?_⟩
  · intro i hi
    exact h3 i (fun j hj => hi j (List.mem_range.1 hj))
  · intro i hi
    exact h4 i (fun hmem => hi (List.mem_range.1 hmem))
  · intro j hj
    obtain ⟨r, hr, hcell, hscore⟩ := h5 j (List.mem_range.2 hj)
    simp only [Option.some.injEq] at hr hcell hscore
    refine ⟨?_, ?_⟩
    · intro h
      rw [hcell h, ← hr]
    · intro h
      rw [hscore h, ← hr]

/-! ## Termination of the loop of the trimmed refiner -/

theorem unit_below (t : ℚ) (ht : 0 < t) :
    indexer_lsq.below exact_sqrt (indexer_lsq.spots unit_coords unit_cpers 3) M3.one t =
      [true, true, true] := by
  have hn : indexer_lsq.norms exact_sqrt
      (indexer_lsq.resid (indexer_lsq.spots unit_coords unit_cpers 3) M3.one) =
      [0, 0, 0] := by decide!
  unfold indexer_lsq.below
  rw [hn]
  simp [ht]

theorem unit_passes (t : ℚ) (ht : 0 < t) :
    indexer_lsq.passes exact_sqrt (indexer_lsq.spots unit_coords unit_cpers 3)
      { threshold_contraction := 4 / 5, min_spots := 3 } (M3.one, t) = true := by
  unfold indexer_lsq.passes
  rw [unit_below t ht]
  decide

theorem unit_next (t : ℚ) (ht : 0 < t) :
    indexer_lsq.next exact_sqrt normal_solve (indexer_lsq.spots unit_coords unit_cpers 3)
      { threshold_contraction := 4 / 5, min_spots := 3 } (M3.one, t) =
      (M3.one, t * (4 / 5)) := by
  unfold indexer_lsq.next
  simp only
  rw [unit_below t ht]
  have hs : normal_solve
      (Mx3.select [true, true, true]
        (indexer_lsq.miller (indexer_lsq.spots unit_coords unit_cpers 3) M3.one))
      (Mx3.select [true, true, true]
        (indexer_lsq.spots unit_coords unit_cpers 3)) = M3.one := by decide!
  rw [hs]

theorem unit_state (k : Nat) :
    ∃ t : ℚ, 0 < t ∧
      indexer_lsq.state exact_sqrt normal_solve (indexer_lsq.spots unit_coords unit_cpers 3)
        { threshold_contraction := 4 / 5, min_spots := 3 }
        (identity_cells.block3 0, indexer_lsq.threshold0 0 3) k = (M3.one, t) := by
  induction k with
  | zero => exact ⟨1, by norm_num, by decide!⟩
  | succ k ih =>
    obtain ⟨t, ht, hk⟩ := ih
    refine ⟨t * (4 / 5), by positivity, ?_⟩
    simp only [indexer_lsq.state, hk]
    exact unit_next t ht

theorem unit_iterate (fuel : Nat) (t : ℚ) (ht : 0 < t) :
    indexer_lsq.iterate exact_sqrt normal_solve (indexer_lsq.spots unit_coords unit_cpers 3)
      { threshold_contraction := 4 / 5, min_spots := 3 } fuel (M3.one, t) = none := by
  induction fuel generalizing t with
  | zero => rfl
  | succ fuel ih =>
    unfold indexer_lsq.iterate
    rw [if_pos (unit_passes t ht), unit_next t ht]
    exact ih _ (by positivity)

/-- C21 fails as stated: with `threshold_contraction = 4/5`, `min_spots = 3`, the three unit
vectors as spots, the identity as raw basis and raw score `0`, every residual is `0`, which is
below every threshold `(4/5)^k`; every fit returns the identity again (determinant `1`), every
inlier-count check passes with count `3`, and the loop exits for no amount of fuel. All
matrix entries in this run are `0` or `1`, so no operation on them rounds; the floating-point
threshold `0.8^k` stays positive as well (at the smallest subnormal, `0.8` times it rounds
back to it). -/
theorem lsq_loop_runs_forever_on_unit_spots :
    (1 ≤ 3 ∧ 1 ≤ ({ threshold_contraction := 4 / 5, min_spots := 3 } : config_lsq).min_spots ∧
      0 < ({ threshold_contraction := 4 / 5, min_spots := 3 } : config_lsq).threshold_contraction ∧
      ({ threshold_contraction := 4 / 5, min_spots := 3 } : config_lsq).threshold_contraction
        < 1) ∧
    (∀ k, (indexer_lsq.state exact_sqrt normal_solve
      (indexer_lsq.spots unit_coords unit_cpers 3)
      { threshold_contraction := 4 / 5, min_spots := 3 }
      (identity_cells.block3 0, indexer_lsq.threshold0 0 3) k).1 = M3.one) ∧
    M3.one.det = 1 ∧
    indexer_lsq.resid (indexer_lsq.spots unit_coords unit_cpers 3) M3.one =
      [⟨0, 0, 0⟩, ⟨0, 0, 0⟩, ⟨0, 0, 0⟩] ∧
    (∀ k, indexer_lsq.passes exact_sqrt (indexer_lsq.spots unit_coords unit_cpers 3)
      { threshold_contraction := 4 / 5, min_spots := 3 }
      (indexer_lsq.state exact_sqrt normal_solve
        (indexer_lsq.spots unit_coords unit_cpers 3)
        { threshold_contraction := 4 / 5, min_spots := 3 }
        (identity_cells.block3 0, indexer_lsq.threshold0 0 3) k) = true) ∧
    (∀ fuel, indexer_lsq.iterate exact_sqrt normal_solve
      (indexer_lsq.spots unit_coords unit_cpers 3)
      { threshold_contraction := 4 / 5, min_spots := 3 } fuel
      (identity_cells.block3 0, indexer_lsq.threshold0 0 3) = none) ∧
    (∀ fuel, indexer_lsq.refine exact_sqrt normal_solve fuel unit_coords identity_cells [0]
      unit_cpers { threshold_contraction := 4 / 5, min_spots := 3 } 3 = none) := by
  have h0 : (identity_cells.block3 0, indexer_lsq.threshold0 0 3) = (M3.one, (1 : ℚ)) := by
    decide!
  have hit : ∀ fuel, indexer_lsq.iterate exact_sqrt normal_solve
      (indexer_lsq.spots unit_coords unit_cpers 3)
      { threshold_contraction := 4 / 5, min_spots := 3 } fuel
      (identity_cells.block3 0, indexer_lsq.threshold0 0 3) = none := by
    intro fuel
    rw [h0]
    exact unit_iterate fuel 1 (by norm_num)
  refine ⟨by decide!, ?_, by decide!, by decide!, ?_, hit, ?_⟩
  · intro k
    obtain ⟨t, _, hk⟩ := unit_state k
    rw [hk]
  · intro k
    obtain ⟨t, ht, hk⟩ := unit_state k
    rw [hk]
    exact unit_passes t ht
  · intro fuel
    have hstep : indexer_lsq.refine_candidate exact_sqrt normal_solve fuel
        (indexer_lsq.spots unit_coords unit_cpers 3)
        { threshold_contraction := 4 / 5, min_spots := 3 } 3 (identity_cells, [0]) 0 =
        none := by
      unfold indexer_lsq.refine_candidate
      have hu : u32 (3 * 0) = 0 := by decide
      have hs : ([0] : List ℚ).getD 0 0 = 0 := rfl
      simp only [hu, hs, hit fuel]
    have hr : List.range unit_cpers.max_output_cells = [0] := by decide
    unfold indexer_lsq.refine
    rw [hr, List.foldlM_cons, hstep]
    rfl

/-- C21, amended. For `threshold_contraction < 1` (so for `0 < threshold_contraction < 1`),
if for some `ε > 0` every iteration the loop reaches has fewer than `min_spots` spots with a
residual norm below `ε`, the loop exits:
there is an iteration `k`, reached through passing checks only, whose inlier count is below
`min_spots`, and with any fuel above `k` the loop returns the basis of that iteration and the
residuals against it. -/
theorem lsq_loop_terminates (sqrt : ℚ → ℚ) (solve : Mx3 → Mx3 → M3) (spots : Mx3)
    (clsq : config_lsq) (cell : M3) (score : ℚ) (nspots : Nat) (ε : ℚ)
    (hc1 : clsq.threshold_contraction < 1) (hε : 0 < ε)
    (hfew : ∀ k, (∀ i, i < k → indexer_lsq.passes sqrt spots clsq
        (indexer_lsq.state sqrt solve spots clsq
          (cell, indexer_lsq.threshold0 score nspots) i) = true) →
      (indexer_lsq.below sqrt spots (indexer_lsq.state sqrt solve spots clsq
        (cell, indexer_lsq.threshold0 score nspots) k).1 ε).count true < clsq.min_spots) :
    ∃ k, (∀ i, i < k → indexer_lsq.passes sqrt spots clsq
        (indexer_lsq.state sqrt solve spots clsq
          (cell, indexer_lsq.threshold0 score nspots) i) = true) ∧
      (indexer_lsq.below sqrt spots
        (indexer_lsq.state sqrt solve spots clsq (cell, indexer_lsq.threshold0 score nspots) k).1
        (indexer_lsq.state sqrt solve spots clsq (cell, indexer_lsq.threshold0 score nspots) k).2
        ).count true < clsq.min_spots ∧
      ∀ fuel, k < fuel →
        indexer_lsq.iterate sqrt solve spots clsq fuel
            (cell, indexer_lsq.threshold0 score nspots) =
          some ((indexer_lsq.state sqrt solve spots clsq
              (cell, indexer_lsq.threshold0 score nspots) k).1,
            indexer_lsq.resid spots (indexer_lsq.state sqrt solve spots clsq
              (cell, indexer_lsq.threshold0 score nspots) k).1) := by
  have hfail : ∃ k, indexer_lsq.passes sqrt spots clsq (indexer_lsq.state sqrt solve spots clsq
      (cell, indexer_lsq.threshold0 score nspots) k) = false := by
    by_contra hcon
    have hall : ∀ k, indexer_lsq.passes sqrt spots clsq (indexer_lsq.state sqrt solve spots clsq
        (cell, indexer_lsq.threshold0 score nspots) k) = true := by
      intro k
      by_contra hk
      exact hcon ⟨k, by simpa using hk⟩
    obtain ⟨n, hn⟩ := lsq_threshold_below sqrt solve spots clsq
      (cell, indexer_lsq.threshold0 score nspots) ε hc1 hε
    have h1 := hfew n (fun i _ => hall i)
    have h2 := hall n
    simp only [indexer_lsq.passes, Bool.not_eq_true', decide_eq_false_iff_not, not_lt] at h2
    have h3 := lsq_count_below_mono sqrt spots (indexer_lsq.state sqrt solve spots clsq
      (cell, indexer_lsq.threshold0 score nspots) n).1 _ ε (le_of_lt hn)
    omega
  classical
  refine ⟨Nat.find hfail, ?_, ?_, ?_⟩
  · intro i hi
    have := Nat.find_min hfail hi
    simpa using this
  · have := Nat.find_spec hfail
    simpa [indexer_lsq.passes] using this
  · intro fuel hfuel
    rw [lsq_iterate_eq_some]
    refine ⟨Nat.find hfail, hfuel, ?_, Nat.find_spec hfail, rfl⟩
    intro i hi
    have := Nat.find_min hfail hi
    simpa using this

/-- C21, amended, on the five-spot run (`threshold_contraction = 1/2`, `min_spots = 4`, raw
score `0`) with `ε = 1/8`: three of the five spots keep a residual norm of at least `1/8`
in the iterations reached, and the loop exits. -/
theorem lsq_loop_terminates_example :
    ∃ k, (∀ i, i < k → indexer_lsq.passes exact_sqrt
        (indexer_lsq.spots five_coords five_cpers 5)
        { threshold_contraction := 1 / 2, min_spots := 4 }
        (indexer_lsq.state exact_sqrt normal_solve (indexer_lsq.spots five_coords five_cpers 5)
          { threshold_contraction := 1 / 2, min_spots := 4 }
          (identity_cells.block3 0, indexer_lsq.threshold0 0 5) i) = true) ∧
      (indexer_lsq.below exact_sqrt (indexer_lsq.spots five_coords five_cpers 5)
        (indexer_lsq.state exact_sqrt normal_solve (indexer_lsq.spots five_coords five_cpers 5)
          { threshold_contraction := 1 / 2, min_spots := 4 }
          (identity_cells.block3 0, indexer_lsq.threshold0 0 5) k).1
        (indexer_lsq.state exact_sqrt normal_solve (indexer_lsq.spots five_coords five_cpers 5)
          { threshold_contraction := 1 / 2, min_spots := 4 }
          (identity_cells.block3 0, indexer_lsq.threshold0 0 5) k).2
        ).count true < 4 ∧
      ∀ fuel, k < fuel →
        indexer_lsq.iterate exact_sqrt normal_solve (indexer_lsq.spots five_coords five_cpers 5)
            { threshold_contraction := 1 / 2, min_spots := 4 } fuel
            (identity_cells.block3 0, indexer_lsq.threshold0 0 5) =
          some ((indexer_lsq.state exact_sqrt normal_solve
              (indexer_lsq.spots five_coords five_cpers 5)
              { threshold_contraction := 1 / 2, min_spots := 4 }
              (identity_cells.block3 0, indexer_lsq.threshold0 0 5) k).1,
            indexer_lsq.resid (indexer_lsq.spots five_coords five_cpers 5)
              (indexer_lsq.state exact_sqrt normal_solve
                (indexer_lsq.spots five_coords five_cpers 5)
                { threshold_contraction := 1 / 2, min_spots := 4 }
                (identity_cells.block3 0, indexer_lsq.threshold0 0 5) k).1) :=
  lsq_loop_terminates exact_sqrt normal_solve (indexer_lsq.spots five_coords five_cpers 5)
    { threshold_contraction := 1 / 2, min_spots := 4 } (identity_cells.block3 0) 0 5 (1 / 8)
    (by decide!) (by decide!)
    (by
      intro k hk
      rcases k with _ | _ | _ | _ | k
      · decide!
      · decide!
      · decide!
      · decide!
      · exact absurd (hk 3 (by omega)) (by decide!))

/-! ## The first iteration of the trimmed refiner -/

/-- With a square root that is not negative and does not exceed the true root, every residual
norm is below `1`. -/
theorem lsq_norms_bounds (sqrt : ℚ → ℚ) (hsqrt : ∀ x, 0 ≤ x → 0 ≤ sqrt x ∧ sqrt x * sqrt x ≤ x)
    (spots : Mx3) (cell : M3) (d : ℚ)
    (hd : d ∈ indexer_lsq.norms sqrt (indexer_lsq.resid spots cell)) :
    0 ≤ d ∧ d * d ≤ 3 / 4 ∧ d < 1 := by
  simp only [indexer_lsq.norms, List.mem_map] at hd
  obtain ⟨r, hr, rfl⟩ := hd
  obtain ⟨v, rfl⟩ := mem_sub_round _ r hr
  have hb := sub_round_bounds v
  have hs := hsqrt _ hb.1
  refine ⟨hs.1, le_trans hs.2 hb.2.1, ?_⟩
  by_contra hge
  have h1 : 1 ≤ sqrt (v.sub v.round).sqnorm := le_of_not_lt hge
  nlinarith [hs.2, hb.2.1]

/-- Selecting with flags that are all set keeps the matrix. -/
theorem select_all_true (sel : List Bool) (m : Mx3) (hall : ∀ b ∈ sel, b = true)
    (hlen : sel.length = m.length) : Mx3.select sel m = m := by
  induction sel generalizing m with
  | nil =>
    cases m with
    | nil => rfl
    | cons v m => simp at hlen
  | cons b sel ih =>
    cases m with
    | nil => simp at hlen
    | cons v m =>
      have hb : b = true := hall b (List.mem_cons_self _ _)
      have := ih m (fun c hc => hall c (List.mem_cons_of_mem _ hc)) (by simpa using hlen)
      simp only [Mx3.select] at this ⊢
      simp only [List.zipWith_cons_cons, hb, if_true, this]

theorem count_all_true (sel : List Bool) (hall : ∀ b ∈ sel, b = true) :
    sel.count true = sel.length := by
  rw [List.count_eq_length]
  intro b hb
  exact (hall b hb).symm

/-- C22. For a candidate `j` of the trimmed refiner with raw score `≥ 0` and an invertible raw
basis `B` (so that `B * B⁻¹` is the identity), and a square root that is not negative and does
not exceed the true root: every component of every residual has absolute value at most `1/2`,
every residual norm `d` has `d² ≤ 3/4` and is below `1`, the first threshold is at least `1`,
so all `n_spots` spots are inliers in the first iteration; and when `n_spots ≥ min_spots`
the first check passes and the first fit is the solve on all rows of `miller` and of the
spots, with no row zeroed. -/
theorem lsq_first_iteration_all_inliers (sqrt : ℚ → ℚ) (solve : Mx3 → Mx3 → M3)
    (coords cells : Mx3) (scores : List ℚ) (cpers : config_persistent) (clsq : config_lsq)
    (nspots j : Nat)
    (hsqrt : ∀ x, 0 ≤ x → 0 ≤ sqrt x ∧ sqrt x * sqrt x ≤ x)
    (hscore : 0 ≤ scores.getD j 0)
    (hdet : (cells.block3 (u32 (3 * j))).det ≠ 0)
    (hbuf : u32 (3 * cpers.max_input_cells) + nspots ≤ coords.length) :
    (cells.block3 (u32 (3 * j))).mul (cells.block3 (u32 (3 * j))).inverse = M3.one ∧
    (∀ r ∈ indexer_lsq.resid (indexer_lsq.spots coords cpers nspots) (cells.block3 (u32 (3 * j))),
      |r.x| ≤ 1 / 2 ∧ |r.y| ≤ 1 / 2 ∧ |r.z| ≤ 1 / 2) ∧
    (∀ d ∈ indexer_lsq.norms sqrt
        (indexer_lsq.resid (indexer_lsq.spots coords cpers nspots) (cells.block3 (u32 (3 * j)))),
      0 ≤ d ∧ d * d ≤ 3 / 4 ∧ d < 1) ∧
    1 ≤ indexer_lsq.threshold0 (scores.getD j 0) nspots ∧
    (indexer_lsq.below sqrt (indexer_lsq.spots coords cpers nspots) (cells.block3 (u32 (3 * j)))
      (indexer_lsq.threshold0 (scores.getD j 0) nspots)).count true = nspots ∧
    (clsq.min_spots ≤ nspots →
      indexer_lsq.passes sqrt (indexer_lsq.spots coords cpers nspots) clsq
        (cells.block3 (u32 (3 * j)), indexer_lsq.threshold0 (scores.getD j 0) nspots) = true ∧
      indexer_lsq.next sqrt solve (indexer_lsq.spots coords cpers nspots) clsq
        (cells.block3 (u32 (3 * j)), indexer_lsq.threshold0 (scores.getD j 0) nspots) =
        (solve (indexer_lsq.miller (indexer_lsq.spots coords cpers nspots)
            (cells.block3 (u32 (3 * j))))
          (indexer_lsq.spots coords cpers nspots),
         indexer_lsq.threshold0 (scores.getD j 0) nspots * clsq.threshold_contraction)) := by
  have ht : 1 ≤ indexer_lsq.threshold0 (scores.getD j 0) nspots := by
    unfold indexer_lsq.threshold0
    have : 0 ≤ 2 * scores.getD j 0 / (3 * (nspots : ℚ)) := by positivity
    linarith
  have hall : ∀ b ∈ indexer_lsq.below sqrt (indexer_lsq.spots coords cpers nspots)
      (cells.block3 (u32 (3 * j))) (indexer_lsq.threshold0 (scores.getD j 0) nspots),
      b = true := by
    intro b hb
    simp only [indexer_lsq.below, List.mem_map] at hb
    obtain ⟨d, hd, rfl⟩ := hb
    have := (lsq_norms_bounds sqrt hsqrt _ _ d hd).2.2
    simp only [decide_eq_true_eq]
    linarith
  have hcount : (indexer_lsq.below sqrt (indexer_lsq.spots coords cpers nspots)
      (cells.block3 (u32 (3 * j)))
      (indexer_lsq.threshold0 (scores.getD j 0) nspots)).count true = nspots := by
    rw [count_all_true _ hall, lsq_length_below, lsq_length_spots coords cpers nspots hbuf]
  refine ⟨M3_mul_inverse _ hdet, ?_, fun d hd => lsq_norms_bounds sqrt hsqrt _ _ d hd, ht, hcount,
    ?_⟩
  · intro r hr
    obtain ⟨v, rfl⟩ := mem_sub_round _ r hr
    exact ⟨cround_sub_le v.x, cround_sub_le v.y, cround_sub_le v.z⟩
  · intro hmin
    constructor
    · simp only [indexer_lsq.passes, hcount, Bool.not_eq_true', decide_eq_false_iff_not, not_lt]
      exact hmin
    · unfold indexer_lsq.next
      simp only
      rw [select_all_true _ _ hall (by rw [lsq_length_below, lsq_length_miller]),
        select_all_true _ _ hall (lsq_length_below _ _ _ _)]

/-- C22 on the five-spot run with raw score `0`, the identity as raw basis and `min_spots =
4`: the first inlier-count check passes. -/
theorem lsq_first_iteration_all_inliers_example :
    indexer_lsq.passes floor_sqrt (indexer_lsq.spots five_coords five_cpers 5)
      { threshold_contraction := 1 / 2, min_spots := 4 }
      (identity_cells.block3 (u32 (3 * 0)),
        indexer_lsq.threshold0 (([0] : List ℚ).getD 0 0) 5) = true :=
  ((lsq_first_iteration_all_inliers floor_sqrt normal_solve five_coords identity_cells [0]
    five_cpers { threshold_contraction := 1 / 2, min_spots := 4 } 5 0 floor_sqrt_spec
    (by decide!) (by decide!) (by decide)).2.2.2.2.2 (by decide)).1

/-! ## Exact lattice data and the reweighted refiner -/

theorem Vec3_mulM_assoc (v : Vec3) (a b : M3) : (v.mulM a).mulM b = v.mulM (a.mul b) := by
  simp only [Vec3.mulM, M3.mul, Vec3.mk.injEq]
  refine ⟨?_, ?_, ?_⟩ <;> ring

theorem Vec3_mulM_one (v : Vec3) : v.mulM M3.one = v := by
  simp [Vec3.mulM, M3.one]

theorem Mx3_mulM_mul_inverse (Z : Mx3) (B : M3) (h : B.det ≠ 0) :
    (Z.mulM B).mulM B.inverse = Z := by
  simp only [Mx3.mulM, List.map_map]
  conv_rhs => rw [← List.map_id Z]
  apply List.map_congr_left
  intro v _
  simp only [Function.comp_apply, id, Vec3_mulM_assoc, M3_mul_inverse B h, Vec3_mulM_one]

theorem Mx3_round_of_int (Z : Mx3) (hint : ∀ z ∈ Z, ∃ a b c : ℤ, z = ⟨a, b, c⟩) :
    Z.round = Z := by
  unfold Mx3.round
  conv_rhs => rw [← List.map_id Z]
  apply List.map_congr_left
  intro z hz
  obtain ⟨a, b, c, rfl⟩ := hint z hz
  simp only [Vec3.round, cround_intCast, id]

theorem Mx3_sub_self (m : Mx3) : m.sub m = List.replicate m.length Vec3.zero := by
  induction m with
  | nil => rfl
  | cons v m ih =>
    simp only [Mx3.sub] at ih
    simp only [Mx3.sub, List.zipWith_cons_cons, List.length_cons, List.replicate_succ, ih,
      Vec3.sub, Vec3.zero, sub_self]

theorem zero_rows_weighted (n : Nat) (f : Vec3 → ℚ) :
    List.zipWith (fun e c => Vec3.smul c e) (List.replicate n Vec3.zero)
      ((List.replicate n Vec3.zero).map f) = List.replicate n Vec3.zero := by
  induction n with
  | zero => rfl
  | succ n ih =>
    simp only [List.replicate_succ, List.map_cons, List.zipWith_cons_cons, ih]
    simp [Vec3.smul, Vec3.zero]

theorem objective_zero_rows (Z : Mx3) (X : M3) :
    Mx3.objective Z (List.replicate Z.length Vec3.zero) X =
      (Z.map (fun z => (z.mulM X).sqnorm)).sum := by
  unfold Mx3.objective Mx3.mulM Mx3.sub
  induction Z with
  | nil => rfl
  | cons z Z ih =>
    simp only [List.map_cons, List.length_cons, List.replicate_succ, List.zipWith_cons_cons,
      List.sum_cons, ih]
    simp [Vec3.sub, Vec3.zero]

theorem sqnorm_nonneg (v : Vec3) : 0 ≤ v.sqnorm := by
  unfold Vec3.sqnorm
  nlinarith [mul_self_nonneg v.x, mul_self_nonneg v.y, mul_self_nonneg v.z]

theorem sqnorm_eq_zero (v : Vec3) (h : v.sqnorm = 0) : v.x = 0 ∧ v.y = 0 ∧ v.z = 0 := by
  unfold Vec3.sqnorm at h
  have hx := mul_self_nonneg v.x
  have hy := mul_self_nonneg v.y
  have hz := mul_self_nonneg v.z
  refine ⟨?_, ?_, ?_⟩ <;> apply mul_self_eq_zero.1 <;> linarith

theorem sum_sqnorm_eq_zero (Z : Mx3) (X : M3)
    (h : (Z.map (fun z => (z.mulM X).sqnorm)).sum ≤ 0) :
    ∀ z ∈ Z, (z.mulM X).sqnorm = 0 := by
  induction Z with
  | nil => simp
  | cons v Z ih =>
    simp only [List.map_cons, List.sum_cons] at h
    have h1 := sqnorm_nonneg (v.mulM X)
    have h2 : 0 ≤ (Z.map (fun z => (z.mulM X).sqnorm)).sum :=
      List.sum_nonneg (fun d hd => by
        obtain ⟨z, _, rfl⟩ := List.mem_map.1 hd
        exact sqnorm_nonneg _)
    intro z hz
    rcases List.mem_cons.1 hz with rfl | hz
    · linarith
    · exact ih (by linarith) z hz

theorem objective_nonneg (a b : Mx3) (X : M3) : 0 ≤ Mx3.objective a b X := by
  unfold Mx3.objective
  apply List.sum_nonneg
  intro d hd
  obtain ⟨z, _, rfl⟩ := List.mem_map.1 hd
  exact sqnorm_nonneg _

/-- A least-squares solution of `Z * X ≈ 0` for `Z` of full column rank is the zero
matrix. -/
theorem solve_zero_rows (solve : Mx3 → Mx3 → M3) (Z : Mx3)
    (hrank : ∀ a b c : ℚ, (∀ z ∈ Z, z.x * a + z.y * b + z.z * c = 0) → a = 0 ∧ b = 0 ∧ c = 0)
    (hsolve : ∀ X, Mx3.objective Z (List.replicate Z.length Vec3.zero)
        (solve Z (List.replicate Z.length Vec3.zero)) ≤
      Mx3.objective Z (List.replicate Z.length Vec3.zero) X) :
    solve Z (List.replicate Z.length Vec3.zero) = ⟨Vec3.zero, Vec3.zero, Vec3.zero⟩ := by
  have h0 := hsolve ⟨Vec3.zero, Vec3.zero, Vec3.zero⟩
  have hz : Mx3.objective Z (List.replicate Z.length Vec3.zero)
      ⟨Vec3.zero, Vec3.zero, Vec3.zero⟩ = 0 := by
    rw [objective_zero_rows]
    apply List.sum_eq_zero
    intro d hd
    obtain ⟨z, _, rfl⟩ := List.mem_map.1 hd
    simp [Vec3.mulM, Vec3.zero, Vec3.sqnorm]
  rw [hz, objective_zero_rows] at h0
  have hrows := sum_sqnorm_eq_zero Z _ h0
  have hx := hrank (solve Z (List.replicate Z.length Vec3.zero)).r0.x
    (solve Z (List.replicate Z.length Vec3.zero)).r1.x
    (solve Z (List.replicate Z.length Vec3.zero)).r2.x
    (fun z hz => (sqnorm_eq_zero _ (hrows z hz)).1)
  have hy := hrank (solve Z (List.replicate Z.length Vec3.zero)).r0.y
    (solve Z (List.replicate Z.length Vec3.zero)).r1.y
    (solve Z (List.replicate Z.length Vec3.zero)).r2.y
    (fun z hz => (sqnorm_eq_zero _ (hrows z hz)).2.1)
  have hz := hrank (solve Z (List.replicate Z.length Vec3.zero)).r0.z
    (solve Z (List.replicate Z.length Vec3.zero)).r1.z
    (solve Z (List.replicate Z.length Vec3.zero)).r2.z
    (fun z hz => (sqnorm_eq_zero _ (hrows z hz)).2.2)
  cases hX : solve Z (List.replicate Z.length Vec3.zero) with
  | mk r0 r1 r2 =>
    rw [hX] at hx hy hz
    cases r0; cases r1; cases r2
    simp only [Vec3.zero, M3.mk.injEq, Vec3.mk.injEq]
    simp only at hx hy hz
    exact ⟨⟨hx.1, hy.1, hz.1⟩, ⟨hx.2.1, hy.2.1, hz.2.1⟩, ⟨hx.2.2, hy.2.2, hz.2.2⟩⟩

/-- On exact lattice data one correction returns the basis it was given. -/
theorem ifme_correct_fixed (exp : ℚ → ℚ) (solve : Mx3 → Mx3 → M3) (cifme : config_ifme)
    (uscore_m1 : ℚ) (B : M3) (Z : Mx3) (i : Nat)
    (hdet : B.det ≠ 0)
    (hint : ∀ z ∈ Z, ∃ a b c : ℤ, z = ⟨a, b, c⟩)
    (hrank : ∀ a b c : ℚ, (∀ z ∈ Z, z.x * a + z.y * b + z.z * c = 0) → a = 0 ∧ b = 0 ∧ c = 0)
    (hsolve : ∀ X, Mx3.objective Z (List.replicate Z.length Vec3.zero)
        (solve Z (List.replicate Z.length Vec3.zero)) ≤
      Mx3.objective Z (List.replicate Z.length Vec3.zero) X) :
    indexer_ifme.correct exp solve (Z.mulM B) cifme uscore_m1 B i = B := by
  unfold indexer_ifme.correct
  simp only [Mx3_mulM_mul_inverse Z B hdet, Mx3_round_of_int Z hint, Mx3_sub_self]
  have hlen : (Z.mulM B).length = Z.length := by simp [Mx3.mulM]
  rw [hlen, zero_rows_weighted, solve_zero_rows solve Z hrank hsolve]
  cases B with
  | mk r0 r1 r2 =>
    cases r0; cases r1; cases r2
    simp [M3.add, Vec3.add, Vec3.zero]

theorem ifme_score_exact (B : M3) (Z : Mx3) (hdet : B.det ≠ 0)
    (hint : ∀ z ∈ Z, ∃ a b c : ℤ, z = ⟨a, b, c⟩) :
    indexer_ifme.score (Z.mulM B) B = 0 := by
  unfold indexer_ifme.score
  simp only [Mx3_mulM_mul_inverse Z B hdet, Mx3_round_of_int Z hint, Mx3_sub_self, mean,
    List.map_replicate]
  have : (List.replicate Z.length (Vec3.maxAbs Vec3.zero)).sum = 0 := by
    apply List.sum_eq_zero
    intro d hd
    rw [List.eq_of_mem_replicate hd]
    simp [Vec3.maxAbs, Vec3.zero]
  rw [this, zero_div]

/-- C23. Exact lattice data is a fixed point of the reweighted refiner: when the raw basis `B`
of candidate `j` is invertible, the raw score is not `0`, `weight_contraction > 0`, the spot
matrix is `Z * B` for a matrix `Z` of integer triples of full column rank, and the solve
returns a least-squares solution of `Z * X ≈ 0`, then after any number `n_iter` of
corrections the basis stored for `j` is `B` and the score stored for `j` is `0`. The
conditions on the raw score and on `weight_contraction` keep the scale of the weights from
being `0` in the source; the conclusion holds in the embedding without them. -/
theorem ifme_exact_lattice_fixed_point (exp : ℚ → ℚ) (solve : Mx3 → Mx3 → M3)
    (coords cells : Mx3) (scores : List ℚ) (cpers : config_persistent) (cifme : config_ifme)
    (j : Nat) (Z : Mx3)
    (hcap : 3 * cpers.max_output_cells ≤ 2 ^ 32)
    (hj : j < cpers.max_output_cells)
    (hcells : 3 * cpers.max_output_cells ≤ cells.length)
    (hscores : cpers.max_output_cells ≤ scores.length)
    (hdet : (cells.block3 (3 * j)).det ≠ 0)
    (_hscore : scores.getD j 0 ≠ 0)
    (_hwc : 0 < cifme.weight_contraction)
    (hint : ∀ z ∈ Z, ∃ a b c : ℤ, z = ⟨a, b, c⟩)
    (hspots : indexer_ifme.spots coords cpers = Z.mulM (cells.block3 (3 * j)))
    (hrank : ∀ a b c : ℚ, (∀ z ∈ Z, z.x * a + z.y * b + z.z * c = 0) → a = 0 ∧ b = 0 ∧ c = 0)
    (hsolve : ∀ X, Mx3.objective Z (List.replicate Z.length Vec3.zero)
        (solve Z (List.replicate Z.length Vec3.zero)) ≤
      Mx3.objective Z (List.replicate Z.length Vec3.zero) X) :
    (indexer_ifme.refine exp solve coords cells scores cpers cifme).1.block3 (3 * j) =
      cells.block3 (3 * j) ∧
    (indexer_ifme.refine exp solve coords cells scores cpers cifme).2.getD j 0 = 0 := by
  have hfix : ∀ (u : ℚ) (is : List Nat),
      is.foldl (indexer_ifme.correct exp solve (indexer_ifme.spots coords cpers) cifme u)
        (cells.block3 (3 * j)) = cells.block3 (3 * j) := by
    intro u is
    induction is with
    | nil => rfl
    | cons i is ih =>
      rw [List.foldl_cons, hspots,
        ifme_correct_fixed exp solve cifme u _ Z i hdet hint hrank hsolve, ← hspots]
      exact ih
  obtain ⟨_, _, _, _, h5⟩ := ifme_refine_spec exp solve coords cells scores cpers cifme hcap
  obtain ⟨hB, hS⟩ := h5 j hj
  refine ⟨?_, ?_⟩
  · rw [hB (by omega), hfix]
  · rw [hS (by omega), hfix, hspots]
    exact ifme_score_exact _ Z hdet hint

/-- C23 on six lattice points of a skew basis with determinant `6`, raw score `1/10` and the
default configuration (`n_iter = 3`): the refined basis is the raw basis and the score is
`0`. -/
theorem ifme_exact_lattice_fixed_point_example :
    (indexer_ifme.refine exp_stand_in normal_solve skew_coords skew_cells [1 / 10] lattice_cpers
        {}).1.block3 (3 * 0) = skew_cells.block3 (3 * 0) ∧
    (indexer_ifme.refine exp_stand_in normal_solve skew_coords skew_cells [1 / 10] lattice_cpers
        {}).2.getD 0 0 = 0 :=
  ifme_exact_lattice_fixed_point exp_stand_in normal_solve skew_coords skew_cells [1 / 10]
    lattice_cpers {} 0 skew_triples (by decide) (by decide) (by decide) (by decide) (by decide!)
    (by decide!) (by decide!)
    (by
      intro z hz
      simp only [skew_triples, List.mem_cons, List.mem_singleton, List.not_mem_nil,
        or_false] at hz
      rcases hz with rfl | rfl | rfl | rfl | rfl | rfl
      · exact ⟨1, 0, 0, by norm_num⟩
      · exact ⟨0, 1, 0, by norm_num⟩
      · exact ⟨0, 0, 1, by norm_num⟩
      · exact ⟨1, 1, 0, by norm_num⟩
      · exact ⟨0, 1, 1, by norm_num⟩
      · exact ⟨1, 0, 1, by norm_num⟩)
    (by decide!)
    (by
      intro a b c h
      have h1 := h ⟨1, 0, 0⟩ (by simp [skew_triples])
      have h2 := h ⟨0, 1, 0⟩ (by simp [skew_triples])
      have h3 := h ⟨0, 0, 1⟩ (by simp [skew_triples])
      simp only [one_mul, zero_mul, add_zero, zero_add] at h1 h2 h3
      exact ⟨h1, h2, h3⟩)
    (by
      intro X
      have hs : Mx3.objective skew_triples (List.replicate skew_triples.length Vec3.zero)
          (normal_solve skew_triples (List.replicate skew_triples.length Vec3.zero)) = 0 := by
        decide!
      rw [hs]
      exact objective_nonneg _ _ _)

/-! ## The range of the refined scores -/

theorem le_sqrt_three_half (q : ℚ) (h : q * q ≤ 3 / 4) : (q : ℝ) ≤ Real.sqrt 3 / 2 := by
  have h1 : ((q * q : ℚ) : ℝ) ≤ ((3 / 4 : ℚ) : ℝ) := Rat.cast_le.2 h
  push_cast at h1
  have h2 := Real.sq_sqrt (show (0 : ℝ) ≤ 3 by norm_num)
  have h3 := Real.sqrt_nonneg 3
  by_contra hlt
  nlinarith

theorem ifme_score_range (spots : Mx3) (B : M3) :
    0 ≤ indexer_ifme.score spots B ∧ indexer_ifme.score spots B ≤ 1 / 2 := by
  have hmem : ∀ d ∈ ((spots.mulM B.inverse).sub (spots.mulM B.inverse).round).map Vec3.maxAbs,
      0 ≤ d ∧ d ≤ 1 / 2 := by
    intro d hd
    obtain ⟨r, hr, rfl⟩ := List.mem_map.1 hd
    obtain ⟨v, rfl⟩ := mem_sub_round _ r hr
    exact (sub_round_bounds v).2.2
  exact ⟨mean_nonneg _ (fun d hd => (hmem d hd).1),
    mean_le _ _ (by norm_num) (fun d hd => (hmem d hd).2)⟩

/-- C24. For a run of the trimmed refiner that returns, with `n_spots ≥ 1`, an invertible
final basis of candidate `j` and a square root that is not negative and does not exceed the
true root, the score `s` stored for `j` has `0 ≤ s`, `s² ≤ 3/4` and so `s ≤ √3/2`; the score
stored for `j` by the reweighted refiner, with at least one spot row and an invertible final
basis, lies in `[0, 1/2]`. Neither depends on the raw score. The conditions on the number of
spots and on the final basis keep the mean and the inverse defined in the source; the bounds
hold in the embedding without them. -/
theorem refined_scores_in_range (sqrt exp : ℚ → ℚ) (solve : Mx3 → Mx3 → M3) (fuel : Nat)
    (coords cells : Mx3) (scores : List ℚ) (cpers : config_persistent) (clsq : config_lsq)
    (cifme : config_ifme) (nspots j : Nat) (out : Mx3 × List ℚ)
    (hsqrt : ∀ x, 0 ≤ x → 0 ≤ sqrt x ∧ sqrt x * sqrt x ≤ x)
    (hcap : 3 * cpers.max_output_cells ≤ 2 ^ 32)
    (hscores : cpers.max_output_cells ≤ scores.length)
    (hj : j < cpers.max_output_cells)
    (_hn : 1 ≤ nspots)
    (hrun : indexer_lsq.refine sqrt solve fuel coords cells scores cpers clsq nspots = some out)
    (_hdet : (out.1.block3 (3 * j)).det ≠ 0)
    (_hrows : 1 ≤ (indexer_ifme.spots coords cpers).length)
    (_hdet2 : ((indexer_ifme.refine exp solve coords cells scores cpers cifme).1.block3
      (3 * j)).det ≠ 0) :
    (0 ≤ out.2.getD j 0 ∧ out.2.getD j 0 * out.2.getD j 0 ≤ 3 / 4 ∧
      ((out.2.getD j 0 : ℚ) : ℝ) ≤ Real.sqrt 3 / 2) ∧
    (0 ≤ (indexer_ifme.refine exp solve coords cells scores cpers cifme).2.getD j 0 ∧
      (indexer_ifme.refine exp solve coords cells scores cpers cifme).2.getD j 0 ≤ 1 / 2) := by
  constructor
  · obtain ⟨_, _, _, _, h5⟩ :=
      lsq_refine_spec sqrt solve fuel coords cells scores cpers clsq nspots out hcap hrun
    obtain ⟨r, hr, _, hscore⟩ := h5 j hj
    obtain ⟨k, _, _, _, hq⟩ := (lsq_iterate_eq_some _ _ _ _ _ _ _).1 hr
    have hS := hscore (by omega)
    rw [hq] at hS
    simp only at hS
    have hb := fun d hd => lsq_norms_bounds sqrt hsqrt (indexer_lsq.spots coords cpers nspots)
      (indexer_lsq.state sqrt solve (indexer_lsq.spots coords cpers nspots) clsq
        (cells.block3 (3 * j), indexer_lsq.threshold0 (scores.getD j 0) nspots) k).1 d hd
    have h0 := mean_nonneg _ (fun d hd => (hb d hd).1)
    have h1 := mean_sq_le _ (3 / 4) (by norm_num) (fun d hd => ⟨(hb d hd).1, (hb d hd).2.1⟩)
    rw [← hS] at h0 h1
    exact ⟨h0, h1, le_sqrt_three_half _ h1⟩
  · obtain ⟨_, _, _, _, h5⟩ := ifme_refine_spec exp solve coords cells scores cpers cifme hcap
    rw [(h5 j hj).2 (by omega)]
    exact ifme_score_range _ _

/-- C24 on the five-spot input with raw score `1/10`: the trimmed refiner stores `17/115`
and the reweighted refiner, after one correction, a score in `[0, 1/2]`. -/
theorem refined_scores_in_range_example :
    (0 ≤ ([17 / 115] : List ℚ).getD 0 0 ∧
      ([17 / 115] : List ℚ).getD 0 0 * ([17 / 115] : List ℚ).getD 0 0 ≤ 3 / 4 ∧
      (((([17 / 115] : List ℚ).getD 0 0 : ℚ)) : ℝ) ≤ Real.sqrt 3 / 2) ∧
    (0 ≤ (indexer_ifme.refine exp_stand_in normal_solve five_coords identity_cells [1 / 10]
        five_cpers { n_iter := 1, error_sensitivity := 4 / 5, weight_contraction := 2 }).2.getD
        0 0 ∧
      (indexer_ifme.refine exp_stand_in normal_solve five_coords identity_cells [1 / 10]
        five_cpers { n_iter := 1, error_sensitivity := 4 / 5, weight_contraction := 2 }).2.getD
        0 0 ≤ 1 / 2) :=
  refined_scores_in_range floor_sqrt exp_stand_in normal_solve 8 five_coords identity_cells
    [1 / 10] five_cpers { threshold_contraction := 1 / 2, min_spots := 4 }
    { n_iter := 1, error_sensitivity := 4 / 5, weight_contraction := 2 } 5 0
    ([⟨23 / 25, 0, 0⟩, ⟨0, 1, 0⟩, ⟨0, 0, 1⟩], [17 / 115])
    floor_sqrt_spec (by decide) (by decide) (by decide) (by decide) (by decide!) (by decide!)
    (by decide) (by decide!)

/-! ## Frame and independence of the candidates -/

/-- C25. Both refiners leave the coordinate buffer of the facade as it is, keep the sizes of
the output buffers, and change no output row outside rows `3j .. 3j+2` and no score outside
`scores[j]` for `j < max_output_cells`. Two runs on the same spots and configuration whose
output buffers agree on the raw basis and the raw score of candidate `j`, whatever the other
candidates hold, store the same refined basis and the same score for `j` (for the trimmed
refiner: when both runs return). -/
theorem refine_frame_and_independence (sqrt exp : ℚ → ℚ) (solve : Mx3 → Mx3 → M3) (fuel : Nat)
    (coords cells cells2 : Mx3) (scores scores2 : List ℚ) (cpers : config_persistent)
    (clsq : config_lsq) (cifme : config_ifme) (nspots j : Nat) (out out2 : Mx3 × List ℚ)
    (hcap : 3 * cpers.max_output_cells ≤ 2 ^ 32)
    (hj : j < cpers.max_output_cells)
    (hcells : 3 * cpers.max_output_cells ≤ cells.length)
    (hcells2 : cells2.length = cells.length)
    (hscores : cpers.max_output_cells ≤ scores.length)
    (hscores2 : scores2.length = scores.length)
    (hbasis : cells2.block3 (3 * j) = cells.block3 (3 * j))
    (hscore : scores2.getD j 0 = scores.getD j 0)
    (hrun : indexer_lsq.refine sqrt solve fuel coords cells scores cpers clsq nspots = some out)
    (hrun2 : indexer_lsq.refine sqrt solve fuel coords cells2 scores2 cpers clsq nspots =
      some out2) :
    ((∀ (s : indexer_lsq) (b : Bool) (s1 : indexer_lsq),
        indexer_lsq.is_ready sqrt solve fuel s = some (b, s1) → s1.coords = s.coords) ∧
      out.1.length = cells.length ∧ out.2.length = scores.length ∧
      (∀ i, (∀ k, k < cpers.max_output_cells → ¬ (3 * k ≤ i ∧ i < 3 * k + 3)) →
        Mx3.row out.1 i = Mx3.row cells i) ∧
      (∀ i, ¬ i < cpers.max_output_cells → out.2.getD i 0 = scores.getD i 0) ∧
      out.1.block3 (3 * j) = out2.1.block3 (3 * j) ∧ out.2.getD j 0 = out2.2.getD j 0) ∧
    ((∀ s : indexer_ifme, (indexer_ifme.is_ready exp solve s).2.coords = s.coords) ∧
      (indexer_ifme.refine exp solve coords cells scores cpers cifme).1.length = cells.length ∧
      (indexer_ifme.refine exp solve coords cells scores cpers cifme).2.length = scores.length ∧
      (∀ i, (∀ k, k < cpers.max_output_cells → ¬ (3 * k ≤ i ∧ i < 3 * k + 3)) →
        Mx3.row (indexer_ifme.refine exp solve coords cells scores cpers cifme).1 i =
          Mx3.row cells i) ∧
      (∀ i, ¬ i < cpers.max_output_cells →
        (indexer_ifme.refine exp solve coords cells scores cpers cifme).2.getD i 0 =
          scores.getD i 0) ∧
      (indexer_ifme.refine exp solve coords cells scores cpers cifme).1.block3 (3 * j) =
        (indexer_ifme.refine exp solve coords cells2 scores2 cpers cifme).1.block3 (3 * j) ∧
      (indexer_ifme.refine exp solve coords cells scores cpers cifme).2.getD j 0 =
        (indexer_ifme.refine exp solve coords cells2 scores2 cpers cifme).2.getD j 0) := by
  obtain ⟨a1, a2, a3, a4, a5⟩ :=
    lsq_refine_spec sqrt solve fuel coords cells scores cpers clsq nspots out hcap hrun
  obtain ⟨_, _, _, _, b5⟩ :=
    lsq_refine_spec sqrt solve fuel coords cells2 scores2 cpers clsq nspots out2 hcap hrun2
  obtain ⟨c1, c2, c3, c4, c5⟩ := ifme_refine_spec exp solve coords cells scores cpers cifme hcap
  obtain ⟨_, _, _, _, d5⟩ := ifme_refine_spec exp solve coords cells2 scores2 cpers cifme hcap
  refine ⟨⟨?_, a1, a2, a3, a4, ?_, ?_⟩, ⟨?_, c1, c2, c3, c4, ?_, ?_⟩⟩
  · intro s b s1 h
    unfold indexer_lsq.is_ready at h
    split at h
    · simp only [Option.some.injEq, Prod.mk.injEq] at h
      rw [← h.2]
    · split at h
      · simp at h
      · simp only [Option.some.injEq, Prod.mk.injEq] at h
        rw [← h.2]
  · obtain ⟨r, hr, hc, _⟩ := a5 j hj
    obtain ⟨r2, hr2, hc2, _⟩ := b5 j hj
    rw [hbasis, hscore, hr] at hr2
    simp only [Option.some.injEq] at hr2
    rw [hc (by omega), hc2 (by omega), hr2]
  · obtain ⟨r, hr, _, hs⟩ := a5 j hj
    obtain ⟨r2, hr2, _, hs2⟩ := b5 j hj
    rw [hbasis, hscore, hr] at hr2
    simp only [Option.some.injEq] at hr2
    rw [hs (by omega), hs2 (by omega), hr2]
  · intro s
    unfold indexer_ifme.is_ready
    split <;> rfl
  · rw [(c5 j hj).1 (by omega), (d5 j hj).1 (by omega), hbasis, hscore]
  · rw [(c5 j hj).2 (by omega), (d5 j hj).2 (by omega), hbasis, hscore]

/-- C25 on two runs with two candidates over the five spots: the runs differ in the raw basis
and the raw score of candidate 1 and store the same basis and score for candidate 0. -/
theorem refine_frame_and_independence_example :
    (Mx3.block3 [⟨23 / 25, 0, 0⟩, ⟨0, 1, 0⟩, ⟨0, 0, 1⟩, ⟨6 / 7, 0, 0⟩, ⟨0, 1, 0⟩, ⟨0, 0, 1⟩]
        (3 * 0) =
      Mx3.block3 [⟨23 / 25, 0, 0⟩, ⟨0, 1, 0⟩, ⟨0, 0, 1⟩, ⟨157 / 290, 0, 0⟩, ⟨0, 1, 0⟩, ⟨0, 0, 1⟩]
        (3 * 0) ∧
      ([17 / 115, 4 / 25] : List ℚ).getD 0 0 = ([17 / 115, 72 / 785] : List ℚ).getD 0 0) ∧
    ((indexer_ifme.refine exp_stand_in normal_solve five_coords (pair_cells (9 / 10))
        [1 / 10, 1 / 10] pair_cpers
        { n_iter := 1, error_sensitivity := 4 / 5, weight_contraction := 2 }).1.block3 (3 * 0) =
      (indexer_ifme.refine exp_stand_in normal_solve five_coords (pair_cells (1 / 2))
        [1 / 10, 1 / 5] pair_cpers
        { n_iter := 1, error_sensitivity := 4 / 5, weight_contraction := 2 }).1.block3 (3 * 0) ∧
      (indexer_ifme.refine exp_stand_in normal_solve five_coords (pair_cells (9 / 10))
        [1 / 10, 1 / 10] pair_cpers
        { n_iter := 1, error_sensitivity := 4 / 5, weight_contraction := 2 }).2.getD 0 0 =
      (indexer_ifme.refine exp_stand_in normal_solve five_coords (pair_cells (1 / 2))
        [1 / 10, 1 / 5] pair_cpers
        { n_iter := 1, error_sensitivity := 4 / 5, weight_contraction := 2 }).2.getD 0 0) :=
  have h := refine_frame_and_independence floor_sqrt exp_stand_in normal_solve 8 five_coords
    (pair_cells (9 / 10)) (pair_cells (1 / 2)) [1 / 10, 1 / 10] [1 / 10, 1 / 5] pair_cpers
    { threshold_contraction := 1 / 2, min_spots := 4 }
    { n_iter := 1, error_sensitivity := 4 / 5, weight_contraction := 2 } 5 0
    ([⟨23 / 25, 0, 0⟩, ⟨0, 1, 0⟩, ⟨0, 0, 1⟩, ⟨6 / 7, 0, 0⟩, ⟨0, 1, 0⟩, ⟨0, 0, 1⟩],
      [17 / 115, 4 / 25])
    ([⟨23 / 25, 0, 0⟩, ⟨0, 1, 0⟩, ⟨0, 0, 1⟩, ⟨157 / 290, 0, 0⟩, ⟨0, 1, 0⟩, ⟨0, 0, 1⟩],
      [17 / 115, 72 / 785])
    (by decide) (by decide) (by decide) (by decide) (by decide) (by decide) (by decide!)
    (by decide!) (by decide!) (by decide!)
  ⟨⟨h.1.2.2.2.2.2.1, h.1.2.2.2.2.2.2⟩, ⟨h.2.2.2.2.2.2.1, h.2.2.2.2.2.2.2⟩⟩

end refine

end fast_feedback
